import Mathlib

/-!
# Verification of the Monkey bytecode compiler and virtual machine

This file is a shallow embedding, in Lean 4, of the Go sources of the
`monkey.compiler` repository: the bytecode codec (`pkg/code/code.go`), the
tree-walking compiler (`Compiler.Compile` and helpers), the stack virtual
machine (`VM.Run` and helpers) and the REPL driver (`repl.Start`), together
with proofs about them.

Conventions used throughout:

* Go byte slices are `List Nat` with every element below 256.
* Go `int64` values are `Int` with wrap-around arithmetic made explicit
  (`i64` below); Go `int` operands of the codec are `Int`.
* Go runtime panics (index out of range, nil dereference, integer division
  by zero) are modelled as an explicit `crash` outcome, distinct from an
  error value returned by a function.
* Go interface pointers: `object.Integer`, `object.String`, `object.Array`
  and `object.Hash` values are freshly allocated at distinct addresses, so
  the embedding tags them with an allocation id (`Nat`); `object.Boolean`
  and `object.Null` are package-level singletons, so their identity is their
  payload.  Go `==` on two object interface values is `goEq` below.
* A few pieces referenced by the sources live outside the snapshot (the
  symbol table, the `OpHash` registration, the AST `String()` rendering and
  the `Hashable` capability).  Their definitions carry a doc comment
  starting with `Modelled from the spec:`.
-/

/-! ## 64-bit wrap-around integer arithmetic (Go `int64`) -/

/-- Normalise an `Int` into the `int64` range by two's-complement wrap. -/
def i64 (x : Int) : Int := (x + 2 ^ 63) % 2 ^ 64 - 2 ^ 63

def i64add (a b : Int) : Int := i64 (a + b)

def i64sub (a b : Int) : Int := i64 (a - b)

def i64mul (a b : Int) : Int := i64 (a * b)

/-- Go `int64` negation (wraps on the minimum value). -/
def i64neg (a : Int) : Int := i64 (-a)

/-- Go `int64` division: truncation toward zero.  The caller is responsible
for the divisor being nonzero (Go panics there); the `MinInt64 / -1` case
wraps, which `i64` of the truncated quotient reproduces. -/
def i64div (a b : Int) : Int := i64 (Int.tdiv a b)

/-! ## Runtime values (`object` package, as consumed by the core)

`Obj` is an object *reference*: the `id` field of the heap-allocated
variants models the pointer, so that Go `==` on interfaces (`goEq`) can be
expressed.  `Val` is the pure value obtained by erasing identity. -/

inductive Obj where
  | intO (id : Nat) (v : Int)
  | strO (id : Nat) (s : String)
  | boolO (b : Bool)
  | nullO
  | arrO (id : Nat) (elems : List (Option Obj))
  | hashO (id : Nat) (pairs : List ((String × Int) × Option Obj × Option Obj))

/-- The runtime type tag, as returned by `Object.Type()`.
Modelled from the spec: the tag set `{INTEGER, BOOLEAN, STRING, NULL,
ARRAY, HASH}` of the external `object` package. -/
def objType : Obj → String
  | .intO _ _ => "INTEGER"
  | .strO _ _ => "STRING"
  | .boolO _ => "BOOLEAN"
  | .nullO => "NULL"
  | .arrO _ _ => "ARRAY"
  | .hashO _ _ => "HASH"

/-- Go `==` between two `object.Object` interface values (possibly nil):
equal dynamic type and equal pointer.  Booleans and Null are singletons, so
pointer equality is payload equality for them. -/
def goEq : Option Obj → Option Obj → Bool
  | none, none => true
  | some (.intO i _), some (.intO j _) => i == j
  | some (.strO i _), some (.strO j _) => i == j
  | some (.boolO a), some (.boolO b) => a == b
  | some .nullO, some .nullO => true
  | some (.arrO i _), some (.arrO j _) => i == j
  | some (.hashO i _), some (.hashO j _) => i == j
  | _, _ => false

/-- `isTruthy` from the VM: Boolean by payload, Null falsy, everything else
(including a nil interface, which falls to the default case) truthy. -/
def isTruthy : Option Obj → Bool
  | some (.boolO b) => b
  | some .nullO => false
  | _ => true

/-- Identity-erased runtime values. -/
inductive Val where
  | intV (v : Int)
  | strV (s : String)
  | boolV (b : Bool)
  | nullV
  | arrV (elems : List Val)

mutual

/-- Erase allocation identity.  `none` when the object is (or contains) a
Hash, or an array slot holds a Go nil — cases outside the fragment the
compiler can produce. -/
def eraseObj : Obj → Option Val
  | .intO _ v => some (.intV v)
  | .strO _ s => some (.strV s)
  | .boolO b => some (.boolV b)
  | .nullO => some .nullV
  | .arrO _ elems => (eraseList elems).map .arrV
  | .hashO _ _ => none

def eraseList : List (Option Obj) → Option (List Val)
  | [] => some []
  | none :: _ => none
  | some o :: rest =>
    match eraseObj o, eraseList rest with
    | some v, some vs => some (v :: vs)
    | _, _ => none

end

/-! ## Instruction codec (`pkg/code/code.go`)

Opcodes are the `iota` values of the `const` block. -/

def opNull : Nat := 0
def opConstant : Nat := 1
def opPop : Nat := 2
def opJump : Nat := 3
def opJumpNotTruthy : Nat := 4
def opTrue : Nat := 5
def opFalse : Nat := 6
def opBang : Nat := 7
def opMinus : Nat := 8
def opAdd : Nat := 9
def opSub : Nat := 10
def opMul : Nat := 11
def opDiv : Nat := 12
def opEqual : Nat := 13
def opNotEqual : Nat := 14
def opLessThan : Nat := 15
def opGreaterThan : Nat := 16
def opGetGlobal : Nat := 17
def opSetGlobal : Nat := 18
def opArray : Nat := 19

/-- The `definitions` map: opcode, mnemonic, operand widths. -/
def opDefinitions : List (Nat × String × List Nat) := [
  (opNull, "OpNull", []),
  (opConstant, "OpConstant", [2]),
  (opPop, "OpPop", []),
  (opJump, "OpJump", [2]),
  (opJumpNotTruthy, "OpJumpNotTruthy", [2]),
  (opBang, "OpBang", []),
  (opMinus, "OpMinus", []),
  (opTrue, "OpTrue", []),
  (opFalse, "OpFalse", []),
  (opAdd, "OpAdd", []),
  (opSub, "OpSub", []),
  (opMul, "OpMul", []),
  (opDiv, "OpDiv", []),
  (opEqual, "OpEqual", []),
  (opNotEqual, "OpNotEqual", []),
  (opLessThan, "OpLessThan", []),
  (opGreaterThan, "OpGreaterThan", []),
  (opGetGlobal, "OpGetGlobal", [2]),
  (opSetGlobal, "OpSetGlobal", [2]),
  (opArray, "OpArray", [2])]

/-- `Lookup`: `some (name, widths)` for a registered opcode, `none` for the
`opcode %d undefined` error. -/
def lookupDef (op : Nat) : Option (String × List Nat) :=
  (opDefinitions.find? (fun d => d.1 == op)).map (fun d => d.2)

/-- `binary.BigEndian.PutUint16` of a Go `int` cast to `uint16`: the value
modulo 2^16, split into two big-endian bytes. -/
def putUint16 (o : Int) : List Nat :=
  [(o % 65536).toNat / 256, (o % 65536).toNat % 256]

/-- The operand-encoding loop of `Make`.  Go iterates over the *operands*,
indexing the width table: extra operands panic (`none`); missing operands
leave the preallocated zero bytes in place; a width other than 2 is
silently skipped (zero bytes of that width). -/
def writeOperands : List Nat → List Int → Option (List Nat)
  | ws, [] => some (List.replicate ws.sum 0)
  | [], _ :: _ => none
  | w :: ws, o :: os =>
    (writeOperands ws os).map (fun rest =>
      (if w == 2 then putUint16 o else List.replicate w 0) ++ rest)

/-- `Make`: empty sequence for an unregistered opcode, otherwise the opcode
byte followed by the encoded operands.  `none` is the Go panic of indexing
the width table beyond its length. -/
def make (op : Nat) (operands : List Int) : Option (List Nat) :=
  match lookupDef op with
  | none => some []
  | some (_, ws) => (writeOperands ws operands).map (fun bs => op :: bs)

/-- `ReadUint16`: big-endian view of the first two bytes; `none` is the Go
panic on a slice shorter than two bytes. -/
def readUint16 : List Nat → Option Nat
  | b0 :: b1 :: _ => some (b0 * 256 + b1)
  | _ => none

/-- `ReadOperands`: decode operand fields per the width table, returning the
values and the bytes consumed.  `none` is a Go slice-bounds panic. -/
def readOperands : List Nat → List Nat → Option (List Int × Nat)
  | [], _ => some ([], 0)
  | w :: ws, ins =>
    match w with
    | 2 =>
      match readUint16 ins with
      | none => none
      | some v =>
        (readOperands ws (ins.drop 2)).map
          (fun p => ((v : Int) :: p.1, p.2 + 2))
    | _ =>
      (readOperands ws (ins.drop w)).map (fun p => ((0 : Int) :: p.1, p.2 + w))

/-! ## Disassembler (`Instructions.String`) -/

/-- `%04d` formatting: decimal, zero-padded on the left to four digits. -/
def pad4 (n : Nat) : String :=
  let s := toString n
  if s.length ≥ 4 then s else String.mk (List.replicate (4 - s.length) '0') ++ s.toList.asString

/-- `fmtInstruction`. -/
def fmtInstruction (name : String) (ws : List Nat) (operands : List Int) : String :=
  if operands.length ≠ ws.length then
    "ERROR: operand len " ++ toString operands.length ++
      " does not match defined " ++ toString ws.length ++ "\n"
  else
    match ws.length with
    | 0 => name
    | 1 => name ++ " " ++ toString (operands.getD 0 0)
    | _ => "ERROR: unhandled operandCount for " ++ name ++ "\n"

/-- Result of running the disassembly loop under a fuel bound. -/
inductive DisasmResult where
  | done (out : String)
  | crashed
  | fuelOut
deriving DecidableEq

/-- The loop of `Instructions.String`, one iteration per unit of fuel.
Note that the unknown-opcode branch appends the error line and `continue`s
without advancing `i`, exactly as the source does. -/
def instructionsStringLoop : Nat → List Nat → Nat → String → DisasmResult
  | 0, _, _, _ => .fuelOut
  | n + 1, ins, i, out =>
    if i < ins.length then
      match lookupDef (ins.getD i 0) with
      | none =>
        instructionsStringLoop n ins i
          (out ++ "ERROR: opcode " ++ toString (ins.getD i 0) ++ " undefined\n")
      | some (name, ws) =>
        match readOperands ws (ins.drop (i + 1)) with
        | none => .crashed
        | some (operands, read) =>
          instructionsStringLoop n ins (i + 1 + read)
            (out ++ pad4 i ++ " " ++ fmtInstruction name ws operands ++ "\n")
    else .done out

/-! ## Abstract syntax (the `ast` contract consumed by the compiler)

Modelled from the spec: the external `ast` package supplies these node
kinds; the mutual inductives below mirror the shapes the compiler matches
on (`Program` and `BlockStatement` both carry statement lists). -/

mutual

inductive Expr where
  | intLit (v : Int)
  | strLit (s : String)
  | boolLit (b : Bool)
  | ident (name : String)
  | pre (op : String) (right : Expr)
  | bin (op : String) (left : Expr) (right : Expr)
  | ifE (cond : Expr) (cons : StmtList) (alt : AltBlock)
  | arrayLit (elems : ExprList)
  | hashLit (pairs : PairList)

inductive ExprList where
  | nil
  | cons (e : Expr) (rest : ExprList)

inductive PairList where
  | nil
  | cons (key : Expr) (value : Expr) (rest : PairList)

inductive AltBlock where
  | noAlt
  | someAlt (b : StmtList)

inductive StmtList where
  | nil
  | cons (s : Stmt) (rest : StmtList)

inductive Stmt where
  | exprStmt (e : Expr)
  | letStmt (name : String) (value : Expr)

end

def ExprList.length : ExprList → Nat
  | .nil => 0
  | .cons _ rest => 1 + rest.length

def PairList.length : PairList → Nat
  | .nil => 0
  | .cons _ _ rest => 1 + rest.length

/-! ## Symbol table

Modelled from the spec: the symbol table source file is not part of the
snapshot (only its callers are).  Single global scope; `Define` assigns the
next unused index and records the mapping (a redefinition is recorded anew
with a fresh index, the spec's conforming choice); `Resolve` is a pure
lookup returning the most recent binding. -/

structure SymbolTable where
  store : List (String × Nat)
  numDefinitions : Nat

def SymbolTable.define (st : SymbolTable) (name : String) : Nat × SymbolTable :=
  (st.numDefinitions,
    ⟨(name, st.numDefinitions) :: st.store, st.numDefinitions + 1⟩)

def SymbolTable.resolve (st : SymbolTable) (name : String) : Option Nat :=
  (st.store.find? (fun p => p.1 == name)).map (fun p => p.2)

def newSymbolTable : SymbolTable := ⟨[], 0⟩

/-! ## Compiler state (`pkg/compiler`) -/

structure EmittedInstruction where
  opCode : Nat
  position : Nat
deriving DecidableEq

structure CompState where
  instructions : List Nat
  constants : List Obj
  lastInstruction : EmittedInstruction
  previousInstruction : EmittedInstruction
  symbolTable : SymbolTable

/-- `New()`: empty state with a fresh symbol table (the zero value of
`EmittedInstruction` is `OpNull` at position 0). -/
def compilerNew : CompState :=
  ⟨[], [], ⟨0, 0⟩, ⟨0, 0⟩, newSymbolTable⟩

/-- `NewWithState(symbolTable, constants)`. -/
def compilerNewWithState (sym : SymbolTable) (consts : List Obj) : CompState :=
  ⟨[], consts, ⟨0, 0⟩, ⟨0, 0⟩, sym⟩

/-- `addConstant`: append, return the index of the new constant.  The
builder receives the allocation id of the freshly created object; pool
indices serve as ids (every constant is a distinct allocation). -/
def addConstant (c : CompState) (mk : Nat → Obj) : Nat × CompState :=
  (c.constants.length, { c with constants := c.constants ++ [mk c.constants.length] })

/-- `emit` = `Make` + `addInstruction` + `setLastInstruction`.  The compiler
only calls `Make` within its operand-count contract, so the panic case of
`make` is collapsed with `getD`. -/
def emit (c : CompState) (op : Nat) (operands : List Int) : Nat × CompState :=
  let ins := (make op operands).getD []
  let pos := c.instructions.length
  (pos, { c with
      instructions := c.instructions ++ ins,
      previousInstruction := c.lastInstruction,
      lastInstruction := ⟨op, pos⟩ })

def lastInstructionIsPop (c : CompState) : Bool :=
  c.lastInstruction.opCode == opPop

/-- `removeLastPop`: truncate the buffer at the recorded position and
restore the previous last-emitted record. -/
def removeLastPop (c : CompState) : CompState :=
  { c with
      instructions := c.instructions.take c.lastInstruction.position,
      lastInstruction := c.previousInstruction }

/-- The byte-splice loop of `replaceInstruction` (in-range at both call
sites; out-of-range `List.set` is a no-op where Go would panic). -/
def writeBytes : List Nat → Nat → List Nat → List Nat
  | ins, _, [] => ins
  | ins, p, b :: bs => writeBytes (ins.set p b) (p + 1) bs

def replaceInstruction (c : CompState) (pos : Nat) (newInstruction : List Nat) : CompState :=
  { c with instructions := writeBytes c.instructions pos newInstruction }

/-- `changeOperand`: re-encode the opcode found at `opPos` with the new
operand and splice it in place. -/
def changeOperand (c : CompState) (opPos : Nat) (operand : Int) : CompState :=
  let op := c.instructions.getD opPos 0
  let newInstruction := (make op [operand]).getD []
  replaceInstruction c opPos newInstruction

/-! ## `Compiler.Compile` -/

/-- The `if err := c.Compile(node); err != nil { return err }` pattern. -/
def exBind (x : Except String CompState) (f : CompState → Except String CompState) :
    Except String CompState :=
  match x with
  | .error err => .error err
  | .ok c => f c

mutual

/-- The `*ast.Program` and `*ast.BlockStatement` cases: compile each
statement in order, stopping at the first error. -/
def compileStmts : CompState → StmtList → Except String CompState
  | c, .nil => .ok c
  | c, .cons s rest =>
    exBind (compileStmt c s) (fun c1 => compileStmts c1 rest)

def compileStmt : CompState → Stmt → Except String CompState
  | c, .exprStmt e =>
    exBind (compileExpr c e) (fun c1 => .ok (emit c1 opPop []).2)
  | c, .letStmt name value =>
    exBind (compileExpr c value) (fun c1 =>
      let d := c1.symbolTable.define name
      .ok (emit { c1 with symbolTable := d.2 } opSetGlobal [(d.1 : Int)]).2)

def compileExpr : CompState → Expr → Except String CompState
  | c, .bin op left right =>
    exBind (compileExpr c left) (fun c1 =>
      exBind (compileExpr c1 right) (fun c2 =>
        if op == "+" then .ok (emit c2 opAdd []).2
        else if op == "-" then .ok (emit c2 opSub []).2
        else if op == "*" then .ok (emit c2 opMul []).2
        else if op == "/" then .ok (emit c2 opDiv []).2
        else if op == "==" then .ok (emit c2 opEqual []).2
        else if op == "!=" then .ok (emit c2 opNotEqual []).2
        else if op == "<" then .ok (emit c2 opLessThan []).2
        else if op == ">" then .ok (emit c2 opGreaterThan []).2
        else .error ("unknown operator " ++ op)))
  | c, .pre op right =>
    exBind (compileExpr c right) (fun c1 =>
      if op == "!" then .ok (emit c1 opBang []).2
      else if op == "-" then .ok (emit c1 opMinus []).2
      else .error ("unknown prefix operator " ++ op))
  | c, .ifE cond cons alt =>
    exBind (compileExpr c cond) (fun c1 =>
      let jnt := emit c1 opJumpNotTruthy [9999]
      exBind (compileStmts jnt.2 cons) (fun c3 =>
        let c4 := if lastInstructionIsPop c3 then removeLastPop c3 else c3
        let jmp := emit c4 opJump [9999]
        let afterConsequencePos := jmp.2.instructions.length
        let c6 := changeOperand jmp.2 jnt.1 (afterConsequencePos : Int)
        match alt with
        | .noAlt =>
          let c7 := (emit c6 opNull []).2
          let afterAlternativePos := c7.instructions.length
          .ok (changeOperand c7 jmp.1 (afterAlternativePos : Int))
        | .someAlt b =>
          exBind (compileStmts c6 b) (fun c7 =>
            let c8 := if lastInstructionIsPop c7 then removeLastPop c7 else c7
            let afterAlternativePos := c8.instructions.length
            .ok (changeOperand c8 jmp.1 (afterAlternativePos : Int)))))
  | c, .ident name =>
    match c.symbolTable.resolve name with
    | none => .error ("undefined identifier " ++ name)
    | some idx => .ok (emit c opGetGlobal [(idx : Int)]).2
  | c, .arrayLit elems =>
    exBind (compileExprList c elems) (fun c1 =>
      .ok (emit c1 opArray [(elems.length : Int)]).2)
  | c, .strLit s =>
    let a := addConstant c (fun id => .strO id s)
    .ok (emit a.2 opConstant [(a.1 : Int)]).2
  | c, .intLit v =>
    let a := addConstant c (fun id => .intO id v)
    .ok (emit a.2 opConstant [(a.1 : Int)]).2
  | c, .boolLit b =>
    if b then .ok (emit c opTrue []).2 else .ok (emit c opFalse []).2
  | _, .hashLit _ =>
    -- No `*ast.HashLiteral` case exists in the snapshot compiler: the
    -- `default` arm fires.
    .error "unsupported node encountered *ast.HashLiteral"

def compileExprList : CompState → ExprList → Except String CompState
  | c, .nil => .ok c
  | c, .cons e rest =>
    exBind (compileExpr c e) (fun c1 => compileExprList c1 rest)

end

/-- `Compile` on a whole program from `New()`, returning `Bytecode()`:
the instruction stream and the constant pool. -/
def compileProgram (p : StmtList) : Except String (List Nat × List Obj) :=
  (compileStmts compilerNew p).map (fun c => (c.instructions, c.constants))

/-! ## The virtual machine (`pkg/vm`)

The stack and the globals array are total functions from slot index to
`Option Obj` (`none` is a Go nil interface or a never-written slot); `sp`
counts live entries.  `nextId` is the allocator for fresh object
identities; `vmNew` starts it past the constant-pool ids, mirroring the
distinctness of all Go heap allocations. -/

def stackSize : Nat := 2048

def globalSize : Nat := 65536

structure VMState where
  constants : List Obj
  instructions : List Nat
  global : Nat → Option Obj
  stack : Nat → Option Obj
  sp : Nat
  nextId : Nat
  ip : Nat

/-- `New(bytecode)`: fresh stack and globals, `sp = 0`. -/
def vmNew (ins : List Nat) (consts : List Obj) : VMState :=
  ⟨consts, ins, fun _ => none, fun _ => none, 0, consts.length, 0⟩

/-- How a fetch-execute iteration can end the run. -/
inductive Halt where
  | fin (s : VMState)
  | err (msg : String)
  | crash

/-- `push`: rejects at capacity with `stack overflow`, otherwise writes
`stack[sp]` and increments `sp`. -/
def vmPush (s : VMState) (o : Option Obj) : VMState × Option String :=
  if s.sp ≥ stackSize then (s, some "stack overflow")
  else ({ s with stack := fun j => if j = s.sp then o else s.stack j, sp := s.sp + 1 }, none)

/-- `pop`: reads `stack[sp-1]` and decrements `sp`; popping an empty stack
indexes `stack[-1]`, a Go panic (`none`). -/
def vmPop (s : VMState) : Option (Option Obj × VMState) :=
  if s.sp = 0 then none
  else some (s.stack (s.sp - 1), { s with sp := s.sp - 1 })

/-- Allocate a fresh object and push it. -/
def vmPushNew (s : VMState) (mk : Nat → Obj) : VMState × Option String :=
  vmPush { s with nextId := s.nextId + 1 } (some (mk s.nextId))

def nativeBoolToBooleanObject (b : Bool) : Obj := .boolO b

/-- `executeBinaryOperation` (with `executeBinaryIntegerOberation` and
`executeBinaryStringOperation` inlined).  Outer `none` is a panic: popping
an empty stack, `Type()` on a nil interface, or division by zero.  The
returned message is the error value — which `Run()` discards at this
dispatch site. -/
def executeBinaryOperation (op : Nat) (s : VMState) : Option (VMState × Option String) :=
  match vmPop s with
  | none => none
  | some (right, s1) =>
    match vmPop s1 with
    | none => none
    | some (left, s2) =>
      match left, right with
      | none, _ => none
      | _, none => none
      | some lo, some ro =>
        match lo, ro with
        | .intO _ lv, .intO _ rv =>
          if op = opAdd then some (vmPushNew s2 (fun id => .intO id (i64add lv rv)))
          else if op = opSub then some (vmPushNew s2 (fun id => .intO id (i64sub lv rv)))
          else if op = opMul then some (vmPushNew s2 (fun id => .intO id (i64mul lv rv)))
          else if op = opDiv then
            if rv = 0 then none
            else some (vmPushNew s2 (fun id => .intO id (i64div lv rv)))
          else some (s2, some ("unknown interger operator: " ++ toString op))
        | .strO _ lv, .strO _ rv =>
          if op = opAdd then some (vmPushNew s2 (fun id => .strO id (lv ++ rv)))
          else some (s2, some ("unknown interger operator: " ++ toString op))
        | _, _ =>
          some (s2, some ("unsupported types for binary operation: " ++
            objType lo ++ " " ++ objType ro))

/-- `executeComparison` (with `executeIntegerComparison` inlined).  Two
integers compare by payload; any other pair by Go interface equality
(`goEq`), i.e. reference identity. -/
def executeComparison (op : Nat) (s : VMState) : Option (VMState × Option String) :=
  match vmPop s with
  | none => none
  | some (right, s1) =>
    match vmPop s1 with
    | none => none
    | some (left, s2) =>
      match left, right with
      | none, _ => none
      | _, none => none
      | some lo, some ro =>
        match lo, ro with
        | .intO _ lv, .intO _ rv =>
          if op = opEqual then
            some (vmPush s2 (some (nativeBoolToBooleanObject (lv == rv))))
          else if op = opNotEqual then
            some (vmPush s2 (some (nativeBoolToBooleanObject (lv != rv))))
          else if op = opLessThan then
            some (vmPush s2 (some (nativeBoolToBooleanObject (decide (lv < rv)))))
          else if op = opGreaterThan then
            some (vmPush s2 (some (nativeBoolToBooleanObject (decide (lv > rv)))))
          else some (s2, some ("unknown operator: " ++ toString op))
        | _, _ =>
          if op = opEqual then
            some (vmPush s2 (some (nativeBoolToBooleanObject (goEq (some lo) (some ro)))))
          else if op = opNotEqual then
            some (vmPush s2 (some (nativeBoolToBooleanObject (!goEq (some lo) (some ro)))))
          else
            some (s2, some ("unknown operator: " ++ toString op ++
              " (" ++ objType lo ++ " " ++ objType ro ++ ")"))

/-- `executeBangOperator`: the singletons are matched by identity; every
other operand (a nil interface included) falls to the default and pushes
False. -/
def executeBangOperator (s : VMState) : Option (VMState × Option String) :=
  match vmPop s with
  | none => none
  | some (operand, s1) =>
    match operand with
    | some (.boolO true) => some (vmPush s1 (some (.boolO false)))
    | some (.boolO false) => some (vmPush s1 (some (.boolO true)))
    | some .nullO => some (vmPush s1 (some (.boolO true)))
    | _ => some (vmPush s1 (some (.boolO false)))

/-- `executeMinusOperator`: `Type()` on a nil operand panics; a non-integer
is an error; otherwise push the (freshly allocated) negation. -/
def executeMinusOperator (s : VMState) : Option (VMState × Option String) :=
  match vmPop s with
  | none => none
  | some (operand, s1) =>
    match operand with
    | none => none
    | some o =>
      match o with
      | .intO _ v => some (vmPushNew s1 (fun id => .intO id (i64neg v)))
      | _ => some (s1, some ("unsupported type for negation: " ++ objType o))

/-- The `OpArray` pop loop: pop `n` values, walking destination indices
from `n-1` down to `0`, so the list returned is in source order. -/
def popElements : Nat → VMState → Option (List (Option Obj) × VMState)
  | 0, s => some ([], s)
  | n + 1, s =>
    match vmPop s with
    | none => none
    | some (o, s1) =>
      (popElements n s1).map (fun p => (p.1 ++ [o], p.2))

/-- Modelled from the spec: the `Hashable` capability of the external
`object` package — `(type-tag, 64-bit)` keys; Integers by payload, Booleans
as 1/0, Strings by FNV-1a over their bytes (ASCII agrees with UTF-8). -/
def fnv64a (s : String) : Int :=
  Int.ofNat (s.toList.foldl
    (fun h c => ((h ^^^ c.toNat) * 1099511628211) % (2 ^ 64))
    14695981039346656037)

def hashKeyOf : Obj → Option (String × Int)
  | .intO _ v => some ("INTEGER", v)
  | .boolO b => some ("BOOLEAN", if b then 1 else 0)
  | .strO _ s => some ("STRING", fnv64a s)
  | _ => none

/-- Map insertion with overwrite for the `hash.Pairs` Go map. -/
def upsertPair (ps : List ((String × Int) × Option Obj × Option Obj))
    (k : String × Int) (kv : Option Obj × Option Obj) :
    List ((String × Int) × Option Obj × Option Obj) :=
  if ps.any (fun p => p.1 = k) then
    ps.map (fun p => if p.1 = k then (k, kv) else p)
  else ps ++ [(k, kv)]

/-- The `OpHash` pop loop: `pairs` iterations of pop value, pop key, insert
under the key's hash key; a non-Hashable key is an error (`Run` checks this
one), a nil key panics in `key.Type()` when formatting it. -/
def popHashPairs : Nat → VMState → List ((String × Int) × Option Obj × Option Obj) →
    Option (Except String (List ((String × Int) × Option Obj × Option Obj) × VMState))
  | 0, s, acc => some (.ok (acc, s))
  | n + 1, s, acc =>
    match vmPop s with
    | none => none
    | some (value, s1) =>
      match vmPop s1 with
      | none => none
      | some (key, s2) =>
        match key with
        | none => none
        | some k =>
          match hashKeyOf k with
          | none => some (.error ("unusable as hash key: " ++ objType k))
          | some hk => popHashPairs n s2 (upsertPair acc hk (some k, value))

/-- One iteration of the fetch-decode-execute loop of `Run()` (second,
current revision).  `Except.ok` continues with the new state; `Except.error`
is the loop ending.  Jumps: Go sets `ip = address - 1` and the loop
increment restores `address`, which this per-iteration view composes into
`ip := address`.  `OpAdd..OpDiv` and the comparison dispatch call their
helper *without checking the returned error* — exactly as the source does.
An opcode with no case (there is no `default`) is silently skipped. -/
def vmStep (s : VMState) : Except Halt VMState :=
  if s.ip < s.instructions.length then
    let op := s.instructions.getD s.ip 0
    if op = opNull then
      match vmPush s (some .nullO) with
      | (_, some e) => .error (.err e)
      | (s1, none) => .ok { s1 with ip := s.ip + 1 }
    else if op = opPop then
      match vmPop s with
      | none => .error .crash
      | some (_, s1) => .ok { s1 with ip := s.ip + 1 }
    else if op = opConstant then
      match readUint16 (s.instructions.drop (s.ip + 1)) with
      | none => .error .crash
      | some constIndex =>
        match s.constants.get? constIndex with
        | none => .error .crash
        | some c =>
          match vmPush s (some c) with
          | (_, some e) => .error (.err e)
          | (s1, none) => .ok { s1 with ip := s.ip + 3 }
    else if op = opTrue then
      match vmPush s (some (.boolO true)) with
      | (_, some e) => .error (.err e)
      | (s1, none) => .ok { s1 with ip := s.ip + 1 }
    else if op = opFalse then
      match vmPush s (some (.boolO false)) with
      | (_, some e) => .error (.err e)
      | (s1, none) => .ok { s1 with ip := s.ip + 1 }
    else if op = opArray then
      match readUint16 (s.instructions.drop (s.ip + 1)) with
      | none => .error .crash
      | some elements =>
        match popElements elements s with
        | none => .error .crash
        | some (elems, s1) =>
          match vmPushNew s1 (fun id => .arrO id elems) with
          | (_, some e) => .error (.err e)
          | (s2, none) => .ok { s2 with ip := s.ip + 3 }
    else if op = opAdd ∨ op = opSub ∨ op = opMul ∨ op = opDiv then
      match executeBinaryOperation op s with
      | none => .error .crash
      | some (s1, _) => .ok { s1 with ip := s.ip + 1 }
    else if op = opEqual ∨ op = opNotEqual ∨ op = opLessThan ∨ op = opGreaterThan then
      match executeComparison op s with
      | none => .error .crash
      | some (s1, _) => .ok { s1 with ip := s.ip + 1 }
    else if op = opBang then
      match executeBangOperator s with
      | none => .error .crash
      | some (_, some e) => .error (.err e)
      | some (s1, none) => .ok { s1 with ip := s.ip + 1 }
    else if op = opMinus then
      match executeMinusOperator s with
      | none => .error .crash
      | some (_, some e) => .error (.err e)
      | some (s1, none) => .ok { s1 with ip := s.ip + 1 }
    else if op = opJump then
      match readUint16 (s.instructions.drop (s.ip + 1)) with
      | none => .error .crash
      | some address => .ok { s with ip := address }
    else if op = opJumpNotTruthy then
      match readUint16 (s.instructions.drop (s.ip + 1)) with
      | none => .error .crash
      | some address =>
        match vmPop s with
        | none => .error .crash
        | some (condition, s1) =>
          if ! isTruthy condition then .ok { s1 with ip := address }
          else .ok { s1 with ip := s.ip + 3 }
    else if op = opGetGlobal then
      match readUint16 (s.instructions.drop (s.ip + 1)) with
      | none => .error .crash
      | some globalIndex =>
        match vmPush s (s.global globalIndex) with
        | (_, some e) => .error (.err e)
        | (s1, none) => .ok { s1 with ip := s.ip + 3 }
    else if op = opSetGlobal then
      match readUint16 (s.instructions.drop (s.ip + 1)) with
      | none => .error .crash
      | some globalIndex =>
        match vmPop s with
        | none => .error .crash
        | some (value, s1) =>
          .ok { s1 with
            global := fun j => if j = globalIndex then value else s1.global j,
            ip := s.ip + 3 }
    else
      -- `OpHash` in the source dispatches on an opcode value the snapshot
      -- codec does not define; with the spec-modelled value 20 it would sit
      -- here.  Any byte without a case falls through the switch: `ip`
      -- advances by one and execution continues.
      if op = 20 then
        match readUint16 (s.instructions.drop (s.ip + 1)) with
        | none => .error .crash
        | some pairs =>
          match popHashPairs pairs s [] with
          | none => .error .crash
          | some (.error e) => .error (.err e)
          | some (.ok (ps, s1)) =>
            match vmPushNew s1 (fun id => .hashO id ps) with
            | (_, some e) => .error (.err e)
            | (s2, none) => .ok { s2 with ip := s.ip + 3 }
      else .ok { s with ip := s.ip + 1 }
  else .error (.fin s)

/-- Iterate `vmStep` under a fuel bound; `Except.ok` means the loop is
still running after that many iterations. -/
def runFrom : Nat → VMState → Except Halt VMState
  | 0, s => .ok s
  | n + 1, s =>
    match vmStep s with
    | .error h => .error h
    | .ok s1 => runFrom n s1

/-- `Run()` reaches outcome `h` (possibly after unboundedly many
iterations): some fuel bound exhibits it.  `Halt.fin` is `Run` returning
nil, `Halt.err` an error return, `Halt.crash` a Go panic. -/
def RunHalts (s : VMState) (h : Halt) : Prop := ∃ n, runFrom n s = .error h

/-- `LastPoppedStackElement()`: the slot just above the logical top. -/
def lastPoppedStackElement (s : VMState) : Option Obj := s.stack s.sp

/-! ## Source-level evaluation semantics

`evalExpr` is a big-step semantics of the source language used to make the
spec's notion of a *well-typed* program precise: a program is well typed
when its evaluation succeeds.  Evaluation fails (`none`) exactly where the
compiled implementation would raise a type error or crash: mixed-type
arithmetic, non-integer ordering comparisons, equality on Strings or Arrays
(whose outcome under the VM's reference-identity rule is not a function of
the values), division by zero, unbound identifiers at their evaluation
time, unsupported nodes, and `if`-branches that end without an expression
value (the compiled code then pops an empty stack).  Environments thread
through evaluation because `let` statements inside `if`-branches update the
single global scope. -/

def Env : Type := String → Option Val

def emptyEnv : Env := fun _ => none

def envUpdate (env : Env) (n : String) (v : Val) : Env :=
  fun m => if m = n then some v else env m

def isTruthyVal : Val → Bool
  | .boolV b => b
  | .nullV => false
  | _ => true

def bangVal : Val → Bool
  | .boolV true => false
  | .boolV false => true
  | .nullV => true
  | _ => false

/-- Is this a value whose Go interface identity is determined by the value
itself (integers compare by payload in the VM; Booleans and Null are
singletons)? -/
def identityKind : Val → Bool
  | .intV _ => true
  | .boolV _ => true
  | .nullV => true
  | _ => false

def binValOp (op : String) : Val → Val → Option Val
  | .intV a, .intV b =>
    if op == "+" then some (.intV (i64add a b))
    else if op == "-" then some (.intV (i64sub a b))
    else if op == "*" then some (.intV (i64mul a b))
    else if op == "/" then
      if b = 0 then none else some (.intV (i64div a b))
    else if op == "==" then some (.boolV (a == b))
    else if op == "!=" then some (.boolV (a != b))
    else if op == "<" then some (.boolV (decide (a < b)))
    else if op == ">" then some (.boolV (decide (a > b)))
    else none
  | .strV a, .strV b =>
    if op == "+" then some (.strV (a ++ b)) else none
  | .boolV a, .boolV b =>
    if op == "==" then some (.boolV (a == b))
    else if op == "!=" then some (.boolV (a != b))
    else none
  | .nullV, .nullV =>
    if op == "==" then some (.boolV true)
    else if op == "!=" then some (.boolV false)
    else none
  | l, r =>
    if identityKind l && identityKind r then
      if op == "==" then some (.boolV false)
      else if op == "!=" then some (.boolV true)
      else none
    else none

/-- The value of a block used as an `if`-branch: only a block whose last
executed statement produced a value yields one. -/
def blockValue (x : Option (Env × Option Val)) : Option (Val × Env) :=
  match x with
  | some (env2, some v) => some (v, env2)
  | _ => none

mutual

def evalExpr : Env → Expr → Option (Val × Env)
  | env, .intLit v => some (.intV v, env)
  | env, .strLit s => some (.strV s, env)
  | env, .boolLit b => some (.boolV b, env)
  | env, .ident n => (env n).map (fun v => (v, env))
  | env, .pre op r =>
    Option.bind (evalExpr env r) (fun p =>
      if op == "!" then some (.boolV (bangVal p.1), p.2)
      else if op == "-" then
        match p.1 with
        | .intV i => some (.intV (i64neg i), p.2)
        | _ => none
      else none)
  | env, .bin op l r =>
    Option.bind (evalExpr env l) (fun p =>
      Option.bind (evalExpr p.2 r) (fun q =>
        (binValOp op p.1 q.1).map (fun v => (v, q.2))))
  | env, .ifE cond cons alt =>
    Option.bind (evalExpr env cond) (fun p =>
      if isTruthyVal p.1 then
        blockValue (evalBlockAux p.2 cons none)
      else
        match alt with
        | .noAlt => some (.nullV, p.2)
        | .someAlt b => blockValue (evalBlockAux p.2 b none))
  | env, .arrayLit elems =>
    (evalExprList env elems).map (fun p => (.arrV p.1, p.2))
  | _, .hashLit _ => none

def evalExprList : Env → ExprList → Option (List Val × Env)
  | env, .nil => some ([], env)
  | env, .cons e rest =>
    Option.bind (evalExpr env e) (fun p =>
      (evalExprList p.2 rest).map (fun q => (p.1 :: q.1, q.2)))

def evalStmt : Env → Stmt → Option (Env × Option Val)
  | env, .exprStmt e =>
    (evalExpr env e).map (fun p => (p.2, some p.1))
  | env, .letStmt n e =>
    (evalExpr env e).map (fun p => (envUpdate p.2 n p.1, none))

/-- Evaluate a statement list, tracking the value of the most recently
executed statement (the value of a block). -/
def evalBlockAux : Env → StmtList → Option Val → Option (Env × Option Val)
  | env, .nil, last => some (env, last)
  | env, .cons s rest, _ =>
    Option.bind (evalStmt env s) (fun p => evalBlockAux p.1 rest p.2)

end

def evalProgram (p : StmtList) : Option (Env × Option Val) :=
  evalBlockAux emptyEnv p none

/-! ## Syntactic side conditions for the stack-balance theorem -/

mutual

/-- Names bound by `let` statements anywhere in the node, in the order the
compiler defines them. -/
def letNamesE : Expr → List String
  | .intLit _ => []
  | .strLit _ => []
  | .boolLit _ => []
  | .ident _ => []
  | .pre _ r => letNamesE r
  | .bin _ l r => letNamesE l ++ letNamesE r
  | .ifE c cons alt => letNamesE c ++ letNamesSL cons ++ letNamesAlt alt
  | .arrayLit es => letNamesEL es
  | .hashLit ps => letNamesPL ps

def letNamesEL : ExprList → List String
  | .nil => []
  | .cons e rest => letNamesE e ++ letNamesEL rest

def letNamesPL : PairList → List String
  | .nil => []
  | .cons k v rest => letNamesE k ++ letNamesE v ++ letNamesPL rest

def letNamesAlt : AltBlock → List String
  | .noAlt => []
  | .someAlt b => letNamesSL b

def letNamesSL : StmtList → List String
  | .nil => []
  | .cons s rest => letNamesS s ++ letNamesSL rest

def letNamesS : Stmt → List String
  | .exprStmt e => letNamesE e
  | .letStmt n v => letNamesE v ++ [n]

end

def lastStmtIsExprStmt : StmtList → Bool
  | .nil => false
  | .cons (.exprStmt _) .nil => true
  | .cons (.letStmt _ _) .nil => false
  | .cons _ rest => lastStmtIsExprStmt rest

/-! ## The HashLiteral compile case (C6)

Modelled from the spec: the snapshot compiler has no `*ast.HashLiteral`
case and the snapshot codec does not register `OpHash`, but the tests
(`TestHashLiterals` in `compiler_test.go`) and the VM's `OpHash` handler
exercise them.  The spec prescribes: sort the pairs by the textual
rendering of the key expression (lexicographic), compile key then value for
each pair, then emit `OpHash`; the tests pin the operand to the number of
pairs.  `OpHash` is registered here with the next free opcode value and a
two-byte operand per the spec's table. -/

def opHash : Nat := 20

def opDefinitionsSpec : List (Nat × String × List Nat) :=
  opDefinitions ++ [(opHash, "OpHash", [2])]

def lookupDefSpec (op : Nat) : Option (String × List Nat) :=
  (opDefinitionsSpec.find? (fun d => d.1 == op)).map (fun d => d.2)

def makeSpec (op : Nat) (operands : List Int) : Option (List Nat) :=
  match lookupDefSpec op with
  | none => some []
  | some (_, ws) => (writeOperands ws operands).map (fun bs => op :: bs)

def emitSpec (c : CompState) (op : Nat) (operands : List Int) : Nat × CompState :=
  let ins := (makeSpec op operands).getD []
  let pos := c.instructions.length
  (pos, { c with
      instructions := c.instructions ++ ins,
      previousInstruction := c.lastInstruction,
      lastInstruction := ⟨op, pos⟩ })

/-- Modelled from the spec: the `String()` rendering of the external `ast`
package, used as the hash-literal sort key ("textual form of the key
expression").  Integer, string, boolean and identifier nodes render as
their token literal; prefix and infix expressions parenthesise. -/
def renderE : Expr → String
  | .intLit v => toString v
  | .strLit s => s
  | .boolLit b => toString b
  | .ident n => n
  | .pre op r => "(" ++ op ++ renderE r ++ ")"
  | .bin op l r => "(" ++ renderE l ++ " " ++ op ++ " " ++ renderE r ++ ")"
  | .ifE _ _ _ => "if"
  | .arrayLit _ => "["
  | .hashLit _ => "\x7b"

def pairListToList : PairList → List (Expr × Expr)
  | .nil => []
  | .cons k v rest => (k, v) :: pairListToList rest

/-- Lexicographic (byte-wise, as Go compares strings) order on rendered
text. -/
def charListLe : List Char → List Char → Bool
  | [], _ => true
  | _ :: _, [] => false
  | a :: as, b :: bs =>
    if a.toNat < b.toNat then true
    else if b.toNat < a.toNat then false
    else charListLe as bs

def strLe (a b : String) : Bool := charListLe a.data b.data

/-- Stable insertion into a list sorted by rendered key. -/
def insertPairByRender (x : Expr × Expr) : List (Expr × Expr) → List (Expr × Expr)
  | [] => [x]
  | y :: ys =>
    if strLe (renderE x.1) (renderE y.1) then x :: y :: ys
    else y :: insertPairByRender x ys

/-- Sort the pairs by the lexicographic order of their rendered keys. -/
def sortPairsByRender : List (Expr × Expr) → List (Expr × Expr)
  | [] => []
  | x :: xs => insertPairByRender x (sortPairsByRender xs)

/-- The pair-compilation loop of the modelled HashLiteral case: for each
pair, compile the key, then the value (recursing through the snapshot
compiler for the subexpressions). -/
def compilePairs : CompState → List (Expr × Expr) → Except String CompState
  | c, [] => .ok c
  | c, (k, v) :: rest =>
    exBind (compileExpr c k) (fun c1 =>
      exBind (compileExpr c1 v) (fun c2 => compilePairs c2 rest))

/-- Modelled from the spec: the missing `*ast.HashLiteral` case of
`Compiler.Compile` — sort the pairs by rendered key, compile each key and
value in that order, then emit `OpHash` with the pair count (the operand
the tests and the VM's pop loop agree on). -/
def compileHashLit (c : CompState) (pairs : PairList) : Except String CompState :=
  let sorted := sortPairsByRender (pairListToList pairs)
  exBind (compilePairs c sorted) (fun c1 =>
    .ok (emitSpec c1 opHash [(pairs.length : Int)]).2)

/-- A hash literal as a whole expression statement (the shape of every
`TestHashLiterals` input): the modelled hash case followed by the
`ExpressionStatement` pop. -/
def compileHashProgram (pairs : PairList) : Except String (List Nat × List Obj) :=
  (compileHashLit compilerNew pairs).map
    (fun c => ((emit c opPop []).2.instructions, (emit c opPop []).2.constants))

/-! ## The REPL driver (`repl.Start`)

Parsing is outside the core, so a session is a list of already-parsed
programs.  Each iteration of the loop builds a *fresh* compiler
(`compiler.New()`) and a *fresh* VM (`vm.New`), exactly as the source does:
no symbol table or globals array survives from one line to the next. -/

inductive ReplOut where
  | compileError (msg : String)
  | runtimeError (msg : String)
  | result (o : Option Obj)

/-- One loop iteration on a parsed line; `none` when the fuel bound does
not exhibit the outcome (or the VM crashed). -/
def replLine (fuel : Nat) (p : StmtList) : Option ReplOut :=
  match compileStmts compilerNew p with
  | .error e => some (.compileError e)
  | .ok c =>
    match runFrom fuel (vmNew c.instructions c.constants) with
    | .error (.fin s) => some (.result (lastPoppedStackElement s))
    | .error (.err e) => some (.runtimeError e)
    | .error .crash => none
    | .ok _ => none

def replSession (fuel : Nat) (lines : List StmtList) : List (Option ReplOut) :=
  lines.map (replLine fuel)

/-! ## Relations for the stack-balance proof -/

/-- The names currently recorded in a symbol table. -/
def symNames (sym : SymbolTable) : List String :=
  sym.store.map (fun p => p.1)

/-- Every recorded index is below the definition counter. -/
def SymWF (sym : SymbolTable) : Prop :=
  ∀ p ∈ sym.store, p.2 < sym.numDefinitions

/-- The compile-time symbol table, the source-level environment and the
VM's globals agree: every bound name resolves to a slot holding an object
that erases to its value. -/
def StateRel (sym : SymbolTable) (env : Env) (s : VMState) : Prop :=
  ∀ n v, env n = some v →
    ∃ i, sym.resolve n = some i ∧ i < sym.numDefinitions ∧
      ∃ o, s.global i = some o ∧ eraseObj o = some v

/-- The VM can step from `s` to `s₁` in finitely many iterations. -/
def Steps (s s₁ : VMState) : Prop := ∃ n, runFrom n s = .ok s₁

/-! ## Concrete inputs appearing in the claims and in the repository tests -/

def isIntObj : Obj → Bool
  | .intO _ _ => true
  | _ => false

/-- A VM state with two operands on the stack (left below right), as left
by the two operand pushes preceding a binary or comparison opcode. -/
def stack2 (l r : Option Obj) : VMState :=
  ⟨[], [], fun _ => none,
    fun j => if j = 0 then l else if j = 1 then r else none, 2, 0, 0⟩

/-- `if (true) { 10 } else { 20 }; 3333;` -/
def progC1 : StmtList :=
  .cons (.exprStmt (.ifE (.boolLit true)
      (.cons (.exprStmt (.intLit 10)) .nil)
      (.someAlt (.cons (.exprStmt (.intLit 20)) .nil))))
    (.cons (.exprStmt (.intLit 3333)) .nil)

/-- `1 < 2` -/
def ltExpr : Expr := .bin "<" (.intLit 1) (.intLit 2)

/-- Bytecode pushing two Booleans and adding them: `OpTrue; OpTrue; OpAdd`. -/
def vmAddBools : VMState := vmNew [opTrue, opTrue, opAdd] []

/-- `"a" == "a"` -/
def strEqProg : StmtList :=
  .cons (.exprStmt (.bin "==" (.strLit "a") (.strLit "a"))) .nil

/-- REPL line 1: `let a = 1` -/
def letA1 : StmtList := .cons (.letStmt "a" (.intLit 1)) .nil

/-- REPL line 2: `a` -/
def identA : StmtList := .cons (.exprStmt (.ident "a")) .nil

/-- `code.Make` as the tests use it to build expected streams (`OpHash`
included via the spec-modelled registration). -/
def mkIns (op : Nat) (operands : List Int) : List Nat :=
  (makeSpec op operands).getD []

/-- The seven `TestHashLiterals` inputs and their expected streams from
`compiler_test.go`. -/
def hashPairs0 : PairList := .nil

def hashExpected0 : List Nat := mkIns opHash [0] ++ mkIns opPop []

def hashPairs1 : PairList := .cons (.intLit 1) (.intLit 2) .nil

def hashExpected1 : List Nat :=
  mkIns opConstant [0] ++ mkIns opConstant [1] ++ mkIns opHash [1] ++ mkIns opPop []

def hashPairs2 : PairList :=
  .cons (.bin "+" (.intLit 1) (.intLit 2)) (.intLit 3) .nil

def hashExpected2 : List Nat :=
  mkIns opConstant [0] ++ mkIns opConstant [1] ++ mkIns opAdd [] ++
  mkIns opConstant [2] ++ mkIns opHash [1] ++ mkIns opPop []

def hashPairs3 : PairList :=
  .cons (.intLit 1) (.bin "+" (.intLit 2) (.intLit 3)) .nil

def hashExpected3 : List Nat :=
  mkIns opConstant [0] ++ mkIns opConstant [1] ++ mkIns opConstant [2] ++
  mkIns opAdd [] ++ mkIns opHash [1] ++ mkIns opPop []

def hashPairs4 : PairList :=
  .cons (.bin "+" (.intLit 0) (.intLit 1)) (.bin "+" (.intLit 2) (.intLit 3)) .nil

def hashExpected4 : List Nat :=
  mkIns opConstant [0] ++ mkIns opConstant [1] ++ mkIns opAdd [] ++
  mkIns opConstant [2] ++ mkIns opConstant [3] ++ mkIns opAdd [] ++
  mkIns opHash [1] ++ mkIns opPop []

def hashPairs5 : PairList :=
  .cons (.intLit 0) (.bin "+" (.intLit 1) (.intLit 2))
    (.cons (.intLit 3) (.bin "+" (.intLit 4) (.intLit 5)) .nil)

def hashExpected5 : List Nat :=
  mkIns opConstant [0] ++ mkIns opConstant [1] ++ mkIns opConstant [2] ++
  mkIns opAdd [] ++ mkIns opConstant [3] ++ mkIns opConstant [4] ++
  mkIns opConstant [5] ++ mkIns opAdd [] ++ mkIns opHash [2] ++ mkIns opPop []

def hashPairs6 : PairList :=
  .cons (.bin "+" (.intLit 0) (.intLit 1)) (.intLit 2)
    (.cons (.bin "+" (.intLit 3) (.intLit 4)) (.intLit 5) .nil)

def hashExpected6 : List Nat :=
  mkIns opConstant [0] ++ mkIns opConstant [1] ++ mkIns opAdd [] ++
  mkIns opConstant [2] ++ mkIns opConstant [3] ++ mkIns opConstant [4] ++
  mkIns opAdd [] ++ mkIns opConstant [5] ++ mkIns opHash [2] ++ mkIns opPop []

/-- An out-of-source-order hash literal, `{3: 1, 2: 9}`: its compilation
shows the sort by rendered key actually reorders pairs ("2" before "3"). -/
def hashPairsUnsorted : PairList :=
  .cons (.intLit 3) (.intLit 1) (.cons (.intLit 2) (.intLit 9) .nil)

/-- `5; let a = 6;` — the program refuting the claim C2 as stated. -/
def prog5let : StmtList :=
  .cons (.exprStmt (.intLit 5)) (.cons (.letStmt "a" (.intLit 6)) .nil)

/-! Array literals whose element count fits the 16-bit `OpArray` operand
(otherwise the emitted count wraps modulo 2^16). -/

mutual

def arraysFitE : Expr → Bool
  | .intLit _ => true
  | .strLit _ => true
  | .boolLit _ => true
  | .ident _ => true
  | .pre _ r => arraysFitE r
  | .bin _ l r => arraysFitE l && arraysFitE r
  | .ifE c cons alt => arraysFitE c && arraysFitSL cons && arraysFitAlt alt
  | .arrayLit es => decide (ExprList.length es < 65536) && arraysFitEL es
  | .hashLit ps => arraysFitPL ps

def arraysFitEL : ExprList → Bool
  | .nil => true
  | .cons e rest => arraysFitE e && arraysFitEL rest

def arraysFitPL : PairList → Bool
  | .nil => true
  | .cons k v rest => arraysFitE k && arraysFitE v && arraysFitPL rest

def arraysFitAlt : AltBlock → Bool
  | .noAlt => true
  | .someAlt b => arraysFitSL b

def arraysFitSL : StmtList → Bool
  | .nil => true
  | .cons s rest => arraysFitS s && arraysFitSL rest

def arraysFitS : Stmt → Bool
  | .exprStmt e => arraysFitE e
  | .letStmt _ v => arraysFitE v

end

/-! ## Relations for the compiled-code simulation (C2) -/

/-- The final instruction stream `big` holds exactly `code` starting at
byte offset `p`.  (Stated on `List.drop` so that later back-patches, which
happen at other offsets, do not disturb it.) -/
def Agrees (big : List Nat) (p : Nat) (code : List Nat) : Prop :=
  code <+: big.drop p

/-- Stack slots `base, base+1, ...` hold objects erasing to the given
values. -/
def ValsAt (s : VMState) : Nat → List Val → Prop
  | _, [] => True
  | base, v :: vs =>
    (∃ o, s.stack base = some o ∧ eraseObj o = some v) ∧ ValsAt s (base + 1) vs

/-- What one compile step does to the compiler state, observably: it
appends instructions and constants, and extends the symbol table with
exactly the `let`-bound names of the node (most recent first). -/
def ShapeP (c c' : CompState) (ns : List String) : Prop :=
  (∃ code, c'.instructions = c.instructions ++ code) ∧
  (∃ cs, c'.constants = c.constants ++ cs) ∧
  (∃ ne : List (String × Nat), c'.symbolTable.store = ne ++ c.symbolTable.store ∧
    ne.map (fun q => q.1) = ns.reverse) ∧
  c'.symbolTable.numDefinitions = c.symbolTable.numDefinitions + ns.length ∧
  (SymWF c.symbolTable → SymWF c'.symbolTable)

/-- Premises tying a compile step `c → c'` to a VM state `s` about to
execute the code this step emitted, inside the final instruction stream
`big` with final constant pool `bigC`. -/
structure SimPre (c c' : CompState) (env : Env) (s : VMState)
    (big : List Nat) (bigC : List Obj) : Prop where
  sins : s.instructions = big
  scon : s.constants = bigC
  conend : c'.constants <+: bigC
  conbound : bigC.length ≤ 65536
  insbound : big.length ≤ 65535
  hip : s.ip = c.instructions.length
  hsp : s.sp ≤ 2048
  agree : Agrees big c.instructions.length
    (c'.instructions.drop c.instructions.length)
  wf : SymWF c.symbolTable
  rel : StateRel c.symbolTable env s

/-- The run of an expression's code: one new value on top of the stack,
erasing to the evaluated value, everything below untouched. -/
def SimPostE (c' : CompState) (env1 : Env) (v : Val) (s s' : VMState) : Prop :=
  s'.instructions = s.instructions ∧
  s'.constants = s.constants ∧
  s'.ip = c'.instructions.length ∧
  s'.sp = s.sp + 1 ∧ s'.sp ≤ 2048 ∧
  (∀ k, k < s.sp → s'.stack k = s.stack k) ∧
  (∃ o, s'.stack s.sp = some o ∧ eraseObj o = some v) ∧
  StateRel c'.symbolTable env1 s'

/-- The run of a statement's code: stack-neutral; when the statement was an
expression statement its value survives in the slot just above the top. -/
def SimPostS (c' : CompState) (env1 : Env) (out : Option Val) (s s' : VMState) : Prop :=
  s'.instructions = s.instructions ∧
  s'.constants = s.constants ∧
  s'.ip = c'.instructions.length ∧
  s'.sp = s.sp ∧
  (∀ k, k < s.sp → s'.stack k = s.stack k) ∧
  (∀ vv, out = some vv → ∃ o, s'.stack s.sp = some o ∧ eraseObj o = some vv) ∧
  StateRel c'.symbolTable env1 s'

/-- The simulation statement for one expression. -/
def SimEStmt (e : Expr) : Prop :=
  ∀ (c c' : CompState) (env env1 : Env) (v : Val) (s : VMState)
    (big : List Nat) (bigC : List Obj),
    compileExpr c e = .ok c' →
    evalExpr env e = some (v, env1) →
    SimPre c c' env s big bigC →
    (symNames c.symbolTable ++ letNamesE e).Nodup →
    c.symbolTable.numDefinitions + (letNamesE e).length ≤ 65536 →
    RunHalts s (.err "stack overflow") ∨
      ∃ s', Steps s s' ∧ SimPostE c' env1 v s s'

/-- The simulation statement for an expression list (array elements). -/
def SimELStmt (es : ExprList) : Prop :=
  ∀ (c c' : CompState) (env env1 : Env) (vs : List Val) (s : VMState)
    (big : List Nat) (bigC : List Obj),
    compileExprList c es = .ok c' →
    evalExprList env es = some (vs, env1) →
    SimPre c c' env s big bigC →
    (symNames c.symbolTable ++ letNamesEL es).Nodup →
    c.symbolTable.numDefinitions + (letNamesEL es).length ≤ 65536 →
    RunHalts s (.err "stack overflow") ∨
      ∃ s', Steps s s' ∧
        s'.instructions = s.instructions ∧
        s'.constants = s.constants ∧
        s'.ip = c'.instructions.length ∧
        s'.sp = s.sp + vs.length ∧ s'.sp ≤ 2048 ∧
        (∀ k, k < s.sp → s'.stack k = s.stack k) ∧
        ValsAt s' s.sp vs ∧
        StateRel c'.symbolTable env1 s'

/-- The simulation statement for one statement. -/
def SimSStmt (st : Stmt) : Prop :=
  ∀ (c c' : CompState) (env env1 : Env) (out : Option Val) (s : VMState)
    (big : List Nat) (bigC : List Obj),
    compileStmt c st = .ok c' →
    evalStmt env st = some (env1, out) →
    SimPre c c' env s big bigC →
    (symNames c.symbolTable ++ letNamesS st).Nodup →
    c.symbolTable.numDefinitions + (letNamesS st).length ≤ 65536 →
    RunHalts s (.err "stack overflow") ∨
      ∃ s', Steps s s' ∧ SimPostS c' env1 out s s'

/-- The simulation statement for a statement list. -/
def SimSLStmt (sl : StmtList) : Prop :=
  ∀ (c c' : CompState) (env env1 : Env) (last out : Option Val) (s : VMState)
    (big : List Nat) (bigC : List Obj),
    compileStmts c sl = .ok c' →
    evalBlockAux env sl last = some (env1, out) →
    SimPre c c' env s big bigC →
    (symNames c.symbolTable ++ letNamesSL sl).Nodup →
    c.symbolTable.numDefinitions + (letNamesSL sl).length ≤ 65536 →
    (∀ vv, last = some vv → ∃ o, s.stack s.sp = some o ∧ eraseObj o = some vv) →
    RunHalts s (.err "stack overflow") ∨
      ∃ s', Steps s s' ∧ SimPostS c' env1 out s s'

/-- The simulation statement for an `if`-branch block: compile the
statements, then peephole-remove the trailing `OpPop`, so the branch leaves
its value on the stack. -/
def SimBVStmt (sl : StmtList) : Prop :=
  ∀ (c c3 c' : CompState) (env env1 : Env) (v : Val) (s : VMState)
    (big : List Nat) (bigC : List Obj),
    compileStmts c sl = .ok c3 →
    c' = (if lastInstructionIsPop c3 then removeLastPop c3 else c3) →
    blockValue (evalBlockAux env sl none) = some (v, env1) →
    SimPre c c' env s big bigC →
    (symNames c.symbolTable ++ letNamesSL sl).Nodup →
    c.symbolTable.numDefinitions + (letNamesSL sl).length ≤ 65536 →
    RunHalts s (.err "stack overflow") ∨
      ∃ s', Steps s s' ∧ SimPostE c' env1 v s s'

/-! # Theorems -/

/-! ## C1: conditional compilation with back-patching and peephole -/

/-- C1: compiling `if (true) { 10 } else { 20 }; 3333;` produces exactly
`OpTrue @0; OpJumpNotTruthy 10 @1; OpConstant 0 @4; OpJump 13 @7;
OpConstant 1 @10; OpPop @13; OpConstant 2 @14; OpPop @17` with constant
pool `[10, 20, 3333]`: the `OpJumpNotTruthy` operand is back-patched to the
byte offset just after the consequence (10), the `OpJump` operand to the
offset just after the alternative (13), and the branch-internal `OpPop`s
are peephole-removed so a single `OpPop` follows the if. -/
theorem c1_conditional_backpatch :
    compileProgram progC1 = .ok
      ([opTrue,
        opJumpNotTruthy, 0, 10,
        opConstant, 0, 0,
        opJump, 0, 13,
        opConstant, 0, 1,
        opPop,
        opConstant, 0, 2,
        opPop],
       [.intO 0 10, .intO 1 20, .intO 2 3333]) := rfl

/-! ## C7: the disassembler on an unknown opcode -/

/-- C7 (refuting termination): on input `[99]` — a byte that is not a
registered opcode — the loop of `Instructions.String` appends the error
line and `continue`s without advancing `i`, so no fuel bound ever completes
it: the disassembler loops forever instead of consuming one byte. -/
theorem c7_disassembler_diverges_on_unknown_opcode :
    ∀ fuel out, instructionsStringLoop fuel [99] 0 out = .fuelOut := by
  intro fuel
  induction fuel with
  | zero => intro out; rfl
  | succ n ih =>
    intro out
    have h99 : lookupDef 99 = none := by decide
    simp only [instructionsStringLoop, List.length_singleton, Nat.zero_lt_one, if_true,
      List.getD, h99]
    exact ih _

/-! ## C8: REPL state threading -/

/-- C8 (refuting persistence): the REPL loop of `repl.Start` builds a fresh
compiler (`compiler.New()`) and a fresh VM (`vm.New`) on every line, so a
definition made on one line does not persist.  Entering `let a = 1` and
then `a` prints `1` on the first line and fails on the second with the
compilation error `undefined identifier a` instead of printing `1`. -/
theorem c8_repl_definitions_do_not_persist :
    replSession 5 [letA1, identA] =
      [some (.result (some (.intO 0 1))),
       some (.compileError "undefined identifier a")] := rfl

/-! ## C4: binary-operation type errors and Run() -/

/-- C4 (refuting the abort): executing `OpTrue; OpTrue; OpAdd`,
`executeBinaryOperation` does produce the error
`unsupported types for binary operation: BOOLEAN BOOLEAN` — but the
`OpAdd..OpDiv` dispatch in `Run()` discards the returned error, so the run
completes and `Run()` returns nil (with both operands consumed), instead of
aborting at that instruction with the error. -/
theorem c4_run_swallows_binary_type_error :
    (∃ s1 s2, runFrom 2 vmAddBools = .ok s1 ∧
      executeBinaryOperation opAdd s1 =
        some (s2, some "unsupported types for binary operation: BOOLEAN BOOLEAN")) ∧
    (∃ st, RunHalts vmAddBools (.fin st) ∧ st.sp = 0) := by
  constructor
  · exact ⟨_, _, rfl, rfl⟩
  · exact ⟨_, ⟨4, rfl⟩, rfl⟩

/-! ## C5: lowering of the `<` operator -/

/-- C5 (refuting the operand swap): the compiler lowers `1 < 2` by
compiling the left operand, then the right operand, then emitting
`OpLessThan` — the constant pool is `[1, 2]` in source order and the
emitted stream ends in `OpLessThan`, not the claimed
`OpConstant (for 2); OpConstant (for 1); OpGreaterThan`. -/
theorem c5_less_than_not_swapped :
    (compileExpr compilerNew ltExpr).map (fun c => (c.instructions, c.constants))
      = .ok ([opConstant, 0, 0, opConstant, 0, 1, opLessThan],
             [.intO 0 1, .intO 1 2]) ∧
    [opConstant, 0, 0, opConstant, 0, 1, opLessThan]
      ≠ [opConstant, 0, 0, opConstant, 0, 1, opGreaterThan] :=
  ⟨rfl, by decide⟩

/-- The mutual compile functions are compiled by structural recursion whose
autogenerated equations are too large to realise, so the per-constructor
equations used below are stated by hand and proved definitionally. -/
theorem exBind_ok (x : CompState) (f : CompState → Except String CompState) :
    exBind (.ok x) f = f x := rfl

theorem exBind_err (m : String) (f : CompState → Except String CompState) :
    exBind (.error m) f = .error m := rfl

theorem compileExpr_bin_eq (c : CompState) (op : String) (l r : Expr) :
    compileExpr c (.bin op l r) =
      exBind (compileExpr c l) (fun c1 =>
        exBind (compileExpr c1 r) (fun c2 =>
          if op == "+" then .ok (emit c2 opAdd []).2
          else if op == "-" then .ok (emit c2 opSub []).2
          else if op == "*" then .ok (emit c2 opMul []).2
          else if op == "/" then .ok (emit c2 opDiv []).2
          else if op == "==" then .ok (emit c2 opEqual []).2
          else if op == "!=" then .ok (emit c2 opNotEqual []).2
          else if op == "<" then .ok (emit c2 opLessThan []).2
          else if op == ">" then .ok (emit c2 opGreaterThan []).2
          else .error ("unknown operator " ++ op))) := rfl

/-- C5 amended: for every infix expression with operator `<`, the compiler
compiles the left operand, then the right operand, then emits `OpLessThan`
(no operand swap; `OpGreaterThan` is reserved for `>`). -/
theorem c5_amended_less_than_compiles_in_order (c c1 c2 : CompState) (l r : Expr)
    (hl : compileExpr c l = .ok c1) (hr : compileExpr c1 r = .ok c2) :
    compileExpr c (.bin "<" l r) = .ok (emit c2 opLessThan []).2 := by
  rw [compileExpr_bin_eq, hl, exBind_ok, hr, exBind_ok]
  rfl

/-- Witness for C5 amended at `1 < 2`. -/
theorem c5_amended_witness :
    compileExpr compilerNew ltExpr =
      .ok (emit ⟨[opConstant, 0, 0, opConstant, 0, 1],
                 [.intO 0 1, .intO 1 2],
                 ⟨opConstant, 3⟩, ⟨opConstant, 0⟩, ⟨[], 0⟩⟩ opLessThan []).2 :=
  c5_amended_less_than_compiles_in_order compilerNew _ _ (.intLit 1) (.intLit 2) rfl rfl

/-! ## C3: encoding round trip -/

theorem opDef_widths_cases : ∀ d ∈ opDefinitions, d.2.2 = [] ∨ d.2.2 = [2] := by decide

/-- C3: for every opcode registered in the codec, with operand widths `W`,
and every operand list (one operand per width) whose values fit in their
declared width, `ReadOperands` applied to the opcode's definition and to
`Make(op, ops…)` with its first byte dropped returns exactly `(ops, Σ W)`. -/
theorem c3_encoding_roundtrip (op : Nat) (name : String) (ws : List Nat) (ops : List Int)
    (hdef : lookupDef op = some (name, ws))
    (hlen : ops.length = ws.length)
    (hfit : ∀ o ∈ ops, 0 ≤ o ∧ o < 65536) :
    ∃ bs, make op ops = some bs ∧
      readOperands ws (bs.drop 1) = some (ops, ws.sum) := by
  obtain ⟨d, hfind, hd2⟩ := Option.map_eq_some'.mp hdef
  have hmem := List.mem_of_find?_eq_some hfind
  have hws := opDef_widths_cases d hmem
  have hws2 : ws = [] ∨ ws = [2] := by
    have : d.2.2 = ws := by rw [hd2]
    rwa [this] at hws
  rcases hws2 with h | h
  · subst h
    have hops : ops = [] := List.length_eq_zero.mp hlen
    subst hops
    refine ⟨[op], ?_, rfl⟩
    simp [make, hdef, writeOperands]
  · subst h
    obtain ⟨o, rfl⟩ : ∃ o, ops = [o] := by
      cases ops with
      | nil => simp at hlen
      | cons a t =>
        cases t with
        | nil => exact ⟨a, rfl⟩
        | cons b t2 => simp at hlen
    obtain ⟨h0, h1⟩ := hfit o (by simp)
    refine ⟨op :: putUint16 o, ?_, ?_⟩
    · simp [make, hdef, writeOperands]
    · simp only [List.drop_succ_cons, List.drop_zero, readOperands, putUint16,
        readUint16, List.sum_cons, List.sum_nil]
      have : ((((o % 65536).toNat / 256) * 256 + (o % 65536).toNat % 256 : Nat) : Int) = o := by
        omega
      simp only [this]
      rfl

/-- Witness for C3 at `Make(OpConstant, 500)`. -/
theorem c3_witness :
    ∃ bs, make opConstant [500] = some bs ∧
      readOperands [2] (bs.drop 1) = some ([500], 2) :=
  c3_encoding_roundtrip opConstant "OpConstant" [2] [500] rfl rfl (by decide)

/-! ## C10: two-byte operands are encoded modulo 2^16 -/

/-- C10: for every registered opcode with a single 2-byte operand field and
every integer operand `o` (negative or at least 65536 included), `Make`
encodes the field as `o mod 2^16` with no error or range check, and
decoding the instruction with `ReadOperands` yields `o mod 2^16` — which
differs from `o` whenever `o` lies outside `0..65535`. -/
theorem c10_u16_wraparound (op : Nat) (name : String) (o : Int)
    (hdef : lookupDef op = some (name, [2])) :
    make op [o] = some (op :: putUint16 o) ∧
    readOperands [2] (putUint16 o) = some ([o % 65536], 2) ∧
    ((o < 0 ∨ 65536 ≤ o) → o % 65536 ≠ o) := by
  refine ⟨?_, ?_, ?_⟩
  · simp [make, hdef, writeOperands]
  · simp only [readOperands, putUint16, readUint16]
    have : ((((o % 65536).toNat / 256) * 256 + (o % 65536).toNat % 256 : Nat) : Int)
        = o % 65536 := by omega
    simp only [this]
    rfl
  · intro h heq
    have h0 : (0 : Int) ≤ o % 65536 := Int.emod_nonneg o (by norm_num)
    have h1 : o % 65536 < 65536 := Int.emod_lt_of_pos o (by norm_num)
    omega

/-- Witness for C10 at `Make(OpConstant, 70000)`: the decoded operand is
`70000 mod 65536 = 4464`, not `70000`. -/
theorem c10_witness :
    make opConstant [70000] = some (opConstant :: putUint16 70000) ∧
    readOperands [2] (putUint16 70000) = some ([(70000 : Int) % 65536], 2) ∧
    (70000 : Int) % 65536 ≠ 70000 :=
  let h := c10_u16_wraparound opConstant "OpConstant" 70000 rfl
  ⟨h.1, h.2.1, h.2.2 (Or.inr (by decide))⟩

/-! ## C9: `OpEqual` — value comparison for integers, reference identity
otherwise -/

/-- C9: executing `OpEqual` between two Integer operands compares their
payloads; between any other pair it compares by Go reference identity
(`goEq`).  Concretely: compiling and running `"a" == "a"` — two separately
allocated String constants with equal text — pushes False (and the run pops
it as the statement result), whereas the singleton identities make
`True == True`, `False == False` and `Null == Null` all compare true, and
two String objects are identical exactly when they are the same
allocation. -/
theorem c9_opequal_identity_semantics :
    (∀ i j a b, ∃ s1,
      executeComparison opEqual (stack2 (some (.intO i a)) (some (.intO j b)))
        = some (s1, none) ∧ s1.sp = 1 ∧ s1.stack 0 = some (.boolO (a == b))) ∧
    (∀ lo ro, (isIntObj lo && isIntObj ro) = false →
      ∃ s1, executeComparison opEqual (stack2 (some lo) (some ro))
        = some (s1, none) ∧ s1.sp = 1 ∧
        s1.stack 0 = some (.boolO (goEq (some lo) (some ro)))) ∧
    (∃ ins consts st, compileProgram strEqProg = .ok (ins, consts) ∧
      RunHalts (vmNew ins consts) (.fin st) ∧
      lastPoppedStackElement st = some (.boolO false)) ∧
    (goEq (some (.boolO true)) (some (.boolO true)) = true ∧
     goEq (some (.boolO false)) (some (.boolO false)) = true ∧
     goEq (some .nullO) (some .nullO) = true ∧
     ∀ i j a b, goEq (some (.strO i a)) (some (.strO j b)) = (i == j)) := by
  refine ⟨?_, ?_, ?_, rfl, rfl, rfl, fun i j a b => rfl⟩
  · intro i j a b
    exact ⟨_, rfl, rfl, rfl⟩
  · intro lo ro h
    cases lo <;> cases ro <;>
      first
        | exact ⟨_, rfl, rfl, rfl⟩
        | simp [isIntObj] at h
  · exact ⟨_, _, _, rfl, ⟨5, rfl⟩, rfl⟩

/-- Witness for C9 at the two distinctly-allocated `"a"` String constants:
their comparison pushes `False`. -/
theorem c9_witness :
    ∃ s1, executeComparison opEqual (stack2 (some (.strO 0 "a")) (some (.strO 1 "a")))
      = some (s1, none) ∧ s1.sp = 1 ∧ s1.stack 0 = some (.boolO false) :=
  c9_opequal_identity_semantics.2.1 (.strO 0 "a") (.strO 1 "a") rfl

/-! ## C6: HashLiteral compilation (spec-modelled) -/

theorem makeSpec_opHash (n : Int) : makeSpec opHash [n] = some (opHash :: putUint16 n) := rfl

/-- C6 counterexample to the `2·n` operand: for the one-pair literal
`{1: 2}`, the stream `TestHashLiterals` expects — and the modelled compile
emits — carries `OpHash` with operand 1 (the pair count), which is not the
stream the claim's `2·n` would produce. -/
theorem c6_hash_operand_not_doubled :
    (compileHashProgram hashPairs1).map (fun p => p.1) = .ok hashExpected1 ∧
    readUint16 ((mkIns opHash [1]).drop 1) = some 1 ∧
    hashExpected1 ≠
      mkIns opConstant [0] ++ mkIns opConstant [1] ++ mkIns opHash [2] ++ mkIns opPop [] :=
  ⟨rfl, rfl, by decide⟩

/-- C6 amended: the modelled HashLiteral case compiles the pairs in sorted
order by the textual rendering of the key expression (key before value for
each pair) and then emits `OpHash` with operand `n`, the number of pairs —
not `2·n`.  The first block reproduces byte-for-byte all seven expected
streams of `TestHashLiterals`; the second shows the sort reordering an
out-of-order literal `{3: 1, 2: 9}` (key `2` is compiled first); the third
is the general operand fact. -/
theorem c6_amended_hash_sorted_operand_is_pair_count :
    ((compileHashProgram hashPairs0).map (fun p => p.1) = .ok hashExpected0 ∧
     (compileHashProgram hashPairs1).map (fun p => p.1) = .ok hashExpected1 ∧
     (compileHashProgram hashPairs2).map (fun p => p.1) = .ok hashExpected2 ∧
     (compileHashProgram hashPairs3).map (fun p => p.1) = .ok hashExpected3 ∧
     (compileHashProgram hashPairs4).map (fun p => p.1) = .ok hashExpected4 ∧
     (compileHashProgram hashPairs5).map (fun p => p.1) = .ok hashExpected5 ∧
     (compileHashProgram hashPairs6).map (fun p => p.1) = .ok hashExpected6) ∧
    ((compileHashProgram hashPairsUnsorted).map (fun p => p.1) = .ok
       (mkIns opConstant [0] ++ mkIns opConstant [1] ++ mkIns opConstant [2] ++
        mkIns opConstant [3] ++ mkIns opHash [2] ++ mkIns opPop []) ∧
     (compileHashProgram hashPairsUnsorted).map (fun p => p.2) = .ok
       [.intO 0 2, .intO 1 9, .intO 2 3, .intO 3 1]) ∧
    (∀ c pairs c1, compileHashLit c pairs = .ok c1 →
      ∃ body, c1.instructions = body ++ opHash :: putUint16 (pairs.length : Int)) := by
  refine ⟨⟨rfl, rfl, rfl, rfl, rfl, rfl, rfl⟩, ⟨rfl, rfl⟩, ?_⟩
  intro c pairs c1 h
  unfold compileHashLit at h
  dsimp only [] at h
  cases h2 : compilePairs c (sortPairsByRender (pairListToList pairs)) with
  | error m => rw [h2, exBind_err] at h; exact absurd h (by simp)
  | ok c2 =>
    rw [h2, exBind_ok] at h
    have hc1 : c1 = (emitSpec c2 opHash [(pairs.length : Int)]).2 := by
      cases h; rfl
    subst hc1
    exact ⟨c2.instructions, by simp [emitSpec, makeSpec_opHash]⟩

/-- Witness for the general C6 operand fact at `{1: 2}`. -/
theorem c6_witness :
    ∃ c1, compileHashLit compilerNew hashPairs1 = .ok c1 ∧
      ∃ body, c1.instructions = body ++ opHash :: putUint16 1 := by
  refine ⟨_, rfl, ?_⟩
  exact c6_amended_hash_sorted_operand_is_pair_count.2.2 compilerNew hashPairs1 _ rfl

/-! ## C2: stack balance and the last popped element -/

/-- C2 counterexample: `5; let a = 6;` is well typed (it evaluates), it
compiles, and `Run()` returns nil with `sp = 0` — but
`LastPoppedStackElement()` returns Integer 6 (the `let`-value constant,
whose push overwrote slot 0 after the `5` was popped), not the value 5 of
the final top-level *expression statement* `5;`. -/
theorem c2_lastpopped_overwritten_by_let :
    (evalProgram prog5let).isSome = true ∧
    evalExpr emptyEnv (.intLit 5) = some (.intV 5, emptyEnv) ∧
    (∃ ins consts, compileProgram prog5let = .ok (ins, consts) ∧
      ∃ st, RunHalts (vmNew ins consts) (.fin st) ∧ st.sp = 0 ∧
        (lastPoppedStackElement st).bind eraseObj = some (.intV 6)) ∧
    Val.intV 6 ≠ Val.intV 5 := by
  refine ⟨rfl, rfl, ⟨_, _, rfl, ⟨_, ⟨5, rfl⟩, rfl, rfl⟩⟩, ?_⟩
  intro h
  exact absurd (Val.intV.inj h) (by decide)

/-! ### Run-loop machinery (fuel composition, stability, determinism) -/

theorem runFrom_add (a b : Nat) (s : VMState) :
    runFrom (a + b) s =
      match runFrom a s with
      | .error h => .error h
      | .ok s1 => runFrom b s1 := by
  induction a generalizing s with
  | zero => simp [runFrom]
  | succ n ih =>
    have h1 : n + 1 + b = (n + b) + 1 := by omega
    rw [h1]
    show (match vmStep s with
      | Except.error h => Except.error h
      | Except.ok s1 => runFrom (n + b) s1) =
      match (match vmStep s with
        | Except.error h => Except.error h
        | Except.ok s1 => runFrom n s1) with
      | Except.error h => Except.error h
      | Except.ok s1 => runFrom b s1
    cases vmStep s with
    | error h => rfl
    | ok s1 => exact ih s1

theorem runFrom_error_mono (n k : Nat) (s : VMState) (h : Halt)
    (hr : runFrom n s = .error h) : runFrom (n + k) s = .error h := by
  rw [runFrom_add, hr]

/-- A halted run outcome is unique: `Run()` is deterministic. -/
theorem halts_unique {s : VMState} {h h' : Halt}
    (H : RunHalts s h) (H' : RunHalts s h') : h = h' := by
  obtain ⟨n, hn⟩ := H
  obtain ⟨m, hm⟩ := H'
  have h1 := runFrom_error_mono n m s h hn
  have h2 := runFrom_error_mono m n s h' hm
  rw [Nat.add_comm] at h2
  rw [h1] at h2
  exact Except.error.inj h2

theorem steps_refl (s : VMState) : Steps s s := ⟨0, rfl⟩

theorem steps_trans {s1 s2 s3 : VMState} (a : Steps s1 s2) (b : Steps s2 s3) :
    Steps s1 s3 := by
  obtain ⟨n, hn⟩ := a
  obtain ⟨m, hm⟩ := b
  exact ⟨n + m, by rw [runFrom_add, hn]; exact hm⟩

theorem steps_halts {s1 s2 : VMState} {h : Halt}
    (a : Steps s1 s2) (b : RunHalts s2 h) : RunHalts s1 h := by
  obtain ⟨n, hn⟩ := a
  obtain ⟨m, hm⟩ := b
  exact ⟨n + m, by rw [runFrom_add, hn]; exact hm⟩

theorem steps_single {s s1 : VMState} (h : vmStep s = .ok s1) : Steps s s1 :=
  ⟨1, by simp [runFrom, h]⟩

theorem halts_step {s : VMState} {h : Halt} (hv : vmStep s = .error h) :
    RunHalts s h := ⟨1, by simp [runFrom, hv]⟩

/-! ### Byte-level helpers -/

theorem writeBytes_length : ∀ (bs l : List Nat) (p : Nat),
    (writeBytes l p bs).length = l.length := by
  intro bs
  induction bs with
  | nil => intro l p; rfl
  | cons b rest ih =>
    intro l p
    show (writeBytes (l.set p b) (p + 1) rest).length = l.length
    rw [ih, List.length_set]

theorem set_at_append (pre : List Nat) (x b : Nat) (rest : List Nat) :
    (pre ++ x :: rest).set pre.length b = pre ++ b :: rest := by
  induction pre with
  | nil => rfl
  | cons a t ih => simp [List.set, ih]

theorem writeBytes_at_append : ∀ (bs mid pre post : List Nat),
    mid.length = bs.length →
    writeBytes (pre ++ mid ++ post) pre.length bs = pre ++ bs ++ post := by
  intro bs
  induction bs with
  | nil =>
    intro mid pre post h
    have : mid = [] := List.length_eq_zero.mp h
    subst this
    rfl
  | cons b rest ih =>
    intro mid pre post h
    cases mid with
    | nil => simp at h
    | cons m ms =>
      show writeBytes ((pre ++ m :: ms ++ post).set pre.length b) (pre.length + 1) rest
        = pre ++ b :: rest ++ post
      have h2 : (pre ++ m :: ms ++ post) = pre ++ m :: (ms ++ post) := by simp
      rw [h2, set_at_append]
      have h3 : pre ++ b :: (ms ++ post) = (pre ++ [b]) ++ ms ++ post := by simp
      have h4 : pre.length + 1 = (pre ++ [b]).length := by simp
      rw [h3, h4, ih ms (pre ++ [b]) post (by simpa using h)]
      simp

theorem getD_prefix {l big : List Nat} (h : l <+: big) {i : Nat} (hi : i < l.length) :
    big.getD i 0 = l.getD i 0 := by
  obtain ⟨t, rfl⟩ := h
  rw [List.getD_append _ _ _ _ hi]

theorem drop_at_append (pre rest : List Nat) (k : Nat) :
    (pre ++ rest).drop (pre.length + k) = rest.drop k := by
  rw [List.drop_append]

/-! ### Single-instruction step lemmas -/

theorem stackSize_eq : stackSize = 2048 := rfl

theorem vmPop_eq {s : VMState} (h : s.sp ≠ 0) :
    vmPop s = some (s.stack (s.sp - 1), { s with sp := s.sp - 1 }) := by
  unfold vmPop
  rw [if_neg h]

theorem vmPush_eq {s : VMState} (o : Option Obj) (h : s.sp < 2048) :
    vmPush s o = ({ s with
      stack := fun j => if j = s.sp then o else s.stack j,
      sp := s.sp + 1 }, none) := by
  unfold vmPush
  have h2 : ¬ s.sp ≥ stackSize := by
    rw [stackSize_eq]
    omega
  rw [if_neg h2]

theorem vmPush_overflow {s : VMState} (o : Option Obj) (h : 2048 ≤ s.sp) :
    vmPush s o = (s, some "stack overflow") := by
  unfold vmPush
  have h2 : s.sp ≥ stackSize := by
    rw [stackSize_eq]
    omega
  rw [if_pos h2]

theorem vmStep_opTrue {s : VMState} (hip : s.ip < s.instructions.length)
    (hop : s.instructions.getD s.ip 0 = opTrue) :
    vmStep s = if 2048 ≤ s.sp then .error (.err "stack overflow")
      else .ok { s with
        stack := fun j => if j = s.sp then some (.boolO true) else s.stack j,
        sp := s.sp + 1, ip := s.ip + 1 } := by
  unfold vmStep
  rw [if_pos hip]
  simp only [hop, opTrue, opNull, opConstant, opPop]
  norm_num
  by_cases h : 2048 ≤ s.sp
  · rw [vmPush_overflow _ h, if_pos h]
  · rw [vmPush_eq _ (by omega), if_neg h]

theorem vmStep_opFalse {s : VMState} (hip : s.ip < s.instructions.length)
    (hop : s.instructions.getD s.ip 0 = opFalse) :
    vmStep s = if 2048 ≤ s.sp then .error (.err "stack overflow")
      else .ok { s with
        stack := fun j => if j = s.sp then some (.boolO false) else s.stack j,
        sp := s.sp + 1, ip := s.ip + 1 } := by
  unfold vmStep
  rw [if_pos hip]
  simp only [hop, opFalse, opNull, opConstant, opPop, opTrue]
  norm_num
  by_cases h : 2048 ≤ s.sp
  · rw [vmPush_overflow _ h, if_pos h]
  · rw [vmPush_eq _ (by omega), if_neg h]

theorem vmStep_opNull {s : VMState} (hip : s.ip < s.instructions.length)
    (hop : s.instructions.getD s.ip 0 = opNull) :
    vmStep s = if 2048 ≤ s.sp then .error (.err "stack overflow")
      else .ok { s with
        stack := fun j => if j = s.sp then some .nullO else s.stack j,
        sp := s.sp + 1, ip := s.ip + 1 } := by
  unfold vmStep
  rw [if_pos hip]
  simp only [hop, opNull]
  norm_num
  by_cases h : 2048 ≤ s.sp
  · rw [vmPush_overflow _ h, if_pos h]
  · rw [vmPush_eq _ (by omega), if_neg h]

theorem vmStep_opPop {s : VMState} (hip : s.ip < s.instructions.length)
    (hop : s.instructions.getD s.ip 0 = opPop) (hsp : s.sp ≠ 0) :
    vmStep s = .ok { s with sp := s.sp - 1, ip := s.ip + 1 } := by
  unfold vmStep
  rw [if_pos hip]
  simp only [hop, opPop, opNull]
  norm_num
  rw [vmPop_eq hsp]

theorem vmStep_opConstant {s : VMState} (hip : s.ip < s.instructions.length)
    (hop : s.instructions.getD s.ip 0 = opConstant)
    (idx : Nat) (hrd : readUint16 (s.instructions.drop (s.ip + 1)) = some idx)
    (c : Obj) (hc : s.constants[idx]? = some c) :
    vmStep s = if 2048 ≤ s.sp then .error (.err "stack overflow")
      else .ok { s with
        stack := fun j => if j = s.sp then some c else s.stack j,
        sp := s.sp + 1, ip := s.ip + 3 } := by
  unfold vmStep
  rw [if_pos hip]
  simp only [hop, opConstant, opNull, opPop]
  norm_num
  simp only [hrd, List.get?_eq_getElem?, hc]
  by_cases h : 2048 ≤ s.sp
  · rw [vmPush_overflow _ h, if_pos h]
  · rw [vmPush_eq _ (by omega), if_neg h]

theorem vmStep_opJump {s : VMState} (hip : s.ip < s.instructions.length)
    (hop : s.instructions.getD s.ip 0 = opJump)
    (t : Nat) (hrd : readUint16 (s.instructions.drop (s.ip + 1)) = some t) :
    vmStep s = .ok { s with ip := t } := by
  unfold vmStep
  rw [if_pos hip]
  simp only [hop, opJump, opNull, opPop, opConstant, opTrue, opFalse, opArray,
    opAdd, opSub, opMul, opDiv, opEqual, opNotEqual, opLessThan, opGreaterThan,
    opBang, opMinus]
  norm_num
  simp only [hrd]

theorem vmStep_opJumpNotTruthy {s : VMState} (hip : s.ip < s.instructions.length)
    (hop : s.instructions.getD s.ip 0 = opJumpNotTruthy)
    (t : Nat) (hrd : readUint16 (s.instructions.drop (s.ip + 1)) = some t)
    (hsp : s.sp ≠ 0) :
    vmStep s = .ok (if isTruthy (s.stack (s.sp - 1))
      then { s with sp := s.sp - 1, ip := s.ip + 3 }
      else { s with sp := s.sp - 1, ip := t }) := by
  unfold vmStep
  rw [if_pos hip]
  simp only [hop, opJumpNotTruthy, opNull, opPop, opConstant, opTrue, opFalse, opArray,
    opAdd, opSub, opMul, opDiv, opEqual, opNotEqual, opLessThan, opGreaterThan,
    opBang, opMinus, opJump]
  norm_num
  simp only [hrd, vmPop_eq hsp]
  by_cases h : isTruthy (s.stack (s.sp - 1))
  · rw [if_pos h]
    simp [h]
  · rw [if_neg h]
    simp only [Bool.not_eq_true] at h
    simp [h]

theorem vmStep_opGetGlobal {s : VMState} (hip : s.ip < s.instructions.length)
    (hop : s.instructions.getD s.ip 0 = opGetGlobal)
    (idx : Nat) (hrd : readUint16 (s.instructions.drop (s.ip + 1)) = some idx) :
    vmStep s = if 2048 ≤ s.sp then .error (.err "stack overflow")
      else .ok { s with
        stack := fun j => if j = s.sp then s.global idx else s.stack j,
        sp := s.sp + 1, ip := s.ip + 3 } := by
  unfold vmStep
  rw [if_pos hip]
  simp only [hop, opGetGlobal, opNull, opPop, opConstant, opTrue, opFalse, opArray,
    opAdd, opSub, opMul, opDiv, opEqual, opNotEqual, opLessThan, opGreaterThan,
    opBang, opMinus, opJump, opJumpNotTruthy]
  norm_num
  simp only [hrd]
  by_cases h : 2048 ≤ s.sp
  · rw [vmPush_overflow _ h, if_pos h]
  · rw [vmPush_eq _ (by omega), if_neg h]

theorem vmStep_opSetGlobal {s : VMState} (hip : s.ip < s.instructions.length)
    (hop : s.instructions.getD s.ip 0 = opSetGlobal)
    (idx : Nat) (hrd : readUint16 (s.instructions.drop (s.ip + 1)) = some idx)
    (hsp : s.sp ≠ 0) :
    vmStep s = .ok { s with
      global := fun j => if j = idx then s.stack (s.sp - 1) else s.global j,
      sp := s.sp - 1, ip := s.ip + 3 } := by
  unfold vmStep
  rw [if_pos hip]
  simp only [hop, opSetGlobal, opNull, opPop, opConstant, opTrue, opFalse, opArray,
    opAdd, opSub, opMul, opDiv, opEqual, opNotEqual, opLessThan, opGreaterThan,
    opBang, opMinus, opJump, opJumpNotTruthy, opGetGlobal]
  norm_num
  simp only [hrd, vmPop_eq hsp]

theorem vmStep_binop_dispatch {s : VMState} (opv : Nat)
    (hip : s.ip < s.instructions.length)
    (hop : s.instructions.getD s.ip 0 = opv)
    (hbin : opv = opAdd ∨ opv = opSub ∨ opv = opMul ∨ opv = opDiv) :
    vmStep s = match executeBinaryOperation opv s with
      | none => .error .crash
      | some (s1, _) => .ok { s1 with ip := s.ip + 1 } := by
  unfold vmStep
  rw [if_pos hip]
  rcases hbin with rfl | rfl | rfl | rfl <;>
  · simp only [hop, opNull, opConstant, opPop, opTrue, opFalse, opArray,
      opAdd, opSub, opMul, opDiv]
    norm_num

theorem vmStep_cmp_dispatch {s : VMState} (opv : Nat)
    (hip : s.ip < s.instructions.length)
    (hop : s.instructions.getD s.ip 0 = opv)
    (hcmp : opv = opEqual ∨ opv = opNotEqual ∨ opv = opLessThan ∨ opv = opGreaterThan) :
    vmStep s = match executeComparison opv s with
      | none => .error .crash
      | some (s1, _) => .ok { s1 with ip := s.ip + 1 } := by
  unfold vmStep
  rw [if_pos hip]
  rcases hcmp with rfl | rfl | rfl | rfl <;>
  · simp only [hop, opNull, opConstant, opPop, opTrue, opFalse, opArray,
      opAdd, opSub, opMul, opDiv, opEqual, opNotEqual, opLessThan, opGreaterThan]
    norm_num

theorem vmPop2_fst {s : VMState} (hsp : 2 ≤ s.sp) :
    vmPop s = some (s.stack (s.sp - 1), { s with sp := s.sp - 1 }) :=
  vmPop_eq (by omega)

theorem vmPop2_snd {s : VMState} (hsp : 2 ≤ s.sp) :
    vmPop { s with sp := s.sp - 1 }
      = some (s.stack (s.sp - 2), { s with sp := s.sp - 2 }) := by
  rw [vmPop_eq (by simp; omega)]
  have h2 : s.sp - 1 - 1 = s.sp - 2 := by omega
  simp [h2]

theorem execBinOp_add_int {s : VMState} {i j : Nat} {a b : Int}
    (hsp2 : 2 ≤ s.sp) (hsp : s.sp ≤ 2048)
    (hl : s.stack (s.sp - 2) = some (.intO i a))
    (hr : s.stack (s.sp - 1) = some (.intO j b)) :
    executeBinaryOperation opAdd s = some
      ({ s with
        stack := fun k => if k = s.sp - 2 then some (.intO s.nextId (i64add a b)) else s.stack k,
        sp := s.sp - 1, nextId := s.nextId + 1 }, none) := by
  unfold executeBinaryOperation
  simp only [vmPop2_fst hsp2, vmPop2_snd hsp2, hl, hr]
  unfold vmPushNew
  rw [vmPush_eq _ (by simp; omega)]
  have h2 : s.sp - 2 + 1 = s.sp - 1 := by omega
  simp [h2]

theorem execBinOp_sub_int {s : VMState} {i j : Nat} {a b : Int}
    (hsp2 : 2 ≤ s.sp) (hsp : s.sp ≤ 2048)
    (hl : s.stack (s.sp - 2) = some (.intO i a))
    (hr : s.stack (s.sp - 1) = some (.intO j b)) :
    executeBinaryOperation opSub s = some
      ({ s with
        stack := fun k => if k = s.sp - 2 then some (.intO s.nextId (i64sub a b)) else s.stack k,
        sp := s.sp - 1, nextId := s.nextId + 1 }, none) := by
  unfold executeBinaryOperation
  simp only [vmPop2_fst hsp2, vmPop2_snd hsp2, hl, hr]
  norm_num [opAdd, opSub]
  unfold vmPushNew
  rw [vmPush_eq _ (by simp; omega)]
  have h2 : s.sp - 2 + 1 = s.sp - 1 := by omega
  simp [h2]

theorem execBinOp_mul_int {s : VMState} {i j : Nat} {a b : Int}
    (hsp2 : 2 ≤ s.sp) (hsp : s.sp ≤ 2048)
    (hl : s.stack (s.sp - 2) = some (.intO i a))
    (hr : s.stack (s.sp - 1) = some (.intO j b)) :
    executeBinaryOperation opMul s = some
      ({ s with
        stack := fun k => if k = s.sp - 2 then some (.intO s.nextId (i64mul a b)) else s.stack k,
        sp := s.sp - 1, nextId := s.nextId + 1 }, none) := by
  unfold executeBinaryOperation
  simp only [vmPop2_fst hsp2, vmPop2_snd hsp2, hl, hr]
  norm_num [opAdd, opSub, opMul]
  unfold vmPushNew
  rw [vmPush_eq _ (by simp; omega)]
  have h2 : s.sp - 2 + 1 = s.sp - 1 := by omega
  simp [h2]

theorem execBinOp_div_int {s : VMState} {i j : Nat} {a b : Int}
    (hsp2 : 2 ≤ s.sp) (hsp : s.sp ≤ 2048)
    (hl : s.stack (s.sp - 2) = some (.intO i a))
    (hr : s.stack (s.sp - 1) = some (.intO j b)) (hb : b ≠ 0) :
    executeBinaryOperation opDiv s = some
      ({ s with
        stack := fun k => if k = s.sp - 2 then some (.intO s.nextId (i64div a b)) else s.stack k,
        sp := s.sp - 1, nextId := s.nextId + 1 }, none) := by
  unfold executeBinaryOperation
  simp only [vmPop2_fst hsp2, vmPop2_snd hsp2, hl, hr]
  norm_num [opAdd, opSub, opMul, opDiv]
  refine ⟨hb, ?_⟩
  unfold vmPushNew
  rw [vmPush_eq _ (by simp; omega)]
  have h2 : s.sp - 2 + 1 = s.sp - 1 := by omega
  simp [h2]

theorem execBinOp_add_str {s : VMState} {i j : Nat} {a b : String}
    (hsp2 : 2 ≤ s.sp) (hsp : s.sp ≤ 2048)
    (hl : s.stack (s.sp - 2) = some (.strO i a))
    (hr : s.stack (s.sp - 1) = some (.strO j b)) :
    executeBinaryOperation opAdd s = some
      ({ s with
        stack := fun k => if k = s.sp - 2 then some (.strO s.nextId (a ++ b)) else s.stack k,
        sp := s.sp - 1, nextId := s.nextId + 1 }, none) := by
  unfold executeBinaryOperation
  simp only [vmPop2_fst hsp2, vmPop2_snd hsp2, hl, hr]
  unfold vmPushNew
  rw [vmPush_eq _ (by simp; omega)]
  have h2 : s.sp - 2 + 1 = s.sp - 1 := by omega
  simp [h2]

theorem execCmp_eq_int {s : VMState} {i j : Nat} {a b : Int}
    (hsp2 : 2 ≤ s.sp) (hsp : s.sp ≤ 2048)
    (hl : s.stack (s.sp - 2) = some (.intO i a))
    (hr : s.stack (s.sp - 1) = some (.intO j b)) :
    executeComparison opEqual s = some
      ({ s with
        stack := fun k => if k = s.sp - 2 then some (.boolO (a == b)) else s.stack k,
        sp := s.sp - 1 }, none) := by
  unfold executeComparison
  simp only [vmPop2_fst hsp2, vmPop2_snd hsp2, hl, hr]
  rw [vmPush_eq _ (by simp; omega)]
  have h2 : s.sp - 2 + 1 = s.sp - 1 := by omega
  simp [h2, nativeBoolToBooleanObject]

theorem execCmp_neq_int {s : VMState} {i j : Nat} {a b : Int}
    (hsp2 : 2 ≤ s.sp) (hsp : s.sp ≤ 2048)
    (hl : s.stack (s.sp - 2) = some (.intO i a))
    (hr : s.stack (s.sp - 1) = some (.intO j b)) :
    executeComparison opNotEqual s = some
      ({ s with
        stack := fun k => if k = s.sp - 2 then some (.boolO (a != b)) else s.stack k,
        sp := s.sp - 1 }, none) := by
  unfold executeComparison
  simp only [vmPop2_fst hsp2, vmPop2_snd hsp2, hl, hr]
  norm_num [opEqual, opNotEqual]
  rw [vmPush_eq _ (by simp; omega)]
  have h2 : s.sp - 2 + 1 = s.sp - 1 := by omega
  simp [h2, nativeBoolToBooleanObject]

theorem execCmp_lt_int {s : VMState} {i j : Nat} {a b : Int}
    (hsp2 : 2 ≤ s.sp) (hsp : s.sp ≤ 2048)
    (hl : s.stack (s.sp - 2) = some (.intO i a))
    (hr : s.stack (s.sp - 1) = some (.intO j b)) :
    executeComparison opLessThan s = some
      ({ s with
        stack := fun k => if k = s.sp - 2 then some (.boolO (decide (a < b))) else s.stack k,
        sp := s.sp - 1 }, none) := by
  unfold executeComparison
  simp only [vmPop2_fst hsp2, vmPop2_snd hsp2, hl, hr]
  norm_num [opEqual, opNotEqual, opLessThan]
  rw [vmPush_eq _ (by simp; omega)]
  have h2 : s.sp - 2 + 1 = s.sp - 1 := by omega
  simp [h2, nativeBoolToBooleanObject]

theorem execCmp_gt_int {s : VMState} {i j : Nat} {a b : Int}
    (hsp2 : 2 ≤ s.sp) (hsp : s.sp ≤ 2048)
    (hl : s.stack (s.sp - 2) = some (.intO i a))
    (hr : s.stack (s.sp - 1) = some (.intO j b)) :
    executeComparison opGreaterThan s = some
      ({ s with
        stack := fun k => if k = s.sp - 2 then some (.boolO (decide (a > b))) else s.stack k,
        sp := s.sp - 1 }, none) := by
  unfold executeComparison
  simp only [vmPop2_fst hsp2, vmPop2_snd hsp2, hl, hr]
  norm_num [opEqual, opNotEqual, opLessThan, opGreaterThan]
  rw [vmPush_eq _ (by simp; omega)]
  have h2 : s.sp - 2 + 1 = s.sp - 1 := by omega
  simp [h2, nativeBoolToBooleanObject]

theorem execCmp_eq_other {s : VMState} {lo ro : Obj}
    (hsp2 : 2 ≤ s.sp) (hsp : s.sp ≤ 2048)
    (hl : s.stack (s.sp - 2) = some lo)
    (hr : s.stack (s.sp - 1) = some ro)
    (hint : (isIntObj lo && isIntObj ro) = false) :
    executeComparison opEqual s = some
      ({ s with
        stack := fun k => if k = s.sp - 2 then some (.boolO (goEq (some lo) (some ro))) else s.stack k,
        sp := s.sp - 1 }, none) := by
  unfold executeComparison
  simp only [vmPop2_fst hsp2, vmPop2_snd hsp2, hl, hr]
  have h2 : s.sp - 2 + 1 = s.sp - 1 := by omega
  cases lo <;> cases ro <;>
    first
      | (norm_num [nativeBoolToBooleanObject]
         rw [vmPush_eq _ (by simp; omega)]
         simp [h2, nativeBoolToBooleanObject]
         done)
      | simp [isIntObj] at hint

theorem execCmp_neq_other {s : VMState} {lo ro : Obj}
    (hsp2 : 2 ≤ s.sp) (hsp : s.sp ≤ 2048)
    (hl : s.stack (s.sp - 2) = some lo)
    (hr : s.stack (s.sp - 1) = some ro)
    (hint : (isIntObj lo && isIntObj ro) = false) :
    executeComparison opNotEqual s = some
      ({ s with
        stack := fun k => if k = s.sp - 2 then some (.boolO (!goEq (some lo) (some ro))) else s.stack k,
        sp := s.sp - 1 }, none) := by
  unfold executeComparison
  simp only [vmPop2_fst hsp2, vmPop2_snd hsp2, hl, hr]
  have h2 : s.sp - 2 + 1 = s.sp - 1 := by omega
  cases lo <;> cases ro <;>
    first
      | (norm_num [opEqual, opNotEqual, nativeBoolToBooleanObject]
         rw [vmPush_eq _ (by simp; omega)]
         simp [h2, nativeBoolToBooleanObject]
         done)
      | simp [isIntObj] at hint

theorem vmStep_opBang {s : VMState} (hip : s.ip < s.instructions.length)
    (hop : s.instructions.getD s.ip 0 = opBang)
    (hsp0 : s.sp ≠ 0) (hsp : s.sp ≤ 2048) :
    vmStep s = .ok { s with
      stack := fun k => if k = s.sp - 1
        then some (.boolO (! isTruthy (s.stack (s.sp - 1)))) else s.stack k,
      ip := s.ip + 1 } := by
  unfold vmStep
  rw [if_pos hip]
  simp only [hop, opBang, opNull, opPop, opConstant, opTrue, opFalse, opArray,
    opAdd, opSub, opMul, opDiv, opEqual, opNotEqual, opLessThan, opGreaterThan]
  norm_num
  unfold executeBangOperator
  simp only [vmPop_eq hsp0]
  have h2 : s.sp - 1 + 1 = s.sp := by omega
  have hpush : ∀ ov : Option Obj, vmPush { s with sp := s.sp - 1 } ov
      = ({ s with stack := fun j => if j = s.sp - 1 then ov else s.stack j }, none) := by
    intro ov
    rw [@vmPush_eq { s with sp := s.sp - 1 } ov (by simp; omega)]
    simp [h2]
  cases ho : s.stack (s.sp - 1) with
  | none => simp [hpush, isTruthy]
  | some o =>
    cases o with
    | boolO b => cases b <;> simp [hpush, isTruthy]
    | intO i v => simp [hpush, isTruthy]
    | strO i v => simp [hpush, isTruthy]
    | nullO => simp [hpush, isTruthy]
    | arrO i v => simp [hpush, isTruthy]
    | hashO i v => simp [hpush, isTruthy]

theorem vmStep_opMinus {s : VMState} (hip : s.ip < s.instructions.length)
    (hop : s.instructions.getD s.ip 0 = opMinus)
    (hsp0 : s.sp ≠ 0) (hsp : s.sp ≤ 2048)
    {i : Nat} {a : Int} (ho : s.stack (s.sp - 1) = some (.intO i a)) :
    vmStep s = .ok { s with
      stack := fun k => if k = s.sp - 1
        then some (.intO s.nextId (i64neg a)) else s.stack k,
      nextId := s.nextId + 1, ip := s.ip + 1 } := by
  unfold vmStep
  rw [if_pos hip]
  simp only [hop, opMinus, opNull, opPop, opConstant, opTrue, opFalse, opArray,
    opAdd, opSub, opMul, opDiv, opEqual, opNotEqual, opLessThan, opGreaterThan, opBang]
  norm_num
  unfold executeMinusOperator
  simp only [vmPop_eq hsp0, ho]
  unfold vmPushNew
  rw [vmPush_eq _ (by simp; omega)]
  have h2 : s.sp - 1 + 1 = s.sp := by omega
  simp [h2]

theorem popElements_spec : ∀ (n : Nat) (s : VMState), n ≤ s.sp →
    popElements n s = some
      ((List.range n).map (fun i => s.stack (s.sp - n + i)), { s with sp := s.sp - n }) := by
  intro n
  induction n with
  | zero =>
    intro s hn
    show some ([], s) = _
    simp
  | succ m ih =>
    intro s hn
    show (match vmPop s with
      | none => none
      | some (o, s1) => (popElements m s1).map
          (fun p : List (Option Obj) × VMState => (p.1 ++ [o], p.2))) = _
    simp only [vmPop_eq (show s.sp ≠ 0 by omega)]
    have hm : m ≤ ({ s with sp := s.sp - 1 } : VMState).sp := by simp; omega
    rw [ih _ hm]
    simp only [Option.map_some]
    have e1 : s.sp - 1 - m = s.sp - (m + 1) := by omega
    have e2 : (List.range (m + 1)).map (fun i => s.stack (s.sp - (m + 1) + i))
        = ((List.range m).map (fun i => s.stack (s.sp - 1 - m + i)))
          ++ [s.stack (s.sp - 1)] := by
      rw [List.range_succ, List.map_append]
      simp only [List.map_cons, List.map_nil, e1]
      have e3 : s.sp - (m + 1) + m = s.sp - 1 := by omega
      rw [e3]
    simp [e2, e1]

theorem vmStep_opArray {s : VMState} (hip : s.ip < s.instructions.length)
    (hop : s.instructions.getD s.ip 0 = opArray)
    (n : Nat) (hrd : readUint16 (s.instructions.drop (s.ip + 1)) = some n)
    (hn : n ≤ s.sp) :
    vmStep s = if 2048 ≤ s.sp - n then .error (.err "stack overflow")
      else .ok { s with
        stack := fun k => if k = s.sp - n
          then some (.arrO s.nextId ((List.range n).map (fun i => s.stack (s.sp - n + i))))
          else s.stack k,
        sp := s.sp - n + 1, nextId := s.nextId + 1, ip := s.ip + 3 } := by
  unfold vmStep
  rw [if_pos hip]
  simp only [hop, opArray, opNull, opPop, opConstant, opTrue, opFalse]
  norm_num
  simp only [hrd, popElements_spec n s hn]
  unfold vmPushNew
  by_cases h : 2048 ≤ s.sp - n
  · rw [vmPush_overflow _ (by simp; omega), if_pos h]
  · rw [vmPush_eq _ (by simp; omega), if_neg h]

/-! ### List and byte-agreement helpers for the C2 simulation -/

theorem pref_getElem {l big : List Nat} (h : l <+: big) {i : Nat} (hi : i < l.length) :
    big[i]? = l[i]? := by
  obtain ⟨t, rfl⟩ := h
  rw [List.getElem?_append, if_pos hi]

theorem pref_getElemObj {l big : List Obj} (h : l <+: big) {i : Nat} (hi : i < l.length) :
    big[i]? = l[i]? := by
  obtain ⟨t, rfl⟩ := h
  rw [List.getElem?_append, if_pos hi]

theorem drop_append_le (l t : List Nat) (k : Nat) (h : k ≤ l.length) :
    (l ++ t).drop k = l.drop k ++ t :=
  List.drop_append_of_le_length h

theorem agrees_mono_left {big code tail : List Nat} {p : Nat}
    (h : Agrees big p (code ++ tail)) : Agrees big p code :=
  (code.prefix_append tail).trans h

theorem agrees_shift {big x y : List Nat} {p : Nat}
    (h : Agrees big p (x ++ y)) : Agrees big (p + x.length) y := by
  obtain ⟨t, ht⟩ := h
  refine ⟨t, ?_⟩
  have h1 : big.drop (p + x.length) = (big.drop p).drop x.length := by
    rw [List.drop_drop, Nat.add_comm]
  rw [h1, ← ht]
  have h2 : x ++ y ++ t = x ++ (y ++ t) := by simp
  rw [h2, List.drop_left]

theorem agrees_len_le {big code : List Nat} {p : Nat}
    (h : Agrees big p code) : code.length ≤ big.length - p := by
  obtain ⟨t, ht⟩ := h
  have h1 : (code ++ t).length = (big.drop p).length := by rw [ht]
  simp at h1
  omega

theorem agrees_lt_length {big code : List Nat} {p : Nat}
    (h : Agrees big p code) {i : Nat} (hi : i < code.length) : p + i < big.length := by
  have h1 := agrees_len_le h
  omega

theorem agrees_getD {big code : List Nat} {p : Nat}
    (h : Agrees big p code) {i : Nat} (hi : i < code.length) :
    big.getD (p + i) 0 = code.getD i 0 := by
  rw [List.getD_eq_getElem?_getD, List.getD_eq_getElem?_getD]
  have h1 : big[p + i]? = (big.drop p)[i]? := by
    rw [List.getElem?_drop]
  rw [h1, pref_getElem h hi]

theorem agrees_head {big : List Nat} {p b : Nat} {rest : List Nat}
    (h : Agrees big p (b :: rest)) : big.getD p 0 = b := by
  have h1 := agrees_getD h (show 0 < (b :: rest).length by simp)
  simpa using h1

theorem readUint16_agrees {big : List Nat} {p a b : Nat} {rest : List Nat}
    (h : Agrees big p (a :: b :: rest)) :
    readUint16 (big.drop p) = some (a * 256 + b) := by
  obtain ⟨t, ht⟩ := h
  rw [← ht]
  rfl

theorem putUint16_nat (t : Nat) :
    putUint16 (t : Int) = [t % 65536 / 256, t % 65536 % 256] := by
  unfold putUint16
  have h : ((t : Int) % 65536).toNat = t % 65536 := by omega
  rw [h]

theorem u16_readback (t : Nat) (h : t < 65536) :
    t % 65536 / 256 * 256 + t % 65536 % 256 = t := by
  omega

/-! ### Hand-stated per-constructor equations for the compile and eval
functions (definitional, like `compileExpr_bin_eq`) -/

theorem compileStmts_nil_eq (c : CompState) : compileStmts c .nil = .ok c := rfl

theorem compileStmts_cons_eq (c : CompState) (st : Stmt) (rest : StmtList) :
    compileStmts c (.cons st rest) =
      exBind (compileStmt c st) (fun c1 => compileStmts c1 rest) := rfl

theorem compileStmt_expr_eq (c : CompState) (e : Expr) :
    compileStmt c (.exprStmt e) =
      exBind (compileExpr c e) (fun c1 => .ok (emit c1 opPop []).2) := rfl

theorem compileStmt_let_eq (c : CompState) (n : String) (v : Expr) :
    compileStmt c (.letStmt n v) =
      exBind (compileExpr c v) (fun c1 =>
        let d := c1.symbolTable.define n
        .ok (emit { c1 with symbolTable := d.2 } opSetGlobal [(d.1 : Int)]).2) := rfl

theorem compileExpr_pre_eq (c : CompState) (op : String) (r : Expr) :
    compileExpr c (.pre op r) =
      exBind (compileExpr c r) (fun c1 =>
        if op == "!" then .ok (emit c1 opBang []).2
        else if op == "-" then .ok (emit c1 opMinus []).2
        else .error ("unknown prefix operator " ++ op)) := rfl

theorem compileExpr_ifE_noAlt_eq (c : CompState) (cond : Expr) (cons : StmtList) :
    compileExpr c (.ifE cond cons .noAlt) =
      exBind (compileExpr c cond) (fun c1 =>
        let jnt := emit c1 opJumpNotTruthy [9999]
        exBind (compileStmts jnt.2 cons) (fun c3 =>
          let c4 := if lastInstructionIsPop c3 then removeLastPop c3 else c3
          let jmp := emit c4 opJump [9999]
          let afterConsequencePos := jmp.2.instructions.length
          let c6 := changeOperand jmp.2 jnt.1 (afterConsequencePos : Int)
          let c7 := (emit c6 opNull []).2
          let afterAlternativePos := c7.instructions.length
          .ok (changeOperand c7 jmp.1 (afterAlternativePos : Int)))) := rfl

theorem compileExpr_ifE_someAlt_eq (c : CompState) (cond : Expr) (cons b : StmtList) :
    compileExpr c (.ifE cond cons (.someAlt b)) =
      exBind (compileExpr c cond) (fun c1 =>
        let jnt := emit c1 opJumpNotTruthy [9999]
        exBind (compileStmts jnt.2 cons) (fun c3 =>
          let c4 := if lastInstructionIsPop c3 then removeLastPop c3 else c3
          let jmp := emit c4 opJump [9999]
          let afterConsequencePos := jmp.2.instructions.length
          let c6 := changeOperand jmp.2 jnt.1 (afterConsequencePos : Int)
          exBind (compileStmts c6 b) (fun c7 =>
            let c8 := if lastInstructionIsPop c7 then removeLastPop c7 else c7
            let afterAlternativePos := c8.instructions.length
            .ok (changeOperand c8 jmp.1 (afterAlternativePos : Int))))) := rfl

theorem compileExpr_ident_eq (c : CompState) (n : String) :
    compileExpr c (.ident n) =
      match c.symbolTable.resolve n with
      | none => .error ("undefined identifier " ++ n)
      | some idx => .ok (emit c opGetGlobal [(idx : Int)]).2 := rfl

theorem compileExpr_array_eq (c : CompState) (elems : ExprList) :
    compileExpr c (.arrayLit elems) =
      exBind (compileExprList c elems) (fun c1 =>
        .ok (emit c1 opArray [(elems.length : Int)]).2) := rfl

theorem compileExpr_str_eq (c : CompState) (s : String) :
    compileExpr c (.strLit s) =
      (let a := addConstant c (fun id => .strO id s)
       .ok (emit a.2 opConstant [(a.1 : Int)]).2) := rfl

theorem compileExpr_int_eq (c : CompState) (v : Int) :
    compileExpr c (.intLit v) =
      (let a := addConstant c (fun id => .intO id v)
       .ok (emit a.2 opConstant [(a.1 : Int)]).2) := rfl

theorem compileExpr_bool_eq (c : CompState) (b : Bool) :
    compileExpr c (.boolLit b) =
      (if b then .ok (emit c opTrue []).2 else .ok (emit c opFalse []).2) := rfl

theorem compileExpr_hash_eq (c : CompState) (ps : PairList) :
    compileExpr c (.hashLit ps) =
      .error "unsupported node encountered *ast.HashLiteral" := rfl

theorem compileExprList_nil_eq (c : CompState) : compileExprList c .nil = .ok c := rfl

theorem compileExprList_cons_eq (c : CompState) (e : Expr) (rest : ExprList) :
    compileExprList c (.cons e rest) =
      exBind (compileExpr c e) (fun c1 => compileExprList c1 rest) := rfl

theorem evalExpr_int_eq (env : Env) (v : Int) :
    evalExpr env (.intLit v) = some (.intV v, env) := rfl

theorem evalExpr_str_eq (env : Env) (s : String) :
    evalExpr env (.strLit s) = some (.strV s, env) := rfl

theorem evalExpr_bool_eq (env : Env) (b : Bool) :
    evalExpr env (.boolLit b) = some (.boolV b, env) := rfl

theorem evalExpr_ident_eq (env : Env) (n : String) :
    evalExpr env (.ident n) = (env n).map (fun v => (v, env)) := rfl

theorem evalExpr_pre_eq (env : Env) (op : String) (r : Expr) :
    evalExpr env (.pre op r) =
      Option.bind (evalExpr env r) (fun p =>
        if op == "!" then some (.boolV (bangVal p.1), p.2)
        else if op == "-" then
          match p.1 with
          | .intV i => some (.intV (i64neg i), p.2)
          | _ => none
        else none) := rfl

theorem evalExpr_bin_eq (env : Env) (op : String) (l r : Expr) :
    evalExpr env (.bin op l r) =
      Option.bind (evalExpr env l) (fun p =>
        Option.bind (evalExpr p.2 r) (fun q =>
          (binValOp op p.1 q.1).map (fun v => (v, q.2)))) := rfl

theorem evalExpr_ifE_noAlt_eq (env : Env) (cond : Expr) (cons : StmtList) :
    evalExpr env (.ifE cond cons .noAlt) =
      Option.bind (evalExpr env cond) (fun p =>
        if isTruthyVal p.1 then
          blockValue (evalBlockAux p.2 cons none)
        else
          some (.nullV, p.2)) := rfl

theorem evalExpr_ifE_someAlt_eq (env : Env) (cond : Expr) (cons b : StmtList) :
    evalExpr env (.ifE cond cons (.someAlt b)) =
      Option.bind (evalExpr env cond) (fun p =>
        if isTruthyVal p.1 then
          blockValue (evalBlockAux p.2 cons none)
        else
          blockValue (evalBlockAux p.2 b none)) := rfl

theorem evalExpr_array_eq (env : Env) (elems : ExprList) :
    evalExpr env (.arrayLit elems) =
      (evalExprList env elems).map (fun p => (.arrV p.1, p.2)) := rfl

theorem evalExprList_nil_eq (env : Env) : evalExprList env .nil = some ([], env) := rfl

theorem evalExprList_cons_eq (env : Env) (e : Expr) (rest : ExprList) :
    evalExprList env (.cons e rest) =
      Option.bind (evalExpr env e) (fun p =>
        (evalExprList p.2 rest).map (fun q => (p.1 :: q.1, q.2))) := rfl

theorem evalStmt_expr_eq (env : Env) (e : Expr) :
    evalStmt env (.exprStmt e) =
      (evalExpr env e).map (fun p => (p.2, some p.1)) := rfl

theorem evalStmt_let_eq (env : Env) (n : String) (e : Expr) :
    evalStmt env (.letStmt n e) =
      (evalExpr env e).map (fun p => (envUpdate p.2 n p.1, none)) := rfl

theorem evalBlockAux_nil_eq (env : Env) (last : Option Val) :
    evalBlockAux env .nil last = some (env, last) := rfl

theorem evalBlockAux_cons_eq (env : Env) (st : Stmt) (rest : StmtList) (last : Option Val) :
    evalBlockAux env (.cons st rest) last =
      Option.bind (evalStmt env st) (fun p => evalBlockAux p.1 rest p.2) := rfl

/-! ### `Make` on the opcodes the compiler emits -/

theorem make_opNull : make opNull [] = some [opNull] := rfl
theorem make_opPop : make opPop [] = some [opPop] := rfl
theorem make_opTrue : make opTrue [] = some [opTrue] := rfl
theorem make_opFalse : make opFalse [] = some [opFalse] := rfl
theorem make_opBang : make opBang [] = some [opBang] := rfl
theorem make_opMinus : make opMinus [] = some [opMinus] := rfl
theorem make_opAdd : make opAdd [] = some [opAdd] := rfl
theorem make_opSub : make opSub [] = some [opSub] := rfl
theorem make_opMul : make opMul [] = some [opMul] := rfl
theorem make_opDiv : make opDiv [] = some [opDiv] := rfl
theorem make_opEqual : make opEqual [] = some [opEqual] := rfl
theorem make_opNotEqual : make opNotEqual [] = some [opNotEqual] := rfl
theorem make_opLessThan : make opLessThan [] = some [opLessThan] := rfl
theorem make_opGreaterThan : make opGreaterThan [] = some [opGreaterThan] := rfl

theorem make_opConstant (o : Int) :
    make opConstant [o] = some (opConstant :: putUint16 o) := rfl
theorem make_opJump (o : Int) :
    make opJump [o] = some (opJump :: putUint16 o) := rfl
theorem make_opJumpNotTruthy (o : Int) :
    make opJumpNotTruthy [o] = some (opJumpNotTruthy :: putUint16 o) := rfl
theorem make_opGetGlobal (o : Int) :
    make opGetGlobal [o] = some (opGetGlobal :: putUint16 o) := rfl
theorem make_opSetGlobal (o : Int) :
    make opSetGlobal [o] = some (opSetGlobal :: putUint16 o) := rfl
theorem make_opArray (o : Int) :
    make opArray [o] = some (opArray :: putUint16 o) := rfl

/-! ### `Nodup` bookkeeping for the symbol-table freshness conditions -/

theorem nodup_take_left {A x y : List String} (h : (A ++ (x ++ y)).Nodup) :
    (A ++ x).Nodup := by
  have hs : List.Sublist (A ++ x) (A ++ (x ++ y)) := by
    rw [← List.append_assoc]
    exact List.sublist_append_left (A ++ x) y
  exact h.sublist hs

theorem nodup_shift {A x y : List String} (h : (A ++ (x ++ y)).Nodup) :
    ((x.reverse ++ A) ++ y).Nodup := by
  have hp : ((x.reverse ++ A) ++ y).Perm (A ++ (x ++ y)) := by
    have h1 : (x.reverse ++ A).Perm (A ++ x) :=
      ((x.reverse_perm).append_right A).trans List.perm_append_comm
    have h2 : ((x.reverse ++ A) ++ y).Perm ((A ++ x) ++ y) := h1.append_right y
    exact h2.trans (List.Perm.of_eq (List.append_assoc A x y))
  exact hp.symm.nodup h

theorem nodup_disjoint {A z : List String} (h : (A ++ z).Nodup) :
    ∀ a ∈ z, a ∉ A := by
  intro a haz haA
  rcases List.nodup_append.mp h with ⟨_, _, hd⟩
  exact hd haA haz

/-! ### `StateRel` bookkeeping -/

theorem resolve_mem {T : SymbolTable} {n : String} {i : Nat}
    (h : T.resolve n = some i) : n ∈ symNames T := by
  unfold SymbolTable.resolve at h
  cases hf : T.store.find? (fun p => p.1 == n) with
  | none => rw [hf] at h; simp at h
  | some q =>
    have hq : q ∈ T.store := List.mem_of_find?_eq_some hf
    have heq : q.1 = n := by
      have := List.find?_some hf
      simpa using this
    unfold symNames
    exact heq ▸ List.mem_map_of_mem (fun p => p.1) hq

theorem resolve_congr_store {T T' : SymbolTable} {ne : List (String × Nat)} {n : String}
    (hst : T'.store = ne ++ T.store) (h : ∀ q ∈ ne, q.1 ≠ n) :
    T'.resolve n = T.resolve n := by
  unfold SymbolTable.resolve
  rw [hst, List.find?_append]
  have hne : ne.find? (fun p => p.1 == n) = none := by
    rw [List.find?_eq_none]
    intro q hq
    simp [h q hq]
  rw [hne]
  rfl

theorem stateRel_same_global {T : SymbolTable} {env : Env} {s s' : VMState}
    (h : StateRel T env s) (hg : s'.global = s.global) : StateRel T env s' := by
  intro n v hv
  obtain ⟨i, h1, h2, o, h3, h4⟩ := h n v hv
  exact ⟨i, h1, h2, o, by rw [hg]; exact h3, h4⟩

theorem stateRel_extend {T T' : SymbolTable} {ne : List (String × Nat)}
    {env : Env} {s : VMState} (h : StateRel T env s)
    (hst : T'.store = ne ++ T.store)
    (hd : T.numDefinitions ≤ T'.numDefinitions)
    (hdisj : ∀ q ∈ ne, q.1 ∉ symNames T) : StateRel T' env s := by
  intro n v hv
  obtain ⟨i, h1, h2, o, h3, h4⟩ := h n v hv
  have hn : n ∈ symNames T := resolve_mem h1
  have hres : T'.resolve n = T.resolve n :=
    resolve_congr_store hst (fun q hq he => hdisj q hq (he ▸ hn))
  exact ⟨i, by rw [hres]; exact h1, by omega, o, h3, h4⟩

/-! ### Erasure bridges between `Obj` and `Val` -/

theorem eraseObj_intV {o : Obj} {a : Int} (h : eraseObj o = some (.intV a)) :
    ∃ i, o = .intO i a := by
  cases o with
  | intO i v =>
    refine ⟨i, ?_⟩
    simp [eraseObj] at h
    rw [h]
  | strO i v => simp [eraseObj] at h
  | boolO b => simp [eraseObj] at h
  | nullO => simp [eraseObj] at h
  | arrO i es =>
    simp only [eraseObj] at h
    cases he : eraseList es <;> rw [he] at h <;> simp at h
  | hashO i ps => simp [eraseObj] at h

theorem eraseObj_strV {o : Obj} {a : String} (h : eraseObj o = some (.strV a)) :
    ∃ i, o = .strO i a := by
  cases o with
  | strO i v =>
    refine ⟨i, ?_⟩
    simp [eraseObj] at h
    rw [h]
  | intO i v => simp [eraseObj] at h
  | boolO b => simp [eraseObj] at h
  | nullO => simp [eraseObj] at h
  | arrO i es =>
    simp only [eraseObj] at h
    cases he : eraseList es <;> rw [he] at h <;> simp at h
  | hashO i ps => simp [eraseObj] at h

theorem eraseObj_boolV {o : Obj} {a : Bool} (h : eraseObj o = some (.boolV a)) :
    o = .boolO a := by
  cases o with
  | boolO b =>
    simp [eraseObj] at h
    rw [h]
  | intO i v => simp [eraseObj] at h
  | strO i v => simp [eraseObj] at h
  | nullO => simp [eraseObj] at h
  | arrO i es =>
    simp only [eraseObj] at h
    cases he : eraseList es <;> rw [he] at h <;> simp at h
  | hashO i ps => simp [eraseObj] at h

theorem eraseObj_nullV {o : Obj} (h : eraseObj o = some .nullV) :
    o = .nullO := by
  cases o with
  | nullO => rfl
  | intO i v => simp [eraseObj] at h
  | strO i v => simp [eraseObj] at h
  | boolO b => simp [eraseObj] at h
  | arrO i es =>
    simp only [eraseObj] at h
    cases he : eraseList es <;> rw [he] at h <;> simp at h
  | hashO i ps => simp [eraseObj] at h

theorem isTruthy_erase {o : Obj} {v : Val} (h : eraseObj o = some v) :
    isTruthy (some o) = isTruthyVal v := by
  cases o with
  | intO i a => simp [eraseObj] at h; rw [← h]; rfl
  | strO i a => simp [eraseObj] at h; rw [← h]; rfl
  | boolO b => simp [eraseObj] at h; rw [← h]; rfl
  | nullO => simp [eraseObj] at h; rw [← h]; rfl
  | arrO i es =>
    simp only [eraseObj] at h
    cases he : eraseList es <;> rw [he] at h <;> simp at h
    rw [← h]; rfl
  | hashO i ps => simp [eraseObj] at h

theorem bang_erase {o : Obj} {v : Val} (h : eraseObj o = some v) :
    (! isTruthy (some o)) = bangVal v := by
  rw [isTruthy_erase h]
  cases v with
  | boolV b => cases b <;> rfl
  | intV a => rfl
  | strV a => rfl
  | nullV => rfl
  | arrV es => rfl

/-! ### Compiler-state record facts -/

theorem emit_snd_ins (c : CompState) (op : Nat) (ops : List Int) :
    ((emit c op ops).2).instructions = c.instructions ++ (make op ops).getD [] := rfl

theorem emit_fst (c : CompState) (op : Nat) (ops : List Int) :
    (emit c op ops).1 = c.instructions.length := rfl

theorem emit_snd_table (c : CompState) (op : Nat) (ops : List Int) :
    ((emit c op ops).2).symbolTable = c.symbolTable := rfl

theorem emit_snd_consts (c : CompState) (op : Nat) (ops : List Int) :
    ((emit c op ops).2).constants = c.constants := rfl

theorem emit_snd_last (c : CompState) (op : Nat) (ops : List Int) :
    ((emit c op ops).2).lastInstruction = ⟨op, c.instructions.length⟩ := rfl

theorem addConstant_fst (c : CompState) (mk : Nat → Obj) :
    (addConstant c mk).1 = c.constants.length := rfl

theorem addConstant_snd_consts (c : CompState) (mk : Nat → Obj) :
    ((addConstant c mk).2).constants = c.constants ++ [mk c.constants.length] := rfl

theorem addConstant_snd_ins (c : CompState) (mk : Nat → Obj) :
    ((addConstant c mk).2).instructions = c.instructions := rfl

theorem addConstant_snd_table (c : CompState) (mk : Nat → Obj) :
    ((addConstant c mk).2).symbolTable = c.symbolTable := rfl

/-! ### `ShapeP` combinators -/

theorem shapeP_refl (c : CompState) : ShapeP c c [] :=
  ⟨⟨[], by simp⟩, ⟨[], by simp⟩, ⟨[], by simp, rfl⟩, by simp, fun h => h⟩

theorem shapeP_trans {c1 c2 c3 : CompState} {xs ys : List String}
    (a : ShapeP c1 c2 xs) (b : ShapeP c2 c3 ys) : ShapeP c1 c3 (xs ++ ys) := by
  obtain ⟨⟨i1, hi1⟩, ⟨k1, hk1⟩, ⟨n1, hn1, hm1⟩, hd1, hw1⟩ := a
  obtain ⟨⟨i2, hi2⟩, ⟨k2, hk2⟩, ⟨n2, hn2, hm2⟩, hd2, hw2⟩ := b
  refine ⟨⟨i1 ++ i2, by rw [hi2, hi1, List.append_assoc]⟩,
    ⟨k1 ++ k2, by rw [hk2, hk1, List.append_assoc]⟩,
    ⟨n2 ++ n1, by rw [hn2, hn1, List.append_assoc],
      by rw [List.map_append, hm2, hm1, List.reverse_append]⟩,
    by rw [hd2, hd1, List.length_append]; omega,
    fun h => hw2 (hw1 h)⟩

theorem shapeP_emit (c : CompState) (op : Nat) (ops : List Int) :
    ShapeP c (emit c op ops).2 [] :=
  ⟨⟨(make op ops).getD [], rfl⟩, ⟨[], by simp [emit]⟩, ⟨[], by simp [emit], rfl⟩,
    by simp [emit], fun h => h⟩

theorem shapeP_addConstant (c : CompState) (mk : Nat → Obj) :
    ShapeP c (addConstant c mk).2 [] :=
  ⟨⟨[], by simp [addConstant]⟩, ⟨[mk c.constants.length], rfl⟩,
    ⟨[], by simp [addConstant], rfl⟩, by simp [addConstant], fun h => h⟩

theorem shapeP_define_emit (c : CompState) (n : String) (op : Nat) (ops : List Int) :
    ShapeP c (emit { c with symbolTable := (c.symbolTable.define n).2 } op ops).2 [n] := by
  refine ⟨⟨(make op ops).getD [], rfl⟩, ⟨[], by simp [emit]⟩,
    ⟨[(n, c.symbolTable.numDefinitions)], by simp [emit, SymbolTable.define], by simp⟩,
    by simp [emit, SymbolTable.define], ?_⟩
  intro h p hp
  simp only [emit, SymbolTable.define] at hp ⊢
  rcases List.mem_cons.mp hp with rfl | hmem
  · simp
  · have := h p hmem
    omega

theorem set_append_right : ∀ (pre m : List Nat) (i b : Nat), pre.length ≤ i →
    (pre ++ m).set i b = pre ++ m.set (i - pre.length) b := by
  intro pre
  induction pre with
  | nil => intro m i b h; simp
  | cons a t ih =>
    intro m i b h
    cases i with
    | zero => simp at h
    | succ j =>
      simp only [List.cons_append, List.set, List.append_eq]
      rw [ih m j b (by simpa using h)]
      simp only [List.length_cons]
      have : j + 1 - (t.length + 1) = j - t.length := by omega
      rw [this]

theorem writeBytes_append_right : ∀ (bs pre m : List Nat) (p : Nat), pre.length ≤ p →
    writeBytes (pre ++ m) p bs = pre ++ writeBytes m (p - pre.length) bs := by
  intro bs
  induction bs with
  | nil => intro pre m p h; rfl
  | cons b rest ih =>
    intro pre m p h
    show writeBytes ((pre ++ m).set p b) (p + 1) rest = _
    rw [set_append_right pre m p b h, ih pre _ (p + 1) (by omega)]
    have : p + 1 - pre.length = p - pre.length + 1 := by omega
    rw [this]
    rfl

theorem shape_changeOperand {c c5 : CompState} {ns : List String} (opPos : Nat) (t : Int)
    (hs : ShapeP c c5 ns) (hpos : c.instructions.length ≤ opPos) :
    ShapeP c (changeOperand c5 opPos t) ns := by
  obtain ⟨⟨code, hcode⟩, hc, hn, hd, hw⟩ := hs
  unfold changeOperand replaceInstruction
  refine ⟨⟨writeBytes code (opPos - c.instructions.length)
      ((make (c5.instructions.getD opPos 0) [t]).getD []), ?_⟩, hc, hn, hd, hw⟩
  show writeBytes c5.instructions opPos _ = _
  rw [hcode, writeBytes_append_right _ _ _ _ hpos]

theorem shape_removeLastPop {c c3 : CompState} {ns : List String}
    (hs : ShapeP c c3 ns) (hpos : c.instructions.length ≤ c3.lastInstruction.position) :
    ShapeP c (removeLastPop c3) ns := by
  obtain ⟨⟨code, hcode⟩, hc, hn, hd, hw⟩ := hs
  unfold removeLastPop
  refine ⟨⟨code.take (c3.lastInstruction.position - c.instructions.length), ?_⟩,
    hc, hn, hd, hw⟩
  show c3.instructions.take _ = _
  rw [hcode, List.take_append_eq_append_take,
    List.take_of_length_le (by omega)]

theorem shape_popfix {c c3 : CompState} {ns : List String} (hs : ShapeP c c3 ns)
    (hpos : c.instructions.length ≤ c3.lastInstruction.position ∨
      lastInstructionIsPop c3 = false) :
    ShapeP c (if lastInstructionIsPop c3 then removeLastPop c3 else c3) ns := by
  by_cases hp : lastInstructionIsPop c3
  · rw [if_pos hp]
    rcases hpos with h | h
    · exact shape_removeLastPop hs h
    · rw [hp] at h; simp at h
  · rw [if_neg hp]
    exact hs

theorem shapeP_len_le {c c' : CompState} {ns : List String} (hs : ShapeP c c' ns) :
    c.instructions.length ≤ c'.instructions.length := by
  obtain ⟨⟨code, hcode⟩, _, _, _, _⟩ := hs
  rw [hcode, List.length_append]
  omega

/-! ### `letNames` per-constructor equations -/

theorem letNamesE_int (v : Int) : letNamesE (.intLit v) = [] := rfl
theorem letNamesE_str (s : String) : letNamesE (.strLit s) = [] := rfl
theorem letNamesE_bool (b : Bool) : letNamesE (.boolLit b) = [] := rfl
theorem letNamesE_ident (n : String) : letNamesE (.ident n) = [] := rfl
theorem letNamesE_pre (op : String) (r : Expr) :
    letNamesE (.pre op r) = letNamesE r := rfl
theorem letNamesE_bin (op : String) (l r : Expr) :
    letNamesE (.bin op l r) = letNamesE l ++ letNamesE r := rfl
theorem letNamesE_ifE (c : Expr) (cs : StmtList) (a : AltBlock) :
    letNamesE (.ifE c cs a) = letNamesE c ++ letNamesSL cs ++ letNamesAlt a := rfl
theorem letNamesE_array (es : ExprList) : letNamesE (.arrayLit es) = letNamesEL es := rfl
theorem letNamesEL_nil : letNamesEL .nil = [] := rfl
theorem letNamesEL_cons (e : Expr) (rest : ExprList) :
    letNamesEL (.cons e rest) = letNamesE e ++ letNamesEL rest := rfl
theorem letNamesAlt_no : letNamesAlt .noAlt = [] := rfl
theorem letNamesAlt_some (b : StmtList) : letNamesAlt (.someAlt b) = letNamesSL b := rfl
theorem letNamesSL_nil : letNamesSL .nil = [] := rfl
theorem letNamesSL_cons (s : Stmt) (rest : StmtList) :
    letNamesSL (.cons s rest) = letNamesS s ++ letNamesSL rest := rfl
theorem letNamesS_expr (e : Expr) : letNamesS (.exprStmt e) = letNamesE e := rfl
theorem letNamesS_let (n : String) (v : Expr) :
    letNamesS (.letStmt n v) = letNamesE v ++ [n] := rfl

/-! ### What one compile step observably does (mutual induction on the AST) -/

mutual

theorem shapeE (e : Expr) : ∀ (c c' : CompState), compileExpr c e = .ok c' →
    ShapeP c c' (letNamesE e) := by
  cases e with
  | intLit v =>
    intro c c' h
    rw [compileExpr_int_eq] at h
    try dsimp only [] at h
    injection h with h'
    subst h'
    rw [letNamesE_int]
    exact shapeP_trans (shapeP_addConstant c _) (shapeP_emit _ opConstant _)
  | strLit s =>
    intro c c' h
    rw [compileExpr_str_eq] at h
    try dsimp only [] at h
    injection h with h'
    subst h'
    rw [letNamesE_str]
    exact shapeP_trans (shapeP_addConstant c _) (shapeP_emit _ opConstant _)
  | boolLit b =>
    intro c c' h
    rw [compileExpr_bool_eq] at h
    cases b with
    | true =>
      rw [if_pos rfl] at h
      injection h with h'
      subst h'
      exact shapeP_emit c opTrue []
    | false =>
      rw [if_neg (by simp)] at h
      injection h with h'
      subst h'
      exact shapeP_emit c opFalse []
  | ident n =>
    intro c c' h
    rw [compileExpr_ident_eq] at h
    cases hres : c.symbolTable.resolve n with
    | none => simp only [hres] at h; exact Except.noConfusion h
    | some idx =>
      simp only [hres] at h
      injection h with h'
      subst h'
      exact shapeP_emit c opGetGlobal _
  | pre op r =>
    intro c c' h
    rw [compileExpr_pre_eq] at h
    cases hr : compileExpr c r with
    | error m => rw [hr, exBind_err] at h; exact Except.noConfusion h
    | ok c1 =>
      rw [hr, exBind_ok] at h
      rw [letNamesE_pre]
      split at h
      · injection h with h'
        subst h'
        simpa using shapeP_trans (shapeE r c c1 hr) (shapeP_emit c1 opBang [])
      · split at h
        · injection h with h'
          subst h'
          simpa using shapeP_trans (shapeE r c c1 hr) (shapeP_emit c1 opMinus [])
        · exact Except.noConfusion h
  | bin op l r =>
    intro c c' h
    rw [compileExpr_bin_eq] at h
    cases hl : compileExpr c l with
    | error m => rw [hl, exBind_err] at h; exact Except.noConfusion h
    | ok c1 =>
      rw [hl, exBind_ok] at h
      cases hr : compileExpr c1 r with
      | error m => rw [hr, exBind_err] at h; exact Except.noConfusion h
      | ok c2 =>
        rw [hr, exBind_ok] at h
        have s12 : ShapeP c c2 (letNamesE l ++ letNamesE r) :=
          shapeP_trans (shapeE l c c1 hl) (shapeE r c1 c2 hr)
        rw [letNamesE_bin]
        split at h
        · injection h with h'; subst h'; simpa using shapeP_trans s12 (shapeP_emit c2 opAdd [])
        · split at h
          · injection h with h'; subst h'; simpa using shapeP_trans s12 (shapeP_emit c2 opSub [])
          · split at h
            · injection h with h'; subst h'; simpa using shapeP_trans s12 (shapeP_emit c2 opMul [])
            · split at h
              · injection h with h'; subst h'; simpa using shapeP_trans s12 (shapeP_emit c2 opDiv [])
              · split at h
                · injection h with h'; subst h'; simpa using shapeP_trans s12 (shapeP_emit c2 opEqual [])
                · split at h
                  · injection h with h'; subst h'; simpa using shapeP_trans s12 (shapeP_emit c2 opNotEqual [])
                  · split at h
                    · injection h with h'; subst h'; simpa using shapeP_trans s12 (shapeP_emit c2 opLessThan [])
                    · split at h
                      · injection h with h'; subst h'; simpa using shapeP_trans s12 (shapeP_emit c2 opGreaterThan [])
                      · exact Except.noConfusion h
  | arrayLit elems =>
    intro c c' h
    rw [compileExpr_array_eq] at h
    cases hel : compileExprList c elems with
    | error m => rw [hel, exBind_err] at h; exact Except.noConfusion h
    | ok c1 =>
      rw [hel, exBind_ok] at h
      injection h with h'
      subst h'
      rw [letNamesE_array]
      simpa using shapeP_trans (shapeEL elems c c1 hel) (shapeP_emit c1 opArray _)
  | hashLit ps =>
    intro c c' h
    rw [compileExpr_hash_eq] at h
    exact Except.noConfusion h
  | ifE cond csq alt =>
    intro c c' h
    cases alt with
    | noAlt =>
      rw [compileExpr_ifE_noAlt_eq] at h
      cases hcond : compileExpr c cond with
      | error m => rw [hcond, exBind_err] at h; exact Except.noConfusion h
      | ok c1 =>
        rw [hcond, exBind_ok] at h
        try dsimp only [] at h
        cases hcons : compileStmts (emit c1 opJumpNotTruthy [9999]).2 csq with
        | error m => rw [hcons, exBind_err] at h; exact Except.noConfusion h
        | ok c3 =>
          rw [hcons, exBind_ok] at h
          try dsimp only [] at h
          injection h with h'
          subst h'
          have s1 : ShapeP c c1 (letNamesE cond) := shapeE cond c c1 hcond
          have s2 : ShapeP c (emit c1 opJumpNotTruthy [9999]).2 (letNamesE cond) := by
            simpa using shapeP_trans s1 (shapeP_emit c1 opJumpNotTruthy [9999])
          obtain ⟨s3, hpos3⟩ := shapeSL csq (emit c1 opJumpNotTruthy [9999]).2 c3 hcons
          have s3' : ShapeP c c3 (letNamesE cond ++ letNamesSL csq) := shapeP_trans s2 s3
          have s4 : ShapeP c (if lastInstructionIsPop c3 then removeLastPop c3 else c3)
              (letNamesE cond ++ letNamesSL csq) := by
            apply shape_popfix s3'
            cases csq with
            | nil =>
              right
              rw [compileStmts_nil_eq] at hcons
              injection hcons with hc3
              subst hc3
              rfl
            | cons st rest =>
              left
              have h1 := hpos3 (fun hh => StmtList.noConfusion hh)
              have h2 := shapeP_len_le s2
              omega
          have s5 : ShapeP c (emit (if lastInstructionIsPop c3 then removeLastPop c3 else c3)
              opJump [9999]).2 (letNamesE cond ++ letNamesSL csq) := by
            simpa using shapeP_trans s4 (shapeP_emit _ opJump [9999])
          have s6 := shape_changeOperand (emit c1 opJumpNotTruthy [9999]).1
            ((emit (if lastInstructionIsPop c3 then removeLastPop c3 else c3)
              opJump [9999]).2.instructions.length : Int) s5 (shapeP_len_le s1)
          have s7 := shapeP_trans s6 (shapeP_emit _ opNull [])
          have s8 := shape_changeOperand
            (emit (if lastInstructionIsPop c3 then removeLastPop c3 else c3) opJump [9999]).1
            ((emit (changeOperand (emit (if lastInstructionIsPop c3 then removeLastPop c3
                else c3) opJump [9999]).2 (emit c1 opJumpNotTruthy [9999]).1
              ((emit (if lastInstructionIsPop c3 then removeLastPop c3 else c3)
                opJump [9999]).2.instructions.length : Int)) opNull
              []).2.instructions.length : Int)
            s7 (shapeP_len_le s4)
          rw [letNamesE_ifE, letNamesAlt_no]
          simpa using s8
    | someAlt b =>
      rw [compileExpr_ifE_someAlt_eq] at h
      cases hcond : compileExpr c cond with
      | error m => rw [hcond, exBind_err] at h; exact Except.noConfusion h
      | ok c1 =>
        rw [hcond, exBind_ok] at h
        try dsimp only [] at h
        cases hcons : compileStmts (emit c1 opJumpNotTruthy [9999]).2 csq with
        | error m => rw [hcons, exBind_err] at h; exact Except.noConfusion h
        | ok c3 =>
          rw [hcons, exBind_ok] at h
          try dsimp only [] at h
          cases halt : compileStmts (changeOperand (emit (if lastInstructionIsPop c3
              then removeLastPop c3 else c3) opJump [9999]).2
              (emit c1 opJumpNotTruthy [9999]).1
              ((emit (if lastInstructionIsPop c3 then removeLastPop c3 else c3)
                opJump [9999]).2.instructions.length : Int)) b with
          | error m => rw [halt, exBind_err] at h; exact Except.noConfusion h
          | ok c7 =>
            rw [halt, exBind_ok] at h
            try dsimp only [] at h
            injection h with h'
            subst h'
            have s1 : ShapeP c c1 (letNamesE cond) := shapeE cond c c1 hcond
            have s2 : ShapeP c (emit c1 opJumpNotTruthy [9999]).2 (letNamesE cond) := by
              simpa using shapeP_trans s1 (shapeP_emit c1 opJumpNotTruthy [9999])
            obtain ⟨s3, hpos3⟩ := shapeSL csq (emit c1 opJumpNotTruthy [9999]).2 c3 hcons
            have s3' : ShapeP c c3 (letNamesE cond ++ letNamesSL csq) := shapeP_trans s2 s3
            have s4 : ShapeP c (if lastInstructionIsPop c3 then removeLastPop c3 else c3)
                (letNamesE cond ++ letNamesSL csq) := by
              apply shape_popfix s3'
              cases csq with
              | nil =>
                right
                rw [compileStmts_nil_eq] at hcons
                injection hcons with hc3
                subst hc3
                rfl
              | cons st rest =>
                left
                have h1 := hpos3 (fun hh => StmtList.noConfusion hh)
                have h2 := shapeP_len_le s2
                omega
            have s5 : ShapeP c (emit (if lastInstructionIsPop c3 then removeLastPop c3 else c3)
                opJump [9999]).2 (letNamesE cond ++ letNamesSL csq) := by
              simpa using shapeP_trans s4 (shapeP_emit _ opJump [9999])
            have s6 := shape_changeOperand (emit c1 opJumpNotTruthy [9999]).1
              ((emit (if lastInstructionIsPop c3 then removeLastPop c3 else c3)
                opJump [9999]).2.instructions.length : Int) s5 (shapeP_len_le s1)
            obtain ⟨s7, hpos7⟩ := shapeSL b _ c7 halt
            have s7' : ShapeP c c7 ((letNamesE cond ++ letNamesSL csq) ++ letNamesSL b) :=
              shapeP_trans s6 s7
            have s8 : ShapeP c (if lastInstructionIsPop c7 then removeLastPop c7 else c7)
                ((letNamesE cond ++ letNamesSL csq) ++ letNamesSL b) := by
              apply shape_popfix s7'
              cases b with
              | nil =>
                right
                rw [compileStmts_nil_eq] at halt
                injection halt with hc7
                subst hc7
                rfl
              | cons st rest =>
                left
                have h1 := hpos7 (fun hh => StmtList.noConfusion hh)
                have h2 := shapeP_len_le s6
                omega
            have s9 := shape_changeOperand
              (emit (if lastInstructionIsPop c3 then removeLastPop c3 else c3) opJump [9999]).1
              ((if lastInstructionIsPop c7 then removeLastPop c7
                else c7).instructions.length : Int)
              s8 (shapeP_len_le s4)
            rw [letNamesE_ifE, letNamesAlt_some]
            exact s9

theorem shapeEL (es : ExprList) : ∀ (c c' : CompState), compileExprList c es = .ok c' →
    ShapeP c c' (letNamesEL es) := by
  cases es with
  | nil =>
    intro c c' h
    rw [compileExprList_nil_eq] at h
    injection h with h'
    subst h'
    rw [letNamesEL_nil]
    exact shapeP_refl c
  | cons e rest =>
    intro c c' h
    rw [compileExprList_cons_eq] at h
    cases he : compileExpr c e with
    | error m => rw [he, exBind_err] at h; exact Except.noConfusion h
    | ok c1 =>
      rw [he, exBind_ok] at h
      rw [letNamesEL_cons]
      exact shapeP_trans (shapeE e c c1 he) (shapeEL rest c1 c' h)

theorem shapeS (st : Stmt) : ∀ (c c' : CompState), compileStmt c st = .ok c' →
    ShapeP c c' (letNamesS st) ∧
      c.instructions.length ≤ c'.lastInstruction.position := by
  cases st with
  | exprStmt e =>
    intro c c' h
    rw [compileStmt_expr_eq] at h
    cases he : compileExpr c e with
    | error m => rw [he, exBind_err] at h; exact Except.noConfusion h
    | ok c1 =>
      rw [he, exBind_ok] at h
      injection h with h'
      subst h'
      constructor
      · rw [letNamesS_expr]
        simpa using shapeP_trans (shapeE e c c1 he) (shapeP_emit c1 opPop [])
      · show c.instructions.length ≤ c1.instructions.length
        exact shapeP_len_le (shapeE e c c1 he)
  | letStmt n v =>
    intro c c' h
    rw [compileStmt_let_eq] at h
    cases hv : compileExpr c v with
    | error m => rw [hv, exBind_err] at h; exact Except.noConfusion h
    | ok c1 =>
      rw [hv, exBind_ok] at h
      try dsimp only [] at h
      injection h with h'
      subst h'
      constructor
      · rw [letNamesS_let]
        exact shapeP_trans (shapeE v c c1 hv) (shapeP_define_emit c1 n opSetGlobal _)
      · show c.instructions.length ≤ c1.instructions.length
        exact shapeP_len_le (shapeE v c c1 hv)

theorem shapeSL (sl : StmtList) : ∀ (c c' : CompState), compileStmts c sl = .ok c' →
    ShapeP c c' (letNamesSL sl) ∧
      (sl ≠ .nil → c.instructions.length ≤ c'.lastInstruction.position) := by
  cases sl with
  | nil =>
    intro c c' h
    rw [compileStmts_nil_eq] at h
    injection h with h'
    subst h'
    exact ⟨by rw [letNamesSL_nil]; exact shapeP_refl c, fun hne => absurd rfl hne⟩
  | cons st rest =>
    intro c c' h
    rw [compileStmts_cons_eq] at h
    cases hs : compileStmt c st with
    | error m => rw [hs, exBind_err] at h; exact Except.noConfusion h
    | ok c1 =>
      rw [hs, exBind_ok] at h
      obtain ⟨sh1, hp1⟩ := shapeS st c c1 hs
      obtain ⟨sh2, hp2⟩ := shapeSL rest c1 c' h
      refine ⟨by rw [letNamesSL_cons]; exact shapeP_trans sh1 sh2, fun _ => ?_⟩
      cases rest with
      | nil =>
        rw [compileStmts_nil_eq] at h
        injection h with h2
        subst h2
        exact hp1
      | cons b bs =>
        have h1 := hp2 (fun hh => StmtList.noConfusion hh)
        have h2 := shapeP_len_le sh1
        omega

end

/-! ### Lists of evaluated values on the stack -/

theorem evalExprList_length (es : ExprList) :
    ∀ (env : Env) (vs : List Val) (env1 : Env),
      evalExprList env es = some (vs, env1) → vs.length = ExprList.length es := by
  cases es with
  | nil =>
    intro env vs env1 h
    rw [evalExprList_nil_eq] at h
    injection h with h'
    have h1 : vs = [] := by
      have h2 := congrArg Prod.fst h'
      simpa using h2.symm
    rw [h1]
    rfl
  | cons e rest =>
    intro env vs env1 h
    rw [evalExprList_cons_eq] at h
    cases hp : evalExpr env e with
    | none => rw [hp] at h; exact Option.noConfusion h
    | some p =>
      rw [hp] at h
      simp only [Option.bind] at h
      cases hq : evalExprList p.2 rest with
      | none => rw [hq] at h; exact Option.noConfusion h
      | some q =>
        rw [hq] at h
        simp only [Option.map] at h
        injection h with h'
        have h1 : vs = p.1 :: q.1 := by
          have := congrArg Prod.fst h'
          simpa using this.symm
        rw [h1]
        show q.1.length + 1 = ExprList.length (.cons e rest)
        rw [evalExprList_length rest p.2 q.1 q.2 hq,
          show ExprList.length (.cons e rest) = 1 + ExprList.length rest from rfl]
        omega

theorem eraseList_cons_some (o : Obj) (L : List (Option Obj)) :
    eraseList (some o :: L) =
      match eraseObj o, eraseList L with
      | some v, some vs => some (v :: vs)
      | _, _ => none := rfl

theorem valsAt_eraseList : ∀ (vs : List Val) (s : VMState) (base : Nat),
    ValsAt s base vs →
    eraseList ((List.range vs.length).map (fun i => s.stack (base + i))) = some vs := by
  intro vs
  induction vs with
  | nil => intro s base h; rfl
  | cons v rest ih =>
    intro s base h
    obtain ⟨⟨o, ho, he⟩, hrest⟩ := h
    show eraseList ((List.range (rest.length + 1)).map (fun i => s.stack (base + i)))
      = some (v :: rest)
    rw [List.range_succ_eq_map, List.map_cons, List.map_map]
    have hc : ((fun i => s.stack (base + i)) ∘ Nat.succ)
        = (fun i => s.stack ((base + 1) + i)) := by
      funext i
      simp only [Function.comp]
      congr 1
      omega
    rw [hc]
    have h0 : s.stack (base + 0) = some o := by
      rw [Nat.add_zero]
      exact ho
    rw [h0, eraseList_cons_some]
    simp only [he, ih s (base + 1) hrest]

/-! ### Bridges from `binValOp` to the VM helpers -/

theorem bridge_add {s : VMState} {v1 v2 v : Val} {o1 o2 : Obj}
    (hsp2 : 2 ≤ s.sp) (hsp : s.sp ≤ 2048)
    (hl : s.stack (s.sp - 2) = some o1) (hr : s.stack (s.sp - 1) = some o2)
    (he1 : eraseObj o1 = some v1) (he2 : eraseObj o2 = some v2)
    (hbv : binValOp "+" v1 v2 = some v) :
    ∃ o', executeBinaryOperation opAdd s = some
      ({ s with
        stack := fun k => if k = s.sp - 2 then some o' else s.stack k,
        sp := s.sp - 1, nextId := s.nextId + 1 }, none) ∧ eraseObj o' = some v := by
  cases v1 with
  | intV a =>
    cases v2 with
    | intV b =>
      obtain ⟨i, rfl⟩ := eraseObj_intV he1
      obtain ⟨j, rfl⟩ := eraseObj_intV he2
      rw [show binValOp "+" (.intV a) (.intV b) = some (.intV (i64add a b)) from by
        simp [binValOp]] at hbv
      injection hbv with hv
      subst hv
      exact ⟨.intO s.nextId (i64add a b), execBinOp_add_int hsp2 hsp hl hr, rfl⟩
    | strV b => simp [binValOp, identityKind] at hbv
    | boolV b => simp [binValOp, identityKind] at hbv
    | nullV => simp [binValOp, identityKind] at hbv
    | arrV es => simp [binValOp, identityKind] at hbv
  | strV a =>
    cases v2 with
    | strV b =>
      obtain ⟨i, rfl⟩ := eraseObj_strV he1
      obtain ⟨j, rfl⟩ := eraseObj_strV he2
      rw [show binValOp "+" (.strV a) (.strV b) = some (.strV (a ++ b)) from by
        simp [binValOp]] at hbv
      injection hbv with hv
      subst hv
      exact ⟨.strO s.nextId (a ++ b), execBinOp_add_str hsp2 hsp hl hr, rfl⟩
    | intV b => simp [binValOp, identityKind] at hbv
    | boolV b => simp [binValOp, identityKind] at hbv
    | nullV => simp [binValOp, identityKind] at hbv
    | arrV es => simp [binValOp, identityKind] at hbv
  | boolV a => cases v2 <;> simp [binValOp, identityKind] at hbv
  | nullV => cases v2 <;> simp [binValOp, identityKind] at hbv
  | arrV es => cases v2 <;> simp [binValOp, identityKind] at hbv

theorem bridge_sub {s : VMState} {v1 v2 v : Val} {o1 o2 : Obj}
    (hsp2 : 2 ≤ s.sp) (hsp : s.sp ≤ 2048)
    (hl : s.stack (s.sp - 2) = some o1) (hr : s.stack (s.sp - 1) = some o2)
    (he1 : eraseObj o1 = some v1) (he2 : eraseObj o2 = some v2)
    (hbv : binValOp "-" v1 v2 = some v) :
    ∃ o', executeBinaryOperation opSub s = some
      ({ s with
        stack := fun k => if k = s.sp - 2 then some o' else s.stack k,
        sp := s.sp - 1, nextId := s.nextId + 1 }, none) ∧ eraseObj o' = some v := by
  cases v1 with
  | intV a =>
    cases v2 with
    | intV b =>
      obtain ⟨i, rfl⟩ := eraseObj_intV he1
      obtain ⟨j, rfl⟩ := eraseObj_intV he2
      rw [show binValOp "-" (.intV a) (.intV b) = some (.intV (i64sub a b)) from by
        simp [binValOp]] at hbv
      injection hbv with hv
      subst hv
      exact ⟨.intO s.nextId (i64sub a b), execBinOp_sub_int hsp2 hsp hl hr, rfl⟩
    | strV b => simp [binValOp, identityKind] at hbv
    | boolV b => simp [binValOp, identityKind] at hbv
    | nullV => simp [binValOp, identityKind] at hbv
    | arrV es => simp [binValOp, identityKind] at hbv
  | strV a => cases v2 <;> simp [binValOp, identityKind] at hbv
  | boolV a => cases v2 <;> simp [binValOp, identityKind] at hbv
  | nullV => cases v2 <;> simp [binValOp, identityKind] at hbv
  | arrV es => cases v2 <;> simp [binValOp, identityKind] at hbv

theorem bridge_mul {s : VMState} {v1 v2 v : Val} {o1 o2 : Obj}
    (hsp2 : 2 ≤ s.sp) (hsp : s.sp ≤ 2048)
    (hl : s.stack (s.sp - 2) = some o1) (hr : s.stack (s.sp - 1) = some o2)
    (he1 : eraseObj o1 = some v1) (he2 : eraseObj o2 = some v2)
    (hbv : binValOp "*" v1 v2 = some v) :
    ∃ o', executeBinaryOperation opMul s = some
      ({ s with
        stack := fun k => if k = s.sp - 2 then some o' else s.stack k,
        sp := s.sp - 1, nextId := s.nextId + 1 }, none) ∧ eraseObj o' = some v := by
  cases v1 with
  | intV a =>
    cases v2 with
    | intV b =>
      obtain ⟨i, rfl⟩ := eraseObj_intV he1
      obtain ⟨j, rfl⟩ := eraseObj_intV he2
      rw [show binValOp "*" (.intV a) (.intV b) = some (.intV (i64mul a b)) from by
        simp [binValOp]] at hbv
      injection hbv with hv
      subst hv
      exact ⟨.intO s.nextId (i64mul a b), execBinOp_mul_int hsp2 hsp hl hr, rfl⟩
    | strV b => simp [binValOp, identityKind] at hbv
    | boolV b => simp [binValOp, identityKind] at hbv
    | nullV => simp [binValOp, identityKind] at hbv
    | arrV es => simp [binValOp, identityKind] at hbv
  | strV a => cases v2 <;> simp [binValOp, identityKind] at hbv
  | boolV a => cases v2 <;> simp [binValOp, identityKind] at hbv
  | nullV => cases v2 <;> simp [binValOp, identityKind] at hbv
  | arrV es => cases v2 <;> simp [binValOp, identityKind] at hbv

theorem bridge_div {s : VMState} {v1 v2 v : Val} {o1 o2 : Obj}
    (hsp2 : 2 ≤ s.sp) (hsp : s.sp ≤ 2048)
    (hl : s.stack (s.sp - 2) = some o1) (hr : s.stack (s.sp - 1) = some o2)
    (he1 : eraseObj o1 = some v1) (he2 : eraseObj o2 = some v2)
    (hbv : binValOp "/" v1 v2 = some v) :
    ∃ o', executeBinaryOperation opDiv s = some
      ({ s with
        stack := fun k => if k = s.sp - 2 then some o' else s.stack k,
        sp := s.sp - 1, nextId := s.nextId + 1 }, none) ∧ eraseObj o' = some v := by
  cases v1 with
  | intV a =>
    cases v2 with
    | intV b =>
      obtain ⟨i, rfl⟩ := eraseObj_intV he1
      obtain ⟨j, rfl⟩ := eraseObj_intV he2
      by_cases hb : b = 0
      · subst hb
        simp [binValOp] at hbv
      · rw [show binValOp "/" (.intV a) (.intV b) = some (.intV (i64div a b)) from by
          simp [binValOp, hb]] at hbv
        injection hbv with hv
        subst hv
        exact ⟨.intO s.nextId (i64div a b), execBinOp_div_int hsp2 hsp hl hr hb, rfl⟩
    | strV b => simp [binValOp, identityKind] at hbv
    | boolV b => simp [binValOp, identityKind] at hbv
    | nullV => simp [binValOp, identityKind] at hbv
    | arrV es => simp [binValOp, identityKind] at hbv
  | strV a => cases v2 <;> simp [binValOp, identityKind] at hbv
  | boolV a => cases v2 <;> simp [binValOp, identityKind] at hbv
  | nullV => cases v2 <;> simp [binValOp, identityKind] at hbv
  | arrV es => cases v2 <;> simp [binValOp, identityKind] at hbv

theorem bridge_eq {s : VMState} {v1 v2 v : Val} {o1 o2 : Obj}
    (hsp2 : 2 ≤ s.sp) (hsp : s.sp ≤ 2048)
    (hl : s.stack (s.sp - 2) = some o1) (hr : s.stack (s.sp - 1) = some o2)
    (he1 : eraseObj o1 = some v1) (he2 : eraseObj o2 = some v2)
    (hbv : binValOp "==" v1 v2 = some v) :
    ∃ bb : Bool, executeComparison opEqual s = some
      ({ s with
        stack := fun k => if k = s.sp - 2 then some (.boolO bb) else s.stack k,
        sp := s.sp - 1 }, none) ∧ v = .boolV bb := by
  cases v1 with
  | intV a =>
    cases v2 with
    | intV b =>
      obtain ⟨i, rfl⟩ := eraseObj_intV he1
      obtain ⟨j, rfl⟩ := eraseObj_intV he2
      rw [show binValOp "==" (.intV a) (.intV b) = some (.boolV (a == b)) from by
        simp [binValOp]] at hbv
      injection hbv with hv
      exact ⟨a == b, execCmp_eq_int hsp2 hsp hl hr, hv.symm⟩
    | boolV b =>
      obtain ⟨i, rfl⟩ := eraseObj_intV he1
      obtain rfl := eraseObj_boolV he2
      rw [show binValOp "==" (.intV a) (.boolV b) = some (.boolV false) from by
        simp [binValOp, identityKind]] at hbv
      injection hbv with hv
      refine ⟨goEq (some (.intO i a)) (some (.boolO b)),
        execCmp_eq_other hsp2 hsp hl hr (by simp [isIntObj]), ?_⟩
      rw [← hv]
      simp [goEq]
    | nullV =>
      obtain ⟨i, rfl⟩ := eraseObj_intV he1
      obtain rfl := eraseObj_nullV he2
      rw [show binValOp "==" (.intV a) .nullV = some (.boolV false) from by
        simp [binValOp, identityKind]] at hbv
      injection hbv with hv
      refine ⟨goEq (some (.intO i a)) (some .nullO),
        execCmp_eq_other hsp2 hsp hl hr (by simp [isIntObj]), ?_⟩
      rw [← hv]
      simp [goEq]
    | strV b => simp [binValOp, identityKind] at hbv
    | arrV es => simp [binValOp, identityKind] at hbv
  | boolV a =>
    cases v2 with
    | intV b =>
      obtain rfl := eraseObj_boolV he1
      obtain ⟨j, rfl⟩ := eraseObj_intV he2
      rw [show binValOp "==" (.boolV a) (.intV b) = some (.boolV false) from by
        simp [binValOp, identityKind]] at hbv
      injection hbv with hv
      refine ⟨goEq (some (.boolO a)) (some (.intO j b)),
        execCmp_eq_other hsp2 hsp hl hr (by simp [isIntObj]), ?_⟩
      rw [← hv]
      simp [goEq]
    | boolV b =>
      obtain rfl := eraseObj_boolV he1
      obtain rfl := eraseObj_boolV he2
      rw [show binValOp "==" (.boolV a) (.boolV b) = some (.boolV (a == b)) from by
        simp [binValOp]] at hbv
      injection hbv with hv
      refine ⟨goEq (some (.boolO a)) (some (.boolO b)),
        execCmp_eq_other hsp2 hsp hl hr (by simp [isIntObj]), ?_⟩
      rw [← hv]
      simp [goEq]
    | nullV =>
      obtain rfl := eraseObj_boolV he1
      obtain rfl := eraseObj_nullV he2
      rw [show binValOp "==" (.boolV a) .nullV = some (.boolV false) from by
        simp [binValOp, identityKind]] at hbv
      injection hbv with hv
      refine ⟨goEq (some (.boolO a)) (some .nullO),
        execCmp_eq_other hsp2 hsp hl hr (by simp [isIntObj]), ?_⟩
      rw [← hv]
      simp [goEq]
    | strV b => simp [binValOp, identityKind] at hbv
    | arrV es => simp [binValOp, identityKind] at hbv
  | nullV =>
    cases v2 with
    | intV b =>
      obtain rfl := eraseObj_nullV he1
      obtain ⟨j, rfl⟩ := eraseObj_intV he2
      rw [show binValOp "==" Val.nullV (.intV b) = some (.boolV false) from by
        simp [binValOp, identityKind]] at hbv
      injection hbv with hv
      refine ⟨goEq (some .nullO) (some (.intO j b)),
        execCmp_eq_other hsp2 hsp hl hr (by simp [isIntObj]), ?_⟩
      rw [← hv]
      simp [goEq]
    | boolV b =>
      obtain rfl := eraseObj_nullV he1
      obtain rfl := eraseObj_boolV he2
      rw [show binValOp "==" Val.nullV (.boolV b) = some (.boolV false) from by
        simp [binValOp, identityKind]] at hbv
      injection hbv with hv
      refine ⟨goEq (some .nullO) (some (.boolO b)),
        execCmp_eq_other hsp2 hsp hl hr (by simp [isIntObj]), ?_⟩
      rw [← hv]
      simp [goEq]
    | nullV =>
      obtain rfl := eraseObj_nullV he1
      obtain rfl := eraseObj_nullV he2
      rw [show binValOp "==" Val.nullV Val.nullV = some (.boolV true) from by
        simp [binValOp]] at hbv
      injection hbv with hv
      refine ⟨goEq (some .nullO) (some .nullO),
        execCmp_eq_other hsp2 hsp hl hr (by simp [isIntObj]), ?_⟩
      rw [← hv]
      simp [goEq]
    | strV b => simp [binValOp, identityKind] at hbv
    | arrV es => simp [binValOp, identityKind] at hbv
  | strV a => cases v2 <;> simp [binValOp, identityKind] at hbv
  | arrV es => cases v2 <;> simp [binValOp, identityKind] at hbv

theorem bridge_neq {s : VMState} {v1 v2 v : Val} {o1 o2 : Obj}
    (hsp2 : 2 ≤ s.sp) (hsp : s.sp ≤ 2048)
    (hl : s.stack (s.sp - 2) = some o1) (hr : s.stack (s.sp - 1) = some o2)
    (he1 : eraseObj o1 = some v1) (he2 : eraseObj o2 = some v2)
    (hbv : binValOp "!=" v1 v2 = some v) :
    ∃ bb : Bool, executeComparison opNotEqual s = some
      ({ s with
        stack := fun k => if k = s.sp - 2 then some (.boolO bb) else s.stack k,
        sp := s.sp - 1 }, none) ∧ v = .boolV bb := by
  cases v1 with
  | intV a =>
    cases v2 with
    | intV b =>
      obtain ⟨i, rfl⟩ := eraseObj_intV he1
      obtain ⟨j, rfl⟩ := eraseObj_intV he2
      rw [show binValOp "!=" (.intV a) (.intV b) = some (.boolV (a != b)) from by
        simp [binValOp]] at hbv
      injection hbv with hv
      exact ⟨a != b, execCmp_neq_int hsp2 hsp hl hr, hv.symm⟩
    | boolV b =>
      obtain ⟨i, rfl⟩ := eraseObj_intV he1
      obtain rfl := eraseObj_boolV he2
      rw [show binValOp "!=" (.intV a) (.boolV b) = some (.boolV true) from by
        simp [binValOp, identityKind]] at hbv
      injection hbv with hv
      refine ⟨!goEq (some (.intO i a)) (some (.boolO b)),
        execCmp_neq_other hsp2 hsp hl hr (by simp [isIntObj]), ?_⟩
      rw [← hv]
      simp [goEq]
    | nullV =>
      obtain ⟨i, rfl⟩ := eraseObj_intV he1
      obtain rfl := eraseObj_nullV he2
      rw [show binValOp "!=" (.intV a) .nullV = some (.boolV true) from by
        simp [binValOp, identityKind]] at hbv
      injection hbv with hv
      refine ⟨!goEq (some (.intO i a)) (some .nullO),
        execCmp_neq_other hsp2 hsp hl hr (by simp [isIntObj]), ?_⟩
      rw [← hv]
      simp [goEq]
    | strV b => simp [binValOp, identityKind] at hbv
    | arrV es => simp [binValOp, identityKind] at hbv
  | boolV a =>
    cases v2 with
    | intV b =>
      obtain rfl := eraseObj_boolV he1
      obtain ⟨j, rfl⟩ := eraseObj_intV he2
      rw [show binValOp "!=" (.boolV a) (.intV b) = some (.boolV true) from by
        simp [binValOp, identityKind]] at hbv
      injection hbv with hv
      refine ⟨!goEq (some (.boolO a)) (some (.intO j b)),
        execCmp_neq_other hsp2 hsp hl hr (by simp [isIntObj]), ?_⟩
      rw [← hv]
      simp [goEq]
    | boolV b =>
      obtain rfl := eraseObj_boolV he1
      obtain rfl := eraseObj_boolV he2
      rw [show binValOp "!=" (.boolV a) (.boolV b) = some (.boolV (a != b)) from by
        simp [binValOp]] at hbv
      injection hbv with hv
      refine ⟨!goEq (some (.boolO a)) (some (.boolO b)),
        execCmp_neq_other hsp2 hsp hl hr (by simp [isIntObj]), ?_⟩
      rw [← hv]
      simp [goEq, bne]
    | nullV =>
      obtain rfl := eraseObj_boolV he1
      obtain rfl := eraseObj_nullV he2
      rw [show binValOp "!=" (.boolV a) .nullV = some (.boolV true) from by
        simp [binValOp, identityKind]] at hbv
      injection hbv with hv
      refine ⟨!goEq (some (.boolO a)) (some .nullO),
        execCmp_neq_other hsp2 hsp hl hr (by simp [isIntObj]), ?_⟩
      rw [← hv]
      simp [goEq]
    | strV b => simp [binValOp, identityKind] at hbv
    | arrV es => simp [binValOp, identityKind] at hbv
  | nullV =>
    cases v2 with
    | intV b =>
      obtain rfl := eraseObj_nullV he1
      obtain ⟨j, rfl⟩ := eraseObj_intV he2
      rw [show binValOp "!=" Val.nullV (.intV b) = some (.boolV true) from by
        simp [binValOp, identityKind]] at hbv
      injection hbv with hv
      refine ⟨!goEq (some .nullO) (some (.intO j b)),
        execCmp_neq_other hsp2 hsp hl hr (by simp [isIntObj]), ?_⟩
      rw [← hv]
      simp [goEq]
    | boolV b =>
      obtain rfl := eraseObj_nullV he1
      obtain rfl := eraseObj_boolV he2
      rw [show binValOp "!=" Val.nullV (.boolV b) = some (.boolV true) from by
        simp [binValOp, identityKind]] at hbv
      injection hbv with hv
      refine ⟨!goEq (some .nullO) (some (.boolO b)),
        execCmp_neq_other hsp2 hsp hl hr (by simp [isIntObj]), ?_⟩
      rw [← hv]
      simp [goEq]
    | nullV =>
      obtain rfl := eraseObj_nullV he1
      obtain rfl := eraseObj_nullV he2
      rw [show binValOp "!=" Val.nullV Val.nullV = some (.boolV false) from by
        simp [binValOp]] at hbv
      injection hbv with hv
      refine ⟨!goEq (some .nullO) (some .nullO),
        execCmp_neq_other hsp2 hsp hl hr (by simp [isIntObj]), ?_⟩
      rw [← hv]
      simp [goEq]
    | strV b => simp [binValOp, identityKind] at hbv
    | arrV es => simp [binValOp, identityKind] at hbv
  | strV a => cases v2 <;> simp [binValOp, identityKind] at hbv
  | arrV es => cases v2 <;> simp [binValOp, identityKind] at hbv

theorem bridge_lt {s : VMState} {v1 v2 v : Val} {o1 o2 : Obj}
    (hsp2 : 2 ≤ s.sp) (hsp : s.sp ≤ 2048)
    (hl : s.stack (s.sp - 2) = some o1) (hr : s.stack (s.sp - 1) = some o2)
    (he1 : eraseObj o1 = some v1) (he2 : eraseObj o2 = some v2)
    (hbv : binValOp "<" v1 v2 = some v) :
    ∃ bb : Bool, executeComparison opLessThan s = some
      ({ s with
        stack := fun k => if k = s.sp - 2 then some (.boolO bb) else s.stack k,
        sp := s.sp - 1 }, none) ∧ v = .boolV bb := by
  cases v1 with
  | intV a =>
    cases v2 with
    | intV b =>
      obtain ⟨i, rfl⟩ := eraseObj_intV he1
      obtain ⟨j, rfl⟩ := eraseObj_intV he2
      rw [show binValOp "<" (.intV a) (.intV b) = some (.boolV (decide (a < b))) from by
        simp [binValOp]] at hbv
      injection hbv with hv
      exact ⟨decide (a < b), execCmp_lt_int hsp2 hsp hl hr, hv.symm⟩
    | strV b => simp [binValOp, identityKind] at hbv
    | boolV b => simp [binValOp, identityKind] at hbv
    | nullV => simp [binValOp, identityKind] at hbv
    | arrV es => simp [binValOp, identityKind] at hbv
  | strV a => cases v2 <;> simp [binValOp, identityKind] at hbv
  | boolV a => cases v2 <;> simp [binValOp, identityKind] at hbv
  | nullV => cases v2 <;> simp [binValOp, identityKind] at hbv
  | arrV es => cases v2 <;> simp [binValOp, identityKind] at hbv

theorem bridge_gt {s : VMState} {v1 v2 v : Val} {o1 o2 : Obj}
    (hsp2 : 2 ≤ s.sp) (hsp : s.sp ≤ 2048)
    (hl : s.stack (s.sp - 2) = some o1) (hr : s.stack (s.sp - 1) = some o2)
    (he1 : eraseObj o1 = some v1) (he2 : eraseObj o2 = some v2)
    (hbv : binValOp ">" v1 v2 = some v) :
    ∃ bb : Bool, executeComparison opGreaterThan s = some
      ({ s with
        stack := fun k => if k = s.sp - 2 then some (.boolO bb) else s.stack k,
        sp := s.sp - 1 }, none) ∧ v = .boolV bb := by
  cases v1 with
  | intV a =>
    cases v2 with
    | intV b =>
      obtain ⟨i, rfl⟩ := eraseObj_intV he1
      obtain ⟨j, rfl⟩ := eraseObj_intV he2
      rw [show binValOp ">" (.intV a) (.intV b) = some (.boolV (decide (a > b))) from by
        simp [binValOp]] at hbv
      injection hbv with hv
      exact ⟨decide (a > b), execCmp_gt_int hsp2 hsp hl hr, hv.symm⟩
    | strV b => simp [binValOp, identityKind] at hbv
    | boolV b => simp [binValOp, identityKind] at hbv
    | nullV => simp [binValOp, identityKind] at hbv
    | arrV es => simp [binValOp, identityKind] at hbv
  | strV a => cases v2 <;> simp [binValOp, identityKind] at hbv
  | boolV a => cases v2 <;> simp [binValOp, identityKind] at hbv
  | nullV => cases v2 <;> simp [binValOp, identityKind] at hbv
  | arrV es => cases v2 <;> simp [binValOp, identityKind] at hbv

/-! ### Shape projections and further glue -/

theorem getD_at_append : ∀ (pre : List Nat) (x : Nat) (rest : List Nat),
    (pre ++ x :: rest).getD pre.length 0 = x := by
  intro pre
  induction pre with
  | nil => intro x rest; rfl
  | cons a t ih => intro x rest; exact ih x rest

theorem drop_app (pre m : List Nat) : (pre ++ m).drop pre.length = m :=
  List.drop_left pre m

theorem shape_ins {c c' : CompState} {ns : List String} (h : ShapeP c c' ns) :
    ∃ code, c'.instructions = c.instructions ++ code := h.1

theorem shape_consts {c c' : CompState} {ns : List String} (h : ShapeP c c' ns) :
    ∃ cs, c'.constants = c.constants ++ cs := h.2.1

theorem shape_numDefs {c c' : CompState} {ns : List String} (h : ShapeP c c' ns) :
    c'.symbolTable.numDefinitions = c.symbolTable.numDefinitions + ns.length :=
  h.2.2.2.1

theorem shape_wf {c c' : CompState} {ns : List String} (h : ShapeP c c' ns) :
    SymWF c.symbolTable → SymWF c'.symbolTable := h.2.2.2.2

theorem symNames_of_shape {c c' : CompState} {ns : List String} (h : ShapeP c c' ns) :
    symNames c'.symbolTable = ns.reverse ++ symNames c.symbolTable := by
  obtain ⟨ne, hst, hm⟩ := h.2.2.1
  unfold symNames
  rw [hst, List.map_append, hm]

theorem stateRel_extend_shape {c c' : CompState} {ns : List String} {env : Env}
    {s : VMState} (hrel : StateRel c.symbolTable env s) (h : ShapeP c c' ns)
    (hfresh : (symNames c.symbolTable ++ ns).Nodup) :
    StateRel c'.symbolTable env s := by
  obtain ⟨ne, hst, hm⟩ := h.2.2.1
  have hd := shape_numDefs h
  apply stateRel_extend hrel hst (by omega)
  intro q hq
  have hq1 : q.1 ∈ ns := by
    have : q.1 ∈ ne.map (fun p => p.1) := List.mem_map_of_mem _ hq
    rw [hm] at this
    exact List.mem_reverse.mp this
  exact nodup_disjoint hfresh q.1 hq1

theorem conend_of {c1 c' : CompState} {ns : List String} {bigC : List Obj}
    (hs : ShapeP c1 c' ns) (h : c'.constants <+: bigC) : c1.constants <+: bigC := by
  obtain ⟨cs, hcs⟩ := shape_consts hs
  exact List.IsPrefix.trans ⟨cs, hcs.symm⟩ h

/-! ### Per-constructor simulation lemmas -/

theorem simE_int (vl : Int) : SimEStmt (.intLit vl) := by
  intro c c' env env1 v s big bigC hcomp heval hpre hfresh hdef
  rw [evalExpr_int_eq] at heval
  injection heval with h1
  have hv : v = .intV vl := by
    have h2 := congrArg Prod.fst h1
    simpa using h2.symm
  have henv : env1 = env := by
    have h2 := congrArg Prod.snd h1
    simpa using h2.symm
  subst hv
  subst henv
  rw [compileExpr_int_eq] at hcomp
  try dsimp only [] at hcomp
  injection hcomp with h2
  obtain ⟨sins, scon, conend, conbound, insbound, hip, hsp, agree, wf, rel⟩ := hpre
  have hccon : c'.constants = c.constants ++ [.intO c.constants.length vl] := by
    rw [← h2]
    rfl
  have hidx : c.constants.length < 65536 := by
    have h3 := conend.length_le
    rw [hccon] at h3
    simp at h3
    omega
  have hcode : c'.instructions = c.instructions ++
      [opConstant, c.constants.length / 256, c.constants.length % 256] := by
    rw [← h2]
    show c.instructions ++ (make opConstant [(c.constants.length : Int)]).getD [] = _
    rw [make_opConstant, putUint16_nat, Nat.mod_eq_of_lt hidx]
    rfl
  have agree2 : Agrees big c.instructions.length
      [opConstant, c.constants.length / 256, c.constants.length % 256] := by
    rw [hcode, drop_app] at agree
    exact agree
  have hlt : s.ip < s.instructions.length := by
    rw [sins, hip]
    have h4 := agrees_len_le agree2
    simp at h4
    omega
  have hop : s.instructions.getD s.ip 0 = opConstant := by
    rw [sins, hip]
    exact agrees_head agree2
  have hrd : readUint16 (s.instructions.drop (s.ip + 1)) = some c.constants.length := by
    rw [sins, hip]
    have h5 : Agrees big (c.instructions.length + 1)
        [c.constants.length / 256, c.constants.length % 256] :=
      @agrees_shift big [opConstant]
        [c.constants.length / 256, c.constants.length % 256] c.instructions.length agree2
    rw [readUint16_agrees h5]
    congr 1
    omega
  have hcv : s.constants[c.constants.length]? = some (.intO c.constants.length vl) := by
    rw [scon, pref_getElemObj conend (by rw [hccon]; simp)]
    rw [hccon, List.getElem?_append]
    simp
  have hstep := vmStep_opConstant hlt hop c.constants.length hrd _ hcv
  by_cases hov : 2048 ≤ s.sp
  · left
    rw [if_pos hov] at hstep
    exact halts_step hstep
  · right
    rw [if_neg hov] at hstep
    refine ⟨_, steps_single hstep, ?_, ?_, ?_, ?_, ?_, ?_, ?_, ?_⟩
    · rfl
    · rfl
    · show s.ip + 3 = c'.instructions.length
      rw [hcode, hip]
      simp
    · rfl
    · show s.sp + 1 ≤ 2048
      omega
    · intro k hk
      show (if k = s.sp then _ else s.stack k) = s.stack k
      rw [if_neg (by omega)]
    · refine ⟨.intO c.constants.length vl, ?_, rfl⟩
      show (if s.sp = s.sp then _ else _) = _
      rw [if_pos rfl]
    · have htab : c'.symbolTable = c.symbolTable := by rw [← h2]; rfl
      show StateRel c'.symbolTable env1 _
      rw [htab]
      exact stateRel_same_global rel rfl

theorem simE_str (sl : String) : SimEStmt (.strLit sl) := by
  intro c c' env env1 v s big bigC hcomp heval hpre hfresh hdef
  rw [evalExpr_str_eq] at heval
  injection heval with h1
  have hv : v = .strV sl := by
    have h2 := congrArg Prod.fst h1
    simpa using h2.symm
  have henv : env1 = env := by
    have h2 := congrArg Prod.snd h1
    simpa using h2.symm
  subst hv
  subst henv
  rw [compileExpr_str_eq] at hcomp
  try dsimp only [] at hcomp
  injection hcomp with h2
  obtain ⟨sins, scon, conend, conbound, insbound, hip, hsp, agree, wf, rel⟩ := hpre
  have hccon : c'.constants = c.constants ++ [.strO c.constants.length sl] := by
    rw [← h2]
    rfl
  have hidx : c.constants.length < 65536 := by
    have h3 := conend.length_le
    rw [hccon] at h3
    simp at h3
    omega
  have hcode : c'.instructions = c.instructions ++
      [opConstant, c.constants.length / 256, c.constants.length % 256] := by
    rw [← h2]
    show c.instructions ++ (make opConstant [(c.constants.length : Int)]).getD [] = _
    rw [make_opConstant, putUint16_nat, Nat.mod_eq_of_lt hidx]
    rfl
  have agree2 : Agrees big c.instructions.length
      [opConstant, c.constants.length / 256, c.constants.length % 256] := by
    rw [hcode, drop_app] at agree
    exact agree
  have hlt : s.ip < s.instructions.length := by
    rw [sins, hip]
    have h4 := agrees_len_le agree2
    simp at h4
    omega
  have hop : s.instructions.getD s.ip 0 = opConstant := by
    rw [sins, hip]
    exact agrees_head agree2
  have hrd : readUint16 (s.instructions.drop (s.ip + 1)) = some c.constants.length := by
    rw [sins, hip]
    have h5 : Agrees big (c.instructions.length + 1)
        [c.constants.length / 256, c.constants.length % 256] :=
      @agrees_shift big [opConstant]
        [c.constants.length / 256, c.constants.length % 256] c.instructions.length agree2
    rw [readUint16_agrees h5]
    congr 1
    omega
  have hcv : s.constants[c.constants.length]? = some (.strO c.constants.length sl) := by
    rw [scon, pref_getElemObj conend (by rw [hccon]; simp)]
    rw [hccon, List.getElem?_append]
    simp
  have hstep := vmStep_opConstant hlt hop c.constants.length hrd _ hcv
  by_cases hov : 2048 ≤ s.sp
  · left
    rw [if_pos hov] at hstep
    exact halts_step hstep
  · right
    rw [if_neg hov] at hstep
    refine ⟨_, steps_single hstep, ?_, ?_, ?_, ?_, ?_, ?_, ?_, ?_⟩
    · rfl
    · rfl
    · show s.ip + 3 = c'.instructions.length
      rw [hcode, hip]
      simp
    · rfl
    · show s.sp + 1 ≤ 2048
      omega
    · intro k hk
      show (if k = s.sp then _ else s.stack k) = s.stack k
      rw [if_neg (by omega)]
    · refine ⟨.strO c.constants.length sl, ?_, rfl⟩
      show (if s.sp = s.sp then _ else _) = _
      rw [if_pos rfl]
    · have htab : c'.symbolTable = c.symbolTable := by rw [← h2]; rfl
      show StateRel c'.symbolTable env1 _
      rw [htab]
      exact stateRel_same_global rel rfl

theorem simE_bool (b : Bool) : SimEStmt (.boolLit b) := by
  intro c c' env env1 v s big bigC hcomp heval hpre hfresh hdef
  rw [evalExpr_bool_eq] at heval
  injection heval with h1
  have hv : v = .boolV b := by
    have h2 := congrArg Prod.fst h1
    simpa using h2.symm
  have henv : env1 = env := by
    have h2 := congrArg Prod.snd h1
    simpa using h2.symm
  subst hv
  subst henv
  rw [compileExpr_bool_eq] at hcomp
  obtain ⟨sins, scon, conend, conbound, insbound, hip, hsp, agree, wf, rel⟩ := hpre
  cases b with
  | true =>
    rw [if_pos rfl] at hcomp
    injection hcomp with h2
    have hcode : c'.instructions = c.instructions ++ [opTrue] := by
      rw [← h2]
      rfl
    have agree2 : Agrees big c.instructions.length [opTrue] := by
      rw [hcode, drop_app] at agree
      exact agree
    have hlt : s.ip < s.instructions.length := by
      rw [sins, hip]
      have h4 := agrees_len_le agree2
      simp at h4
      omega
    have hop : s.instructions.getD s.ip 0 = opTrue := by
      rw [sins, hip]
      exact agrees_head agree2
    have hstep := vmStep_opTrue hlt hop
    by_cases hov : 2048 ≤ s.sp
    · left
      rw [if_pos hov] at hstep
      exact halts_step hstep
    · right
      rw [if_neg hov] at hstep
      refine ⟨_, steps_single hstep, ?_, ?_, ?_, ?_, ?_, ?_, ?_, ?_⟩
      · rfl
      · rfl
      · show s.ip + 1 = c'.instructions.length
        rw [hcode, hip]
        simp
      · rfl
      · show s.sp + 1 ≤ 2048
        omega
      · intro k hk
        show (if k = s.sp then _ else s.stack k) = s.stack k
        rw [if_neg (by omega)]
      · refine ⟨.boolO true, ?_, rfl⟩
        show (if s.sp = s.sp then _ else _) = _
        rw [if_pos rfl]
      · have htab : c'.symbolTable = c.symbolTable := by rw [← h2]; rfl
        show StateRel c'.symbolTable env1 _
        rw [htab]
        exact stateRel_same_global rel rfl
  | false =>
    rw [if_neg (by simp)] at hcomp
    injection hcomp with h2
    have hcode : c'.instructions = c.instructions ++ [opFalse] := by
      rw [← h2]
      rfl
    have agree2 : Agrees big c.instructions.length [opFalse] := by
      rw [hcode, drop_app] at agree
      exact agree
    have hlt : s.ip < s.instructions.length := by
      rw [sins, hip]
      have h4 := agrees_len_le agree2
      simp at h4
      omega
    have hop : s.instructions.getD s.ip 0 = opFalse := by
      rw [sins, hip]
      exact agrees_head agree2
    have hstep := vmStep_opFalse hlt hop
    by_cases hov : 2048 ≤ s.sp
    · left
      rw [if_pos hov] at hstep
      exact halts_step hstep
    · right
      rw [if_neg hov] at hstep
      refine ⟨_, steps_single hstep, ?_, ?_, ?_, ?_, ?_, ?_, ?_, ?_⟩
      · rfl
      · rfl
      · show s.ip + 1 = c'.instructions.length
        rw [hcode, hip]
        simp
      · rfl
      · show s.sp + 1 ≤ 2048
        omega
      · intro k hk
        show (if k = s.sp then _ else s.stack k) = s.stack k
        rw [if_neg (by omega)]
      · refine ⟨.boolO false, ?_, rfl⟩
        show (if s.sp = s.sp then _ else _) = _
        rw [if_pos rfl]
      · have htab : c'.symbolTable = c.symbolTable := by rw [← h2]; rfl
        show StateRel c'.symbolTable env1 _
        rw [htab]
        exact stateRel_same_global rel rfl

theorem simE_hash (ps : PairList) : SimEStmt (.hashLit ps) := by
  intro c c' env env1 v s big bigC hcomp heval hpre hfresh hdef
  rw [compileExpr_hash_eq] at hcomp
  exact Except.noConfusion hcomp

theorem simE_ident (n : String) : SimEStmt (.ident n) := by
  intro c c' env env1 v s big bigC hcomp heval hpre hfresh hdef
  rw [evalExpr_ident_eq] at heval
  cases hn : env n with
  | none => rw [hn] at heval; exact Option.noConfusion heval
  | some w =>
    rw [hn] at heval
    simp only [Option.map] at heval
    injection heval with h1
    have hv : v = w := by
      have h2 := congrArg Prod.fst h1
      simpa using h2.symm
    have henv : env1 = env := by
      have h2 := congrArg Prod.snd h1
      simpa using h2.symm
    subst hv
    subst henv
    obtain ⟨sins, scon, conend, conbound, insbound, hip, hsp, agree, wf, rel⟩ := hpre
    obtain ⟨i, hres, hlt2, o, hgl, her⟩ := rel n v hn
    rw [compileExpr_ident_eq] at hcomp
    rw [hres] at hcomp
    simp only [] at hcomp
    injection hcomp with h2
    have hi : i < 65536 := by
      rw [letNamesE_ident] at hdef
      simp at hdef
      omega
    have hcode : c'.instructions = c.instructions ++
        [opGetGlobal, i / 256, i % 256] := by
      rw [← h2]
      show c.instructions ++ (make opGetGlobal [(i : Int)]).getD [] = _
      rw [make_opGetGlobal, putUint16_nat, Nat.mod_eq_of_lt hi]
      rfl
    have agree2 : Agrees big c.instructions.length [opGetGlobal, i / 256, i % 256] := by
      rw [hcode, drop_app] at agree
      exact agree
    have hlt : s.ip < s.instructions.length := by
      rw [sins, hip]
      have h4 := agrees_len_le agree2
      simp at h4
      omega
    have hop : s.instructions.getD s.ip 0 = opGetGlobal := by
      rw [sins, hip]
      exact agrees_head agree2
    have hrd : readUint16 (s.instructions.drop (s.ip + 1)) = some i := by
      rw [sins, hip]
      have h5 : Agrees big (c.instructions.length + 1) [i / 256, i % 256] :=
        @agrees_shift big [opGetGlobal] [i / 256, i % 256] c.instructions.length agree2
      rw [readUint16_agrees h5]
      congr 1
      omega
    have hstep := vmStep_opGetGlobal hlt hop i hrd
    by_cases hov : 2048 ≤ s.sp
    · left
      rw [if_pos hov] at hstep
      exact halts_step hstep
    · right
      rw [if_neg hov] at hstep
      refine ⟨_, steps_single hstep, ?_, ?_, ?_, ?_, ?_, ?_, ?_, ?_⟩
      · rfl
      · rfl
      · show s.ip + 3 = c'.instructions.length
        rw [hcode, hip]
        simp
      · rfl
      · show s.sp + 1 ≤ 2048
        omega
      · intro k hk
        show (if k = s.sp then _ else s.stack k) = s.stack k
        rw [if_neg (by omega)]
      · refine ⟨o, ?_, her⟩
        show (if s.sp = s.sp then s.global i else _) = _
        rw [if_pos rfl]
        exact hgl
      · have htab : c'.symbolTable = c.symbolTable := by rw [← h2]; rfl
        show StateRel c'.symbolTable env1 _
        rw [htab]
        exact stateRel_same_global rel rfl

theorem simE_pre (op : String) (r : Expr) (IH : SimEStmt r) : SimEStmt (.pre op r) := by
  intro c c' env env1 v s big bigC hcomp heval hpre hfresh hdef
  rw [compileExpr_pre_eq] at hcomp
  rw [evalExpr_pre_eq] at heval
  cases hr : compileExpr c r with
  | error m => rw [hr, exBind_err] at hcomp; exact Except.noConfusion hcomp
  | ok c1 =>
    rw [hr, exBind_ok] at hcomp
    cases hev : evalExpr env r with
    | none => rw [hev] at heval; exact Option.noConfusion heval
    | some p =>
      rw [hev] at heval
      simp only [Option.bind] at heval
      obtain ⟨sins, scon, conend, conbound, insbound, hip, hsp, agree, wf, rel⟩ := hpre
      obtain ⟨rcode, hrc⟩ := shape_ins (shapeE r c c1 hr)
      by_cases hbang : (op == "!") = true
      · rw [if_pos hbang] at hcomp heval
        injection hcomp with h2
        injection heval with h1
        have hv : v = .boolV (bangVal p.1) := by
          have h3 := congrArg Prod.fst h1
          simpa using h3.symm
        have henv : env1 = p.2 := by
          have h3 := congrArg Prod.snd h1
          simpa using h3.symm
        subst hv
        subst henv
        have hcode : c'.instructions = c1.instructions ++ [opBang] := by
          rw [← h2]
          rfl
        have hc1con : c1.constants <+: bigC := by
          have h3 : c'.constants = c1.constants := by rw [← h2]; rfl
          rwa [h3] at conend
        have hsplit : c'.instructions.drop c.instructions.length = rcode ++ [opBang] := by
          rw [hcode, hrc, List.append_assoc, drop_app]
        have agreeR : Agrees big c.instructions.length
            (c1.instructions.drop c.instructions.length) := by
          rw [hrc, drop_app]
          rw [hsplit] at agree
          exact agrees_mono_left agree
        have hfreshR : (symNames c.symbolTable ++ letNamesE r).Nodup := by
          rw [letNamesE_pre] at hfresh
          exact hfresh
        have hdefR : c.symbolTable.numDefinitions + (letNamesE r).length ≤ 65536 := by
          rw [letNamesE_pre] at hdef
          exact hdef
        rcases IH c c1 env p.2 p.1 s big bigC hr
            (by rw [show evalExpr env r = some (p.1, p.2) from by rw [hev]])
            ⟨sins, scon, hc1con, conbound, insbound, hip, hsp, agreeR, wf, rel⟩
            hfreshR hdefR with hhalt | ⟨s1, hsteps, i1, i2, i3, i4, i5, i6, ⟨o, hval, her⟩, i8⟩
        · exact Or.inl hhalt
        · have agreeB : Agrees big c1.instructions.length [opBang] := by
            rw [hsplit] at agree
            have h5 := @agrees_shift big rcode [opBang] c.instructions.length agree
            have h6 : c1.instructions.length = c.instructions.length + rcode.length := by
              rw [hrc]
              simp
            rw [h6]
            exact h5
          have hlt : s1.ip < s1.instructions.length := by
            rw [i1, sins, i3]
            have h4 := agrees_len_le agreeB
            simp at h4
            omega
          have hop2 : s1.instructions.getD s1.ip 0 = opBang := by
            rw [i1, sins, i3]
            exact agrees_head agreeB
          have hsp0 : s1.sp ≠ 0 := by omega
          have hstep := vmStep_opBang hlt hop2 hsp0 i5
          have e1 : s1.sp - 1 = s.sp := by omega
          rw [e1, hval] at hstep
          rw [bang_erase her] at hstep
          right
          refine ⟨_, steps_trans hsteps (steps_single hstep), ?_, ?_, ?_, ?_, ?_, ?_, ?_, ?_⟩
          · exact i1
          · exact i2
          · show s1.ip + 1 = c'.instructions.length
            rw [i3, hcode]
            simp
          · exact i4
          · exact i5
          · intro k hk
            show (if k = s.sp then _ else s1.stack k) = s.stack k
            rw [if_neg (by omega)]
            exact i6 k hk
          · refine ⟨.boolO (bangVal p.1), ?_, rfl⟩
            show (if s.sp = s.sp then _ else _) = _
            rw [if_pos rfl]
          · have htab : c'.symbolTable = c1.symbolTable := by rw [← h2]; rfl
            show StateRel c'.symbolTable p.2 _
            rw [htab]
            exact stateRel_same_global i8 rfl
      · rw [if_neg hbang] at hcomp heval
        by_cases hminus : (op == "-") = true
        · rw [if_pos hminus] at hcomp heval
          injection hcomp with h2
          cases hp1 : p.1 with
          | intV a =>
            rw [hp1] at heval
            injection heval with h1
            have hv : v = .intV (i64neg a) := by
              have h3 := congrArg Prod.fst h1
              simpa using h3.symm
            have henv : env1 = p.2 := by
              have h3 := congrArg Prod.snd h1
              simpa using h3.symm
            subst hv
            subst henv
            have hcode : c'.instructions = c1.instructions ++ [opMinus] := by
              rw [← h2]
              rfl
            have hc1con : c1.constants <+: bigC := by
              have h3 : c'.constants = c1.constants := by rw [← h2]; rfl
              rwa [h3] at conend
            have hsplit : c'.instructions.drop c.instructions.length
                = rcode ++ [opMinus] := by
              rw [hcode, hrc, List.append_assoc, drop_app]
            have agreeR : Agrees big c.instructions.length
                (c1.instructions.drop c.instructions.length) := by
              rw [hrc, drop_app]
              rw [hsplit] at agree
              exact agrees_mono_left agree
            have hfreshR : (symNames c.symbolTable ++ letNamesE r).Nodup := by
              rw [letNamesE_pre] at hfresh
              exact hfresh
            have hdefR : c.symbolTable.numDefinitions + (letNamesE r).length ≤ 65536 := by
              rw [letNamesE_pre] at hdef
              exact hdef
            rcases IH c c1 env p.2 p.1 s big bigC hr
                (by rw [show evalExpr env r = some (p.1, p.2) from by rw [hev]])
                ⟨sins, scon, hc1con, conbound, insbound, hip, hsp, agreeR, wf, rel⟩
                hfreshR hdefR with hhalt | ⟨s1, hsteps, i1, i2, i3, i4, i5, i6, ⟨o, hval, her⟩, i8⟩
            · exact Or.inl hhalt
            · rw [hp1] at her
              obtain ⟨i, rfl⟩ := eraseObj_intV her
              have agreeB : Agrees big c1.instructions.length [opMinus] := by
                rw [hsplit] at agree
                have h5 := @agrees_shift big rcode [opMinus] c.instructions.length agree
                have h6 : c1.instructions.length
                    = c.instructions.length + rcode.length := by
                  rw [hrc]
                  simp
                rw [h6]
                exact h5
              have hlt : s1.ip < s1.instructions.length := by
                rw [i1, sins, i3]
                have h4 := agrees_len_le agreeB
                simp at h4
                omega
              have hop2 : s1.instructions.getD s1.ip 0 = opMinus := by
                rw [i1, sins, i3]
                exact agrees_head agreeB
              have hsp0 : s1.sp ≠ 0 := by omega
              have e1 : s1.sp - 1 = s.sp := by omega
              have hstep := vmStep_opMinus hlt hop2 hsp0 i5 (by rw [e1]; exact hval)
              rw [e1] at hstep
              right
              refine ⟨_, steps_trans hsteps (steps_single hstep),
                ?_, ?_, ?_, ?_, ?_, ?_, ?_, ?_⟩
              · exact i1
              · exact i2
              · show s1.ip + 1 = c'.instructions.length
                rw [i3, hcode]
                simp
              · exact i4
              · exact i5
              · intro k hk
                show (if k = s.sp then _ else s1.stack k) = s.stack k
                rw [if_neg (by omega)]
                exact i6 k hk
              · refine ⟨.intO s1.nextId (i64neg a), ?_, rfl⟩
                show (if s.sp = s.sp then _ else _) = _
                rw [if_pos rfl]
              · have htab : c'.symbolTable = c1.symbolTable := by rw [← h2]; rfl
                show StateRel c'.symbolTable p.2 _
                rw [htab]
                exact stateRel_same_global i8 rfl
          | strV a => rw [hp1] at heval; exact Option.noConfusion heval
          | boolV a => rw [hp1] at heval; exact Option.noConfusion heval
          | nullV => rw [hp1] at heval; exact Option.noConfusion heval
          | arrV es => rw [hp1] at heval; exact Option.noConfusion heval
        · rw [if_neg hminus] at hcomp
          exact Except.noConfusion hcomp

theorem bin_tail_arith {c2 c' : CompState} {env1 : Env} {v : Val}
    {s s2 : VMState} {big : List Nat} (opc : Nat)
    (hdisp : opc = opAdd ∨ opc = opSub ∨ opc = opMul ∨ opc = opDiv)
    (hbridge : ∃ o', executeBinaryOperation opc s2 = some
      ({ s2 with
        stack := fun k => if k = s2.sp - 2 then some o' else s2.stack k,
        sp := s2.sp - 1, nextId := s2.nextId + 1 }, none) ∧ eraseObj o' = some v)
    (hcode : c'.instructions = c2.instructions ++ [opc])
    (htab : c'.symbolTable = c2.symbolTable)
    (hsteps2 : Steps s s2)
    (sins2 : s2.instructions = big)
    (hins : s2.instructions = s.instructions)
    (hconsts : s2.constants = s.constants)
    (hip2 : s2.ip = c2.instructions.length)
    (hsp2 : s2.sp = s.sp + 2)
    (hsple : s2.sp ≤ 2048)
    (hframe : ∀ k, k < s.sp → s2.stack k = s.stack k)
    (hrel2 : StateRel c2.symbolTable env1 s2)
    (agreeB : Agrees big c2.instructions.length [opc]) :
    ∃ s', Steps s s' ∧ SimPostE c' env1 v s s' := by
  obtain ⟨o', hexec, her⟩ := hbridge
  have hlt : s2.ip < s2.instructions.length := by
    rw [sins2, hip2]
    have h4 := agrees_len_le agreeB
    simp at h4
    omega
  have hop : s2.instructions.getD s2.ip 0 = opc := by
    rw [sins2, hip2]
    exact agrees_head agreeB
  have hstep := vmStep_binop_dispatch opc hlt hop hdisp
  simp only [hexec] at hstep
  refine ⟨_, steps_trans hsteps2 (steps_single hstep), ?_, ?_, ?_, ?_, ?_, ?_, ?_, ?_⟩
  · exact hins
  · exact hconsts
  · show s2.ip + 1 = c'.instructions.length
    rw [hip2, hcode]
    simp
  · show s2.sp - 1 = s.sp + 1
    omega
  · show s2.sp - 1 ≤ 2048
    omega
  · intro k hk
    show (if k = s2.sp - 2 then some o' else s2.stack k) = s.stack k
    rw [if_neg (by omega)]
    exact hframe k hk
  · refine ⟨o', ?_, her⟩
    show (if s.sp = s2.sp - 2 then some o' else s2.stack s.sp) = some o'
    rw [if_pos (by omega)]
  · show StateRel c'.symbolTable env1 _
    rw [htab]
    exact stateRel_same_global hrel2 rfl

theorem bin_tail_cmp {c2 c' : CompState} {env1 : Env} {v : Val}
    {s s2 : VMState} {big : List Nat} (opc : Nat)
    (hdisp : opc = opEqual ∨ opc = opNotEqual ∨ opc = opLessThan ∨ opc = opGreaterThan)
    (hbridge : ∃ bb : Bool, executeComparison opc s2 = some
      ({ s2 with
        stack := fun k => if k = s2.sp - 2 then some (.boolO bb) else s2.stack k,
        sp := s2.sp - 1 }, none) ∧ v = .boolV bb)
    (hcode : c'.instructions = c2.instructions ++ [opc])
    (htab : c'.symbolTable = c2.symbolTable)
    (hsteps2 : Steps s s2)
    (sins2 : s2.instructions = big)
    (hins : s2.instructions = s.instructions)
    (hconsts : s2.constants = s.constants)
    (hip2 : s2.ip = c2.instructions.length)
    (hsp2 : s2.sp = s.sp + 2)
    (hsple : s2.sp ≤ 2048)
    (hframe : ∀ k, k < s.sp → s2.stack k = s.stack k)
    (hrel2 : StateRel c2.symbolTable env1 s2)
    (agreeB : Agrees big c2.instructions.length [opc]) :
    ∃ s', Steps s s' ∧ SimPostE c' env1 v s s' := by
  obtain ⟨bb, hexec, hvb⟩ := hbridge
  have hlt : s2.ip < s2.instructions.length := by
    rw [sins2, hip2]
    have h4 := agrees_len_le agreeB
    simp at h4
    omega
  have hop : s2.instructions.getD s2.ip 0 = opc := by
    rw [sins2, hip2]
    exact agrees_head agreeB
  have hstep := vmStep_cmp_dispatch opc hlt hop hdisp
  simp only [hexec] at hstep
  refine ⟨_, steps_trans hsteps2 (steps_single hstep), ?_, ?_, ?_, ?_, ?_, ?_, ?_, ?_⟩
  · exact hins
  · exact hconsts
  · show s2.ip + 1 = c'.instructions.length
    rw [hip2, hcode]
    simp
  · show s2.sp - 1 = s.sp + 1
    omega
  · show s2.sp - 1 ≤ 2048
    omega
  · intro k hk
    show (if k = s2.sp - 2 then some (.boolO bb) else s2.stack k) = s.stack k
    rw [if_neg (by omega)]
    exact hframe k hk
  · refine ⟨.boolO bb, ?_, by rw [hvb]; rfl⟩
    show (if s.sp = s2.sp - 2 then some (.boolO bb) else s2.stack s.sp) = some _
    rw [if_pos (by omega)]
  · show StateRel c'.symbolTable env1 _
    rw [htab]
    exact stateRel_same_global hrel2 rfl

theorem simE_bin (op : String) (l r : Expr) (IHl : SimEStmt l) (IHr : SimEStmt r) :
    SimEStmt (.bin op l r) := by
  intro c c' env env1 v s big bigC hcomp heval hpre hfresh hdef
  rw [compileExpr_bin_eq] at hcomp
  rw [evalExpr_bin_eq] at heval
  cases hl : compileExpr c l with
  | error m => rw [hl, exBind_err] at hcomp; exact Except.noConfusion hcomp
  | ok c1 =>
    rw [hl, exBind_ok] at hcomp
    cases hr : compileExpr c1 r with
    | error m => rw [hr, exBind_err] at hcomp; exact Except.noConfusion hcomp
    | ok c2 =>
      rw [hr, exBind_ok] at hcomp
      cases hevl : evalExpr env l with
      | none => rw [hevl] at heval; exact Option.noConfusion heval
      | some p =>
        rw [hevl] at heval
        simp only [Option.bind] at heval
        cases hevr : evalExpr p.2 r with
        | none => rw [hevr] at heval; exact Option.noConfusion heval
        | some q =>
          rw [hevr] at heval
          simp only [Option.bind] at heval
          cases hbv : binValOp op p.1 q.1 with
          | none => rw [hbv] at heval; exact Option.noConfusion heval
          | some vres =>
            rw [hbv] at heval
            simp only [Option.map] at heval
            injection heval with h1
            have hv : v = vres := by
              have h3 := congrArg Prod.fst h1
              simpa using h3.symm
            have henv : env1 = q.2 := by
              have h3 := congrArg Prod.snd h1
              simpa using h3.symm
            subst hv
            subst henv
            have hcase : ∃ opb, c' = (emit c2 opb []).2 ∧
                ((op = "+" ∧ opb = opAdd) ∨ (op = "-" ∧ opb = opSub) ∨
                 (op = "*" ∧ opb = opMul) ∨ (op = "/" ∧ opb = opDiv) ∨
                 (op = "==" ∧ opb = opEqual) ∨ (op = "!=" ∧ opb = opNotEqual) ∨
                 (op = "<" ∧ opb = opLessThan) ∨ (op = ">" ∧ opb = opGreaterThan)) := by
              by_cases hb1 : (op == "+") = true
              · rw [if_pos hb1] at hcomp
                exact ⟨opAdd, (Except.ok.inj hcomp).symm, Or.inl ⟨by simpa using hb1, rfl⟩⟩
              · rw [if_neg hb1] at hcomp
                by_cases hb2 : (op == "-") = true
                · rw [if_pos hb2] at hcomp
                  exact ⟨opSub, (Except.ok.inj hcomp).symm,
                    Or.inr (Or.inl ⟨by simpa using hb2, rfl⟩)⟩
                · rw [if_neg hb2] at hcomp
                  by_cases hb3 : (op == "*") = true
                  · rw [if_pos hb3] at hcomp
                    exact ⟨opMul, (Except.ok.inj hcomp).symm,
                      Or.inr (Or.inr (Or.inl ⟨by simpa using hb3, rfl⟩))⟩
                  · rw [if_neg hb3] at hcomp
                    by_cases hb4 : (op == "/") = true
                    · rw [if_pos hb4] at hcomp
                      exact ⟨opDiv, (Except.ok.inj hcomp).symm,
                        Or.inr (Or.inr (Or.inr (Or.inl ⟨by simpa using hb4, rfl⟩)))⟩
                    · rw [if_neg hb4] at hcomp
                      by_cases hb5 : (op == "==") = true
                      · rw [if_pos hb5] at hcomp
                        exact ⟨opEqual, (Except.ok.inj hcomp).symm,
                          Or.inr (Or.inr (Or.inr (Or.inr (Or.inl
                            ⟨by simpa using hb5, rfl⟩))))⟩
                      · rw [if_neg hb5] at hcomp
                        by_cases hb6 : (op == "!=") = true
                        · rw [if_pos hb6] at hcomp
                          exact ⟨opNotEqual, (Except.ok.inj hcomp).symm,
                            Or.inr (Or.inr (Or.inr (Or.inr (Or.inr (Or.inl
                              ⟨by simpa using hb6, rfl⟩)))))⟩
                        · rw [if_neg hb6] at hcomp
                          by_cases hb7 : (op == "<") = true
                          · rw [if_pos hb7] at hcomp
                            exact ⟨opLessThan, (Except.ok.inj hcomp).symm,
                              Or.inr (Or.inr (Or.inr (Or.inr (Or.inr (Or.inr (Or.inl
                                ⟨by simpa using hb7, rfl⟩))))))⟩
                          · rw [if_neg hb7] at hcomp
                            by_cases hb8 : (op == ">") = true
                            · rw [if_pos hb8] at hcomp
                              exact ⟨opGreaterThan, (Except.ok.inj hcomp).symm,
                                Or.inr (Or.inr (Or.inr (Or.inr (Or.inr (Or.inr (Or.inr
                                  ⟨by simpa using hb8, rfl⟩))))))⟩
                            · rw [if_neg hb8] at hcomp
                              exact Except.noConfusion hcomp
            obtain ⟨opb, hc', hdisj⟩ := hcase
            have hmk : (make opb []).getD [] = [opb] := by
              rcases hdisj with ⟨_, rfl⟩ | ⟨_, rfl⟩ | ⟨_, rfl⟩ | ⟨_, rfl⟩ |
                ⟨_, rfl⟩ | ⟨_, rfl⟩ | ⟨_, rfl⟩ | ⟨_, rfl⟩ <;> rfl
            have hcode : c'.instructions = c2.instructions ++ [opb] := by
              rw [hc']
              show c2.instructions ++ (make opb []).getD [] = _
              rw [hmk]
            have htab : c'.symbolTable = c2.symbolTable := by rw [hc']; rfl
            have hccon : c'.constants = c2.constants := by rw [hc']; rfl
            obtain ⟨sins, scon, conend, conbound, insbound, hip, hsp, agree, wf, rel⟩ := hpre
            obtain ⟨lcode, hlc⟩ := shape_ins (shapeE l c c1 hl)
            obtain ⟨rcode, hrc⟩ := shape_ins (shapeE r c1 c2 hr)
            have hsplit : c'.instructions.drop c.instructions.length
                = lcode ++ (rcode ++ [opb]) := by
              rw [hcode, hrc, hlc]
              have h7 : ((c.instructions ++ lcode) ++ rcode) ++ [opb]
                  = c.instructions ++ (lcode ++ (rcode ++ [opb])) := by simp
              rw [h7, drop_app]
            have hc1con : c1.constants <+: bigC :=
              conend_of (shapeE r c1 c2 hr) (by rwa [hccon] at conend)
            have agreeL : Agrees big c.instructions.length
                (c1.instructions.drop c.instructions.length) := by
              rw [hlc, drop_app]
              rw [hsplit] at agree
              exact agrees_mono_left agree
            have hfreshL : (symNames c.symbolTable ++ letNamesE l).Nodup := by
              rw [letNamesE_bin] at hfresh
              exact nodup_take_left hfresh
            rcases IHl c c1 env p.2 p.1 s big bigC hl (by rw [hevl])
                ⟨sins, scon, hc1con, conbound, insbound, hip, hsp, agreeL, wf, rel⟩
                hfreshL (by rw [letNamesE_bin, List.length_append] at hdef; omega) with
              hhalt | ⟨s1, hsteps1, i1, i2, i3, i4, i5, i6, ⟨o1, hval1, her1⟩, i8⟩
            · exact Or.inl hhalt
            have agreeR : Agrees big c1.instructions.length
                (c2.instructions.drop c1.instructions.length) := by
              rw [hrc, drop_app]
              rw [hsplit] at agree
              have h5 := @agrees_shift big lcode (rcode ++ [opb]) c.instructions.length agree
              have h6 : c1.instructions.length = c.instructions.length + lcode.length := by
                rw [hlc]
                simp
              rw [h6]
              exact agrees_mono_left h5
            have hfreshR : (symNames c1.symbolTable ++ letNamesE r).Nodup := by
              rw [symNames_of_shape (shapeE l c c1 hl)]
              rw [letNamesE_bin] at hfresh
              exact nodup_shift hfresh
            have hdefR : c1.symbolTable.numDefinitions + (letNamesE r).length ≤ 65536 := by
              rw [shape_numDefs (shapeE l c c1 hl)]
              rw [letNamesE_bin, List.length_append] at hdef
              omega
            have hc2con : c2.constants <+: bigC := by rwa [hccon] at conend
            rcases IHr c1 c2 p.2 q.2 q.1 s1 big bigC hr (by rw [hevr])
                ⟨by rw [i1, sins], by rw [i2, scon], hc2con, conbound, insbound, i3, i5,
                  agreeR, shape_wf (shapeE l c c1 hl) wf, i8⟩
                hfreshR hdefR with
              hhalt2 | ⟨s2, hsteps2, j1, j2, j3, j4, j5, j6, ⟨o2, hval2, her2⟩, j8⟩
            · exact Or.inl (steps_halts hsteps1 hhalt2)
            have hsp2' : s2.sp = s.sp + 2 := by omega
            have hl2 : s2.stack (s2.sp - 2) = some o1 := by
              have e : s2.sp - 2 = s.sp := by omega
              rw [e, j6 s.sp (by omega)]
              exact hval1
            have hr2 : s2.stack (s2.sp - 1) = some o2 := by
              have e : s2.sp - 1 = s1.sp := by omega
              rw [e]
              exact hval2
            have hframe : ∀ k, k < s.sp → s2.stack k = s.stack k := by
              intro k hk
              rw [j6 k (by omega)]
              exact i6 k hk
            have agreeB : Agrees big c2.instructions.length [opb] := by
              rw [hsplit] at agree
              have h5 := @agrees_shift big lcode (rcode ++ [opb]) c.instructions.length agree
              have h6 := @agrees_shift big rcode [opb]
                (c.instructions.length + lcode.length) h5
              have h7 : c2.instructions.length
                  = c.instructions.length + lcode.length + rcode.length := by
                rw [hrc, hlc]
                simp
                omega
              rw [h7]
              exact h6
            right
            have hsteps12 := steps_trans hsteps1 hsteps2
            have hins2 : s2.instructions = s.instructions := by rw [j1, i1]
            have hcon2 : s2.constants = s.constants := by rw [j2, i2]
            have sins2 : s2.instructions = big := by rw [hins2, sins]
            rcases hdisj with ⟨rfl, rfl⟩ | ⟨rfl, rfl⟩ | ⟨rfl, rfl⟩ | ⟨rfl, rfl⟩ | hcmps
            · exact bin_tail_arith opAdd (Or.inl rfl)
                (bridge_add (by omega) j5 hl2 hr2 her1 her2 hbv)
                hcode htab hsteps12 sins2 hins2 hcon2 j3 hsp2' j5 hframe j8 agreeB
            · exact bin_tail_arith opSub (Or.inr (Or.inl rfl))
                (bridge_sub (by omega) j5 hl2 hr2 her1 her2 hbv)
                hcode htab hsteps12 sins2 hins2 hcon2 j3 hsp2' j5 hframe j8 agreeB
            · exact bin_tail_arith opMul (Or.inr (Or.inr (Or.inl rfl)))
                (bridge_mul (by omega) j5 hl2 hr2 her1 her2 hbv)
                hcode htab hsteps12 sins2 hins2 hcon2 j3 hsp2' j5 hframe j8 agreeB
            · exact bin_tail_arith opDiv (Or.inr (Or.inr (Or.inr rfl)))
                (bridge_div (by omega) j5 hl2 hr2 her1 her2 hbv)
                hcode htab hsteps12 sins2 hins2 hcon2 j3 hsp2' j5 hframe j8 agreeB
            · rcases hcmps with ⟨rfl, rfl⟩ | ⟨rfl, rfl⟩ | ⟨rfl, rfl⟩ | ⟨rfl, rfl⟩
              · exact bin_tail_cmp opEqual (Or.inl rfl)
                  (bridge_eq (by omega) j5 hl2 hr2 her1 her2 hbv)
                  hcode htab hsteps12 sins2 hins2 hcon2 j3 hsp2' j5 hframe j8 agreeB
              · exact bin_tail_cmp opNotEqual (Or.inr (Or.inl rfl))
                  (bridge_neq (by omega) j5 hl2 hr2 her1 her2 hbv)
                  hcode htab hsteps12 sins2 hins2 hcon2 j3 hsp2' j5 hframe j8 agreeB
              · exact bin_tail_cmp opLessThan (Or.inr (Or.inr (Or.inl rfl)))
                  (bridge_lt (by omega) j5 hl2 hr2 her1 her2 hbv)
                  hcode htab hsteps12 sins2 hins2 hcon2 j3 hsp2' j5 hframe j8 agreeB
              · exact bin_tail_cmp opGreaterThan (Or.inr (Or.inr (Or.inr rfl)))
                  (bridge_gt (by omega) j5 hl2 hr2 her1 her2 hbv)
                  hcode htab hsteps12 sins2 hins2 hcon2 j3 hsp2' j5 hframe j8 agreeB

theorem simEL_nil : SimELStmt .nil := by
  intro c c' env env1 vs s big bigC hcomp heval hpre hfresh hdef
  rw [compileExprList_nil_eq] at hcomp
  injection hcomp with h2
  rw [evalExprList_nil_eq] at heval
  injection heval with h1
  have hv : vs = [] := by
    have h3 := congrArg Prod.fst h1
    simpa using h3.symm
  have henv : env1 = env := by
    have h3 := congrArg Prod.snd h1
    simpa using h3.symm
  subst hv
  subst henv
  obtain ⟨sins, scon, conend, conbound, insbound, hip, hsp, agree, wf, rel⟩ := hpre
  right
  refine ⟨s, steps_refl s, rfl, rfl, ?_, by simp, hsp, fun k hk => rfl, trivial, ?_⟩
  · rw [hip, h2]
  · rw [← h2]
    exact rel

theorem simEL_cons (e : Expr) (rest : ExprList) (IHe : SimEStmt e)
    (IHrest : SimELStmt rest) : SimELStmt (.cons e rest) := by
  intro c c' env env1 vs s big bigC hcomp heval hpre hfresh hdef
  rw [compileExprList_cons_eq] at hcomp
  rw [evalExprList_cons_eq] at heval
  cases he : compileExpr c e with
  | error m => rw [he, exBind_err] at hcomp; exact Except.noConfusion hcomp
  | ok c1 =>
    rw [he, exBind_ok] at hcomp
    cases hev : evalExpr env e with
    | none => rw [hev] at heval; exact Option.noConfusion heval
    | some p =>
      rw [hev] at heval
      simp only [Option.bind] at heval
      cases hevr : evalExprList p.2 rest with
      | none => rw [hevr] at heval; exact Option.noConfusion heval
      | some q =>
        rw [hevr] at heval
        simp only [Option.map] at heval
        injection heval with h1
        have hv : vs = p.1 :: q.1 := by
          have h3 := congrArg Prod.fst h1
          simpa using h3.symm
        have henv : env1 = q.2 := by
          have h3 := congrArg Prod.snd h1
          simpa using h3.symm
        subst hv
        subst henv
        obtain ⟨sins, scon, conend, conbound, insbound, hip, hsp, agree, wf, rel⟩ := hpre
        obtain ⟨ecode, hec⟩ := shape_ins (shapeE e c c1 he)
        obtain ⟨rcode, hrc⟩ := shape_ins (shapeEL rest c1 c' hcomp)
        have hsplit : c'.instructions.drop c.instructions.length
            = ecode ++ rcode := by
          rw [hrc, hec]
          have h7 : (c.instructions ++ ecode) ++ rcode
              = c.instructions ++ (ecode ++ rcode) := by simp
          rw [h7, drop_app]
        have hc1con : c1.constants <+: bigC :=
          conend_of (shapeEL rest c1 c' hcomp) conend
        have agreeE : Agrees big c.instructions.length
            (c1.instructions.drop c.instructions.length) := by
          rw [hec, drop_app]
          rw [hsplit] at agree
          exact agrees_mono_left agree
        have hfreshE : (symNames c.symbolTable ++ letNamesE e).Nodup := by
          rw [letNamesEL_cons] at hfresh
          exact nodup_take_left hfresh
        rcases IHe c c1 env p.2 p.1 s big bigC he (by rw [hev])
            ⟨sins, scon, hc1con, conbound, insbound, hip, hsp, agreeE, wf, rel⟩
            hfreshE (by rw [letNamesEL_cons, List.length_append] at hdef; omega) with
          hhalt | ⟨s1, hsteps1, i1, i2, i3, i4, i5, i6, ⟨o1, hval1, her1⟩, i8⟩
        · exact Or.inl hhalt
        have agreeR : Agrees big c1.instructions.length
            (c'.instructions.drop c1.instructions.length) := by
          have h8 : c'.instructions.drop c1.instructions.length = rcode := by
            rw [hrc, drop_app]
          rw [h8]
          rw [hsplit] at agree
          have h5 := @agrees_shift big ecode rcode c.instructions.length agree
          have h6 : c1.instructions.length = c.instructions.length + ecode.length := by
            rw [hec]
            simp
          rw [h6]
          exact h5
        have hfreshR : (symNames c1.symbolTable ++ letNamesEL rest).Nodup := by
          rw [symNames_of_shape (shapeE e c c1 he)]
          rw [letNamesEL_cons] at hfresh
          exact nodup_shift hfresh
        have hdefR : c1.symbolTable.numDefinitions + (letNamesEL rest).length ≤ 65536 := by
          rw [shape_numDefs (shapeE e c c1 he)]
          rw [letNamesEL_cons, List.length_append] at hdef
          omega
        rcases IHrest c1 c' p.2 q.2 q.1 s1 big bigC hcomp (by rw [hevr])
            ⟨by rw [i1, sins], by rw [i2, scon], conend, conbound, insbound, i3, i5,
              agreeR, shape_wf (shapeE e c c1 he) wf, i8⟩
            hfreshR hdefR with
          hhalt2 | ⟨s2, hsteps2, j1, j2, j3, j4, j5, j6, j7, j8⟩
        · exact Or.inl (steps_halts hsteps1 hhalt2)
        right
        refine ⟨s2, steps_trans hsteps1 hsteps2, by rw [j1, i1], by rw [j2, i2], j3,
          ?_, ?_, ?_, ?_, j8⟩
        · show s2.sp = s.sp + (q.1.length + 1)
          omega
        · omega
        · intro k hk
          rw [j6 k (by omega)]
          exact i6 k hk
        · refine ⟨⟨o1, ?_, her1⟩, ?_⟩
          · rw [j6 s.sp (by omega)]
            exact hval1
          · have h9 : s1.sp = s.sp + 1 := i4
            rw [← h9]
            exact j7

theorem eraseObj_arr (i : Nat) (L : List (Option Obj)) :
    eraseObj (.arrO i L) = (eraseList L).map Val.arrV := rfl

theorem simE_array (elems : ExprList) (IHel : SimELStmt elems) :
    SimEStmt (.arrayLit elems) := by
  intro c c' env env1 v s big bigC hcomp heval hpre hfresh hdef
  rw [compileExpr_array_eq] at hcomp
  rw [evalExpr_array_eq] at heval
  cases hel : compileExprList c elems with
  | error m => rw [hel, exBind_err] at hcomp; exact Except.noConfusion hcomp
  | ok c1 =>
    rw [hel, exBind_ok] at hcomp
    injection hcomp with h2
    cases hev : evalExprList env elems with
    | none => rw [hev] at heval; exact Option.noConfusion heval
    | some p =>
      rw [hev] at heval
      simp only [Option.map] at heval
      injection heval with h1
      have hv : v = .arrV p.1 := by
        have h3 := congrArg Prod.fst h1
        simpa using h3.symm
      have henv : env1 = p.2 := by
        have h3 := congrArg Prod.snd h1
        simpa using h3.symm
      subst hv
      subst henv
      obtain ⟨sins, scon, conend, conbound, insbound, hip, hsp, agree, wf, rel⟩ := hpre
      have hvslen : p.1.length = ExprList.length elems :=
        evalExprList_length elems env p.1 p.2 (by rw [hev])
      obtain ⟨ecode, hec⟩ := shape_ins (shapeEL elems c c1 hel)
      have hc1con : c1.constants <+: bigC := by
        have h3 : c'.constants = c1.constants := by rw [← h2]; rfl
        rwa [h3] at conend
      have hcode : c'.instructions = c1.instructions ++
          [opArray, ExprList.length elems % 65536 / 256,
            ExprList.length elems % 65536 % 256] := by
        rw [← h2]
        show c1.instructions ++ (make opArray [(ExprList.length elems : Int)]).getD [] = _
        rw [make_opArray, putUint16_nat]
        rfl
      have hsplit : c'.instructions.drop c.instructions.length
          = ecode ++ [opArray, ExprList.length elems % 65536 / 256,
            ExprList.length elems % 65536 % 256] := by
        rw [hcode, hec]
        have h7 : (c.instructions ++ ecode) ++
            [opArray, ExprList.length elems % 65536 / 256,
              ExprList.length elems % 65536 % 256]
            = c.instructions ++ (ecode ++
              [opArray, ExprList.length elems % 65536 / 256,
                ExprList.length elems % 65536 % 256]) := by simp
        rw [h7, drop_app]
      have agreeE : Agrees big c.instructions.length
          (c1.instructions.drop c.instructions.length) := by
        rw [hec, drop_app]
        rw [hsplit] at agree
        exact agrees_mono_left agree
      rcases IHel c c1 env p.2 p.1 s big bigC hel (by rw [hev])
          ⟨sins, scon, hc1con, conbound, insbound, hip, hsp, agreeE, wf, rel⟩
          (by rw [letNamesE_array] at hfresh; exact hfresh)
          (by rw [letNamesE_array] at hdef; exact hdef) with
        hhalt | ⟨s1, hsteps1, i1, i2, i3, i4, i5, i6, i7, i8⟩
      · exact Or.inl hhalt
      have hn : ExprList.length elems < 65536 := by omega
      have agreeB : Agrees big c1.instructions.length
          [opArray, ExprList.length elems % 65536 / 256,
            ExprList.length elems % 65536 % 256] := by
        rw [hsplit] at agree
        have h5 := @agrees_shift big ecode
          [opArray, ExprList.length elems % 65536 / 256,
            ExprList.length elems % 65536 % 256] c.instructions.length agree
        have h6 : c1.instructions.length = c.instructions.length + ecode.length := by
          rw [hec]
          simp
        rw [h6]
        exact h5
      have hlt : s1.ip < s1.instructions.length := by
        rw [i1, sins, i3]
        have h4 := agrees_len_le agreeB
        simp at h4
        omega
      have hop : s1.instructions.getD s1.ip 0 = opArray := by
        rw [i1, sins, i3]
        exact agrees_head agreeB
      have hrd : readUint16 (s1.instructions.drop (s1.ip + 1))
          = some (ExprList.length elems) := by
        rw [i1, sins, i3]
        have h5 : Agrees big (c1.instructions.length + 1)
            [ExprList.length elems % 65536 / 256, ExprList.length elems % 65536 % 256] :=
          @agrees_shift big [opArray]
            [ExprList.length elems % 65536 / 256, ExprList.length elems % 65536 % 256]
            c1.instructions.length agreeB
        rw [readUint16_agrees h5]
        congr 1
        omega
      have hstep := vmStep_opArray hlt hop (ExprList.length elems) hrd (by omega)
      have e1 : s1.sp - ExprList.length elems = s.sp := by omega
      rw [e1] at hstep
      rw [← hvslen] at hstep
      by_cases hov : 2048 ≤ s.sp
      · left
        rw [if_pos hov] at hstep
        exact steps_halts hsteps1 (halts_step hstep)
      · right
        rw [if_neg hov] at hstep
        refine ⟨_, steps_trans hsteps1 (steps_single hstep), ?_, ?_, ?_, ?_, ?_, ?_, ?_, ?_⟩
        · exact i1
        · exact i2
        · show s1.ip + 3 = c'.instructions.length
          rw [i3, hcode]
          simp
        · rfl
        · show s.sp + 1 ≤ 2048
          omega
        · intro k hk
          show (if k = s.sp then _ else s1.stack k) = s.stack k
          rw [if_neg (by omega)]
          exact i6 k hk
        · refine ⟨.arrO s1.nextId ((List.range p.1.length).map
            (fun i => s1.stack (s.sp + i))), ?_, ?_⟩
          · show (if s.sp = s.sp then _ else _) = _
            rw [if_pos rfl]
          · rw [eraseObj_arr, valsAt_eraseList p.1 s1 s.sp i7]
            rfl
        · have htab : c'.symbolTable = c1.symbolTable := by rw [← h2]; rfl
          show StateRel c'.symbolTable p.2 _
          rw [htab]
          exact stateRel_same_global i8 rfl

theorem simS_expr (e : Expr) (IHe : SimEStmt e) : SimSStmt (.exprStmt e) := by
  intro c c' env env1 out s big bigC hcomp heval hpre hfresh hdef
  rw [compileStmt_expr_eq] at hcomp
  rw [evalStmt_expr_eq] at heval
  cases he : compileExpr c e with
  | error m => rw [he, exBind_err] at hcomp; exact Except.noConfusion hcomp
  | ok c1 =>
    rw [he, exBind_ok] at hcomp
    injection hcomp with h2
    cases hev : evalExpr env e with
    | none => rw [hev] at heval; exact Option.noConfusion heval
    | some p =>
      rw [hev] at heval
      simp only [Option.map] at heval
      injection heval with h1
      have henv : env1 = p.2 := by
        have h3 := congrArg Prod.fst h1
        simpa using h3.symm
      have hout : out = some p.1 := by
        have h3 := congrArg Prod.snd h1
        simpa using h3.symm
      subst henv
      subst hout
      obtain ⟨sins, scon, conend, conbound, insbound, hip, hsp, agree, wf, rel⟩ := hpre
      obtain ⟨ecode, hec⟩ := shape_ins (shapeE e c c1 he)
      have hcode : c'.instructions = c1.instructions ++ [opPop] := by
        rw [← h2]
        rfl
      have hc1con : c1.constants <+: bigC := by
        have h3 : c'.constants = c1.constants := by rw [← h2]; rfl
        rwa [h3] at conend
      have hsplit : c'.instructions.drop c.instructions.length = ecode ++ [opPop] := by
        rw [hcode, hec, List.append_assoc, drop_app]
      have agreeE : Agrees big c.instructions.length
          (c1.instructions.drop c.instructions.length) := by
        rw [hec, drop_app]
        rw [hsplit] at agree
        exact agrees_mono_left agree
      rcases IHe c c1 env p.2 p.1 s big bigC he (by rw [hev])
          ⟨sins, scon, hc1con, conbound, insbound, hip, hsp, agreeE, wf, rel⟩
          (by rw [letNamesS_expr] at hfresh; exact hfresh)
          (by rw [letNamesS_expr] at hdef; exact hdef) with
        hhalt | ⟨s1, hsteps1, i1, i2, i3, i4, i5, i6, ⟨o1, hval1, her1⟩, i8⟩
      · exact Or.inl hhalt
      have agreeB : Agrees big c1.instructions.length [opPop] := by
        rw [hsplit] at agree
        have h5 := @agrees_shift big ecode [opPop] c.instructions.length agree
        have h6 : c1.instructions.length = c.instructions.length + ecode.length := by
          rw [hec]
          simp
        rw [h6]
        exact h5
      have hlt : s1.ip < s1.instructions.length := by
        rw [i1, sins, i3]
        have h4 := agrees_len_le agreeB
        simp at h4
        omega
      have hop : s1.instructions.getD s1.ip 0 = opPop := by
        rw [i1, sins, i3]
        exact agrees_head agreeB
      have hstep := vmStep_opPop hlt hop (by omega)
      right
      refine ⟨_, steps_trans hsteps1 (steps_single hstep), ?_, ?_, ?_, ?_, ?_, ?_, ?_⟩
      · exact i1
      · exact i2
      · show s1.ip + 1 = c'.instructions.length
        rw [i3, hcode]
        simp
      · show s1.sp - 1 = s.sp
        omega
      · intro k hk
        show s1.stack k = s.stack k
        exact i6 k hk
      · intro vv hvv
        injection hvv with hvv2
        refine ⟨o1, ?_, by rw [← hvv2]; exact her1⟩
        show s1.stack s.sp = some o1
        exact hval1
      · have htab : c'.symbolTable = c1.symbolTable := by rw [← h2]; rfl
        show StateRel c'.symbolTable p.2 _
        rw [htab]
        exact stateRel_same_global i8 rfl

theorem simS_let (n : String) (value : Expr) (IHv : SimEStmt value) :
    SimSStmt (.letStmt n value) := by
  intro c c' env env1 out s big bigC hcomp heval hpre hfresh hdef
  rw [compileStmt_let_eq] at hcomp
  rw [evalStmt_let_eq] at heval
  cases he : compileExpr c value with
  | error m => rw [he, exBind_err] at hcomp; exact Except.noConfusion hcomp
  | ok c1 =>
    rw [he, exBind_ok] at hcomp
    try dsimp only [] at hcomp
    injection hcomp with h2
    cases hev : evalExpr env value with
    | none => rw [hev] at heval; exact Option.noConfusion heval
    | some p =>
      rw [hev] at heval
      simp only [Option.map] at heval
      injection heval with h1
      have henv : env1 = envUpdate p.2 n p.1 := by
        have h3 := congrArg Prod.fst h1
        simpa using h3.symm
      have hout : out = none := by
        have h3 := congrArg Prod.snd h1
        simpa using h3.symm
      subst henv
      subst hout
      obtain ⟨sins, scon, conend, conbound, insbound, hip, hsp, agree, wf, rel⟩ := hpre
      obtain ⟨ecode, hec⟩ := shape_ins (shapeE value c c1 he)
      have hD : c1.symbolTable.numDefinitions < 65536 := by
        have h4 := shape_numDefs (shapeE value c c1 he)
        rw [letNamesS_let, List.length_append] at hdef
        simp at hdef
        omega
      have hd1 : (c1.symbolTable.define n).1 = c1.symbolTable.numDefinitions := rfl
      have hcode : c'.instructions = c1.instructions ++
          [opSetGlobal, c1.symbolTable.numDefinitions / 256,
            c1.symbolTable.numDefinitions % 256] := by
        rw [← h2]
        show c1.instructions
          ++ (make opSetGlobal [((c1.symbolTable.define n).1 : Int)]).getD [] = _
        rw [make_opSetGlobal, hd1, putUint16_nat, Nat.mod_eq_of_lt hD]
        rfl
      have hc1con : c1.constants <+: bigC := by
        have h3 : c'.constants = c1.constants := by rw [← h2]; rfl
        rwa [h3] at conend
      have hsplit : c'.instructions.drop c.instructions.length = ecode ++
          [opSetGlobal, c1.symbolTable.numDefinitions / 256,
            c1.symbolTable.numDefinitions % 256] := by
        rw [hcode, hec, List.append_assoc, drop_app]
      have agreeE : Agrees big c.instructions.length
          (c1.instructions.drop c.instructions.length) := by
        rw [hec, drop_app]
        rw [hsplit] at agree
        exact agrees_mono_left agree
      rcases IHv c c1 env p.2 p.1 s big bigC he (by rw [hev])
          ⟨sins, scon, hc1con, conbound, insbound, hip, hsp, agreeE, wf, rel⟩
          (by rw [letNamesS_let] at hfresh; exact nodup_take_left hfresh)
          (by rw [letNamesS_let, List.length_append] at hdef; omega) with
        hhalt | ⟨s1, hsteps1, i1, i2, i3, i4, i5, i6, ⟨o1, hval1, her1⟩, i8⟩
      · exact Or.inl hhalt
      have agreeB : Agrees big c1.instructions.length
          [opSetGlobal, c1.symbolTable.numDefinitions / 256,
            c1.symbolTable.numDefinitions % 256] := by
        rw [hsplit] at agree
        have h5 := @agrees_shift big ecode
          [opSetGlobal, c1.symbolTable.numDefinitions / 256,
            c1.symbolTable.numDefinitions % 256] c.instructions.length agree
        have h6 : c1.instructions.length = c.instructions.length + ecode.length := by
          rw [hec]
          simp
        rw [h6]
        exact h5
      have hlt : s1.ip < s1.instructions.length := by
        rw [i1, sins, i3]
        have h4 := agrees_len_le agreeB
        simp at h4
        omega
      have hop : s1.instructions.getD s1.ip 0 = opSetGlobal := by
        rw [i1, sins, i3]
        exact agrees_head agreeB
      have hrd : readUint16 (s1.instructions.drop (s1.ip + 1))
          = some c1.symbolTable.numDefinitions := by
        rw [i1, sins, i3]
        have h5 : Agrees big (c1.instructions.length + 1)
            [c1.symbolTable.numDefinitions / 256, c1.symbolTable.numDefinitions % 256] :=
          @agrees_shift big [opSetGlobal]
            [c1.symbolTable.numDefinitions / 256, c1.symbolTable.numDefinitions % 256]
            c1.instructions.length agreeB
        rw [readUint16_agrees h5]
        congr 1
        omega
      have hstep := vmStep_opSetGlobal hlt hop c1.symbolTable.numDefinitions hrd (by omega)
      have e1 : s1.sp - 1 = s.sp := by omega
      rw [e1, hval1] at hstep
      right
      refine ⟨_, steps_trans hsteps1 (steps_single hstep), ?_, ?_, ?_, ?_, ?_, ?_, ?_⟩
      · exact i1
      · exact i2
      · show s1.ip + 3 = c'.instructions.length
        rw [i3, hcode]
        simp
      · rfl
      · intro k hk
        show s1.stack k = s.stack k
        exact i6 k hk
      · intro vv hvv
        exact Option.noConfusion hvv
      · have htab : c'.symbolTable = (c1.symbolTable.define n).2 := by
          rw [← h2]
          rfl
        show StateRel c'.symbolTable (envUpdate p.2 n p.1) _
        rw [htab]
        intro m w hm
        by_cases hmn : m = n
        · subst hmn
          unfold envUpdate at hm
          rw [if_pos rfl] at hm
          injection hm with hw
          refine ⟨c1.symbolTable.numDefinitions, ?_, ?_, o1, ?_, ?_⟩
          · show SymbolTable.resolve
              ⟨(m, c1.symbolTable.numDefinitions) :: c1.symbolTable.store,
                c1.symbolTable.numDefinitions + 1⟩ m = _
            simp [SymbolTable.resolve, List.find?]
          · show c1.symbolTable.numDefinitions
              < c1.symbolTable.numDefinitions + 1
            omega
          · show (if c1.symbolTable.numDefinitions = c1.symbolTable.numDefinitions
              then some o1 else s1.global c1.symbolTable.numDefinitions) = some o1
            rw [if_pos rfl]
          · rw [← hw]
            exact her1
        · have hm' : p.2 m = some w := by
            unfold envUpdate at hm
            rw [if_neg hmn] at hm
            exact hm
          obtain ⟨i, hres, hlt2, o', hgl, her'⟩ := i8 m w hm'
          refine ⟨i, ?_, ?_, o', ?_, her'⟩
          · have h9 : ((c1.symbolTable.define n).2).resolve m
                = c1.symbolTable.resolve m :=
              resolve_congr_store
                (show ((c1.symbolTable.define n).2).store
                  = [(n, c1.symbolTable.numDefinitions)] ++ c1.symbolTable.store from rfl)
                (by
                  intro q hq
                  rcases List.mem_singleton.mp hq with rfl
                  exact fun h9 => hmn h9.symm)
            rw [h9]
            exact hres
          · show i < (c1.symbolTable.define n).2.numDefinitions
            have h10 : (c1.symbolTable.define n).2.numDefinitions
                = c1.symbolTable.numDefinitions + 1 := rfl
            omega
          · show (if i = c1.symbolTable.numDefinitions then some o1 else s1.global i)
              = some o'
            rw [if_neg (by omega)]
            exact hgl

theorem simSL_nil : SimSLStmt .nil := by
  intro c c' env env1 last out s big bigC hcomp heval hpre hfresh hdef hlast
  rw [compileStmts_nil_eq] at hcomp
  injection hcomp with h2
  rw [evalBlockAux_nil_eq] at heval
  injection heval with h1
  have henv : env1 = env := by
    have h3 := congrArg Prod.fst h1
    simpa using h3.symm
  have hout : out = last := by
    have h3 := congrArg Prod.snd h1
    simpa using h3.symm
  subst henv
  subst hout
  obtain ⟨sins, scon, conend, conbound, insbound, hip, hsp, agree, wf, rel⟩ := hpre
  right
  refine ⟨s, steps_refl s, rfl, rfl, ?_, rfl, fun k hk => rfl, hlast, ?_⟩
  · rw [hip, h2]
  · rw [← h2]
    exact rel

theorem simSL_cons (st : Stmt) (rest : StmtList) (IHs : SimSStmt st)
    (IHrest : SimSLStmt rest) : SimSLStmt (.cons st rest) := by
  intro c c' env env1 last out s big bigC hcomp heval hpre hfresh hdef hlast
  rw [compileStmts_cons_eq] at hcomp
  rw [evalBlockAux_cons_eq] at heval
  cases hs : compileStmt c st with
  | error m => rw [hs, exBind_err] at hcomp; exact Except.noConfusion hcomp
  | ok c1 =>
    rw [hs, exBind_ok] at hcomp
    cases hevs : evalStmt env st with
    | none => rw [hevs] at heval; exact Option.noConfusion heval
    | some p =>
      rw [hevs] at heval
      simp only [Option.bind] at heval
      obtain ⟨sins, scon, conend, conbound, insbound, hip, hsp, agree, wf, rel⟩ := hpre
      obtain ⟨scode, hsc⟩ := shape_ins ((shapeS st c c1 hs).1)
      obtain ⟨rcode, hrc⟩ := shape_ins ((shapeSL rest c1 c' hcomp).1)
      have hsplit : c'.instructions.drop c.instructions.length = scode ++ rcode := by
        rw [hrc, hsc, List.append_assoc, drop_app]
      have hc1con : c1.constants <+: bigC :=
        conend_of (shapeSL rest c1 c' hcomp).1 conend
      have agreeS : Agrees big c.instructions.length
          (c1.instructions.drop c.instructions.length) := by
        rw [hsc, drop_app]
        rw [hsplit] at agree
        exact agrees_mono_left agree
      rcases IHs c c1 env p.1 p.2 s big bigC hs (by rw [hevs])
          ⟨sins, scon, hc1con, conbound, insbound, hip, hsp, agreeS, wf, rel⟩
          (by rw [letNamesSL_cons] at hfresh; exact nodup_take_left hfresh)
          (by rw [letNamesSL_cons, List.length_append] at hdef; omega) with
        hhalt | ⟨s1, hsteps1, i1, i2, i3, i4, i5, i6, i8⟩
      · exact Or.inl hhalt
      have agreeR : Agrees big c1.instructions.length
          (c'.instructions.drop c1.instructions.length) := by
        have h8 : c'.instructions.drop c1.instructions.length = rcode := by
          rw [hrc, drop_app]
        rw [h8]
        rw [hsplit] at agree
        have h5 := @agrees_shift big scode rcode c.instructions.length agree
        have h6 : c1.instructions.length = c.instructions.length + scode.length := by
          rw [hsc]
          simp
        rw [h6]
        exact h5
      rcases IHrest c1 c' p.1 env1 p.2 out s1 big bigC hcomp heval
          ⟨by rw [i1, sins], by rw [i2, scon], conend, conbound, insbound, i3,
            by omega, agreeR, shape_wf (shapeS st c c1 hs).1 wf, i8⟩
          (by
            rw [symNames_of_shape (shapeS st c c1 hs).1]
            rw [letNamesSL_cons] at hfresh
            exact nodup_shift hfresh)
          (by
            rw [shape_numDefs (shapeS st c c1 hs).1]
            rw [letNamesSL_cons, List.length_append] at hdef
            omega)
          (by
            intro vv hvv
            have h9 := i6 vv hvv
            rw [← i4] at h9
            exact h9) with
        hhalt2 | ⟨s2, hsteps2, j1, j2, j3, j4, j5, j6, j8⟩
      · exact Or.inl (steps_halts hsteps1 hhalt2)
      right
      refine ⟨s2, steps_trans hsteps1 hsteps2, by rw [j1, i1], by rw [j2, i2], j3,
        by omega, ?_, ?_, j8⟩
      · intro k hk
        rw [j5 k (by omega)]
        exact i5 k hk
      · intro vv hvv
        have h9 := j6 vv hvv
        rw [i4] at h9
        exact h9

theorem simBV_nil : SimBVStmt .nil := by
  intro c c3 c' env env1 v s big bigC hcomp hc' heval hpre hfresh hdef
  rw [evalBlockAux_nil_eq] at heval
  exact Option.noConfusion heval

theorem simBV_single_let (n : String) (value : Expr) :
    SimBVStmt (.cons (.letStmt n value) .nil) := by
  intro c c3 c' env env1 v s big bigC hcomp hc' heval hpre hfresh hdef
  rw [evalBlockAux_cons_eq, evalStmt_let_eq] at heval
  cases hev : evalExpr env value with
  | none => rw [hev] at heval; exact Option.noConfusion heval
  | some p =>
    rw [hev] at heval
    simp only [Option.map, Option.bind] at heval
    rw [evalBlockAux_nil_eq] at heval
    exact Option.noConfusion heval

theorem simBV_single_expr (e : Expr) (IHe : SimEStmt e) :
    SimBVStmt (.cons (.exprStmt e) .nil) := by
  intro c c3 c' env env1 v s big bigC hcomp hc' heval hpre hfresh hdef
  rw [compileStmts_cons_eq, compileStmt_expr_eq] at hcomp
  cases he : compileExpr c e with
  | error m => rw [he, exBind_err, exBind_err] at hcomp; exact Except.noConfusion hcomp
  | ok c1 =>
    rw [he, exBind_ok, exBind_ok, compileStmts_nil_eq] at hcomp
    injection hcomp with h2
    rw [evalBlockAux_cons_eq, evalStmt_expr_eq] at heval
    cases hev : evalExpr env e with
    | none => rw [hev] at heval; exact Option.noConfusion heval
    | some p =>
      rw [hev] at heval
      simp only [Option.map, Option.bind] at heval
      rw [evalBlockAux_nil_eq] at heval
      unfold blockValue at heval
      injection heval with h1
      have hv : v = p.1 := by
        have h3 := congrArg Prod.fst h1
        simpa using h3.symm
      have henv : env1 = p.2 := by
        have h3 := congrArg Prod.snd h1
        simpa using h3.symm
      subst hv
      subst henv
      have hpop : lastInstructionIsPop c3 = true := by
        rw [← h2]
        rfl
      rw [hpop, if_pos rfl] at hc'
      have hins : c'.instructions = c1.instructions := by
        rw [hc']
        show c3.instructions.take c3.lastInstruction.position = _
        rw [← h2]
        show (c1.instructions ++ [opPop]).take c1.instructions.length = _
        exact List.take_left c1.instructions [opPop]
      have htab : c'.symbolTable = c1.symbolTable := by
        rw [hc']
        show c3.symbolTable = _
        rw [← h2]
        rfl
      have hcon : c'.constants = c1.constants := by
        rw [hc']
        show c3.constants = _
        rw [← h2]
        rfl
      obtain ⟨sins, scon, conend, conbound, insbound, hip, hsp, agree, wf, rel⟩ := hpre
      rcases IHe c c1 env p.2 p.1 s big bigC he (by rw [hev])
          ⟨sins, scon, by rwa [hcon] at conend, conbound, insbound, hip, hsp,
            by rwa [hins] at agree, wf, rel⟩
          (by rw [letNamesSL_cons, letNamesS_expr, letNamesSL_nil, List.append_nil]
                at hfresh
              exact hfresh)
          (by rw [letNamesSL_cons, letNamesS_expr, letNamesSL_nil, List.append_nil]
                at hdef
              exact hdef) with
        hhalt | ⟨s1, hsteps1, i1, i2, i3, i4, i5, i6, i7, i8⟩
      · exact Or.inl hhalt
      right
      refine ⟨s1, hsteps1, i1, i2, ?_, i4, i5, i6, i7, ?_⟩
      · rw [hins]
        exact i3
      · rw [htab]
        exact i8

theorem simBV_cons (st : Stmt) (st2 : Stmt) (rest2 : StmtList)
    (IHs : SimSStmt st) (IHbv : SimBVStmt (.cons st2 rest2)) :
    SimBVStmt (.cons st (.cons st2 rest2)) := by
  intro c c3 c' env env1 v s big bigC hcomp hc' heval hpre hfresh hdef
  rw [compileStmts_cons_eq] at hcomp
  rw [evalBlockAux_cons_eq] at heval
  cases hs : compileStmt c st with
  | error m => rw [hs, exBind_err] at hcomp; exact Except.noConfusion hcomp
  | ok c1 =>
    rw [hs, exBind_ok] at hcomp
    cases hevs : evalStmt env st with
    | none => rw [hevs] at heval; simp only [Option.bind] at heval;
              exact Option.noConfusion heval
    | some p =>
      rw [hevs] at heval
      simp only [Option.bind] at heval
      have heval2 : blockValue (evalBlockAux p.1 (.cons st2 rest2) none)
          = some (v, env1) := by
        rw [show evalBlockAux p.1 (.cons st2 rest2) none
          = evalBlockAux p.1 (.cons st2 rest2) p.2 from rfl]
        exact heval
      obtain ⟨sins, scon, conend, conbound, insbound, hip, hsp, agree, wf, rel⟩ := hpre
      obtain ⟨scode, hsc⟩ := shape_ins ((shapeS st c c1 hs).1)
      obtain ⟨rcode, hrc⟩ := shape_ins ((shapeSL (.cons st2 rest2) c1 c3 hcomp).1)
      have hposr := (shapeSL (.cons st2 rest2) c1 c3 hcomp).2
        (fun hh => StmtList.noConfusion hh)
      have hinsrel : ∃ rc, c'.instructions = c1.instructions ++ rc := by
        by_cases hp : lastInstructionIsPop c3
        · rw [hp, if_pos rfl] at hc'
          refine ⟨rcode.take (c3.lastInstruction.position - c1.instructions.length), ?_⟩
          rw [hc']
          show c3.instructions.take c3.lastInstruction.position = _
          rw [hrc, List.take_append_eq_append_take,
            List.take_of_length_le (by omega)]
        · rw [if_neg hp] at hc'
          exact ⟨rcode, by rw [hc', hrc]⟩
      obtain ⟨rc, hrcins⟩ := hinsrel
      have hccon : c'.constants = c3.constants := by
        by_cases hp : lastInstructionIsPop c3
        · rw [hp, if_pos rfl] at hc'
          rw [hc']
          rfl
        · rw [if_neg hp] at hc'
          rw [hc']
      have htab : c'.symbolTable = c3.symbolTable := by
        by_cases hp : lastInstructionIsPop c3
        · rw [hp, if_pos rfl] at hc'
          rw [hc']
          rfl
        · rw [if_neg hp] at hc'
          rw [hc']
      have hsplit : c'.instructions.drop c.instructions.length = scode ++ rc := by
        rw [hrcins, hsc, List.append_assoc, drop_app]
      have hconend3 : c3.constants <+: bigC := by rwa [hccon] at conend
      have hc1con : c1.constants <+: bigC :=
        conend_of (shapeSL (.cons st2 rest2) c1 c3 hcomp).1 hconend3
      have agreeS : Agrees big c.instructions.length
          (c1.instructions.drop c.instructions.length) := by
        rw [hsc, drop_app]
        rw [hsplit] at agree
        exact agrees_mono_left agree
      rcases IHs c c1 env p.1 p.2 s big bigC hs (by rw [hevs])
          ⟨sins, scon, hc1con, conbound, insbound, hip, hsp, agreeS, wf, rel⟩
          (by rw [letNamesSL_cons] at hfresh; exact nodup_take_left hfresh)
          (by rw [letNamesSL_cons, List.length_append] at hdef; omega) with
        hhalt | ⟨s1, hsteps1, i1, i2, i3, i4, i5, i6, i8⟩
      · exact Or.inl hhalt
      have agreeR : Agrees big c1.instructions.length
          (c'.instructions.drop c1.instructions.length) := by
        have h8 : c'.instructions.drop c1.instructions.length = rc := by
          rw [hrcins, drop_app]
        rw [h8]
        rw [hsplit] at agree
        have h5 := @agrees_shift big scode rc c.instructions.length agree
        have h6 : c1.instructions.length = c.instructions.length + scode.length := by
          rw [hsc]
          simp
        rw [h6]
        exact h5
      rcases IHbv c1 c3 c' p.1 env1 v s1 big bigC hcomp hc' heval2
          ⟨by rw [i1, sins], by rw [i2, scon], conend, conbound, insbound, i3,
            by omega, agreeR, shape_wf (shapeS st c c1 hs).1 wf, i8⟩
          (by
            rw [symNames_of_shape (shapeS st c c1 hs).1]
            rw [letNamesSL_cons] at hfresh
            exact nodup_shift hfresh)
          (by
            rw [shape_numDefs (shapeS st c c1 hs).1]
            rw [letNamesSL_cons, List.length_append] at hdef
            omega) with
        hhalt2 | ⟨s2, hsteps2, j1, j2, j3, j4, j5, j6, ⟨o2, hval2, her2⟩, j8⟩
      · exact Or.inl (steps_halts hsteps1 hhalt2)
      right
      refine ⟨s2, steps_trans hsteps1 hsteps2, by rw [j1, i1], by rw [j2, i2], j3,
        by omega, by omega, ?_, ?_, j8⟩
      · intro k hk
        rw [j6 k (by omega)]
        exact i5 k hk
      · refine ⟨o2, ?_, her2⟩
        rw [← i4]
        exact hval2

theorem changeOperand_len (c : CompState) (p : Nat) (t : Int) :
    (changeOperand c p t).instructions.length = c.instructions.length := by
  show (writeBytes c.instructions p _).length = _
  rw [writeBytes_length]

theorem branch_block {c2 c3 : CompState} {csq : StmtList}
    (hcons : compileStmts c2 csq = .ok c3)
    (hnotpop : lastInstructionIsPop c2 = false) :
    ∃ cc, (if lastInstructionIsPop c3 then removeLastPop c3 else c3).instructions
        = c2.instructions ++ cc ∧
      (if lastInstructionIsPop c3 then removeLastPop c3 else c3).constants
        = c3.constants ∧
      (if lastInstructionIsPop c3 then removeLastPop c3 else c3).symbolTable
        = c3.symbolTable := by
  obtain ⟨cc0, hc3ins⟩ := shape_ins ((shapeSL csq c2 c3 hcons).1)
  by_cases hp : lastInstructionIsPop c3
  · rw [if_pos hp]
    have hpos : c2.instructions.length ≤ c3.lastInstruction.position := by
      cases csq with
      | nil =>
        rw [compileStmts_nil_eq] at hcons
        injection hcons with hc
        rw [← hc] at hp
        rw [hnotpop] at hp
        exact absurd hp (by simp)
      | cons a b =>
        exact (shapeSL _ c2 c3 hcons).2 (fun hh => StmtList.noConfusion hh)
    refine ⟨cc0.take (c3.lastInstruction.position - c2.instructions.length), ?_, rfl, rfl⟩
    show c3.instructions.take c3.lastInstruction.position = _
    rw [hc3ins, List.take_append_eq_append_take, List.take_of_length_le (by omega)]
  · rw [if_neg hp]
    exact ⟨cc0, hc3ins, rfl, rfl⟩

theorem simE_if_noAlt (cond : Expr) (csq : StmtList) (IHc : SimEStmt cond)
    (IHbv : SimBVStmt csq) : SimEStmt (.ifE cond csq .noAlt) := by
  intro c c' env env1 v s big bigC hcomp heval hpre hfresh hdef
  have hcomp0 := hcomp
  rw [compileExpr_ifE_noAlt_eq] at hcomp
  rw [evalExpr_ifE_noAlt_eq] at heval
  cases hcond : compileExpr c cond with
  | error m => rw [hcond, exBind_err] at hcomp; exact Except.noConfusion hcomp
  | ok c1 =>
  rw [hcond, exBind_ok] at hcomp
  try dsimp only [] at hcomp
  cases hcons : compileStmts (emit c1 opJumpNotTruthy [9999]).2 csq with
  | error m => rw [hcons, exBind_err] at hcomp; exact Except.noConfusion hcomp
  | ok c3 =>
  rw [hcons, exBind_ok] at hcomp
  try dsimp only [] at hcomp
  replace hcomp := Except.ok.inj hcomp
  rw [show (emit c1 opJumpNotTruthy [9999]).1 = c1.instructions.length from rfl] at hcomp
  obtain ⟨c4, hc4def⟩ : ∃ x, (if lastInstructionIsPop c3 then removeLastPop c3 else c3)
      = x := ⟨_, rfl⟩
  rw [hc4def] at hcomp
  obtain ⟨cc, hc4ins, hc4con, hc4tab⟩ := branch_block hcons rfl
  rw [hc4def] at hc4ins hc4con hc4tab
  rw [show (emit c4 opJump [9999]).1 = c4.instructions.length from rfl] at hcomp
  obtain ⟨t1, ht1def⟩ : ∃ x, (emit c4 opJump [9999]).2.instructions.length = x := ⟨_, rfl⟩
  rw [ht1def] at hcomp
  obtain ⟨c6, hc6def⟩ : ∃ x, changeOperand (emit c4 opJump [9999]).2
      c1.instructions.length (t1 : Int) = x := ⟨_, rfl⟩
  rw [hc6def] at hcomp
  obtain ⟨c7, hc7def⟩ : ∃ x, (emit c6 opNull []).2 = x := ⟨_, rfl⟩
  rw [hc7def] at hcomp
  obtain ⟨t2, ht2def⟩ : ∃ x, c7.instructions.length = x := ⟨_, rfl⟩
  rw [ht2def] at hcomp
  obtain ⟨sins, scon, conend, conbound, insbound, hip, hsp, agree, wf, rel⟩ := hpre
  obtain ⟨condcode, hccode⟩ := shape_ins (shapeE cond c c1 hcond)
  have hc2ins : (emit c1 opJumpNotTruthy [9999]).2.instructions
      = c1.instructions ++ [opJumpNotTruthy, 39, 15] := rfl
  have hc5ins : (emit c4 opJump [9999]).2.instructions
      = c4.instructions ++ [opJump, 39, 15] := rfl
  have hccon : c'.constants = c3.constants := by
    rw [← hcomp]
    show c7.constants = _
    rw [← hc7def]
    show c6.constants = _
    rw [← hc6def]
    show c4.constants = _
    exact hc4con
  have htabeq : c'.symbolTable = c3.symbolTable := by
    rw [← hcomp]
    show c7.symbolTable = _
    rw [← hc7def]
    show c6.symbolTable = _
    rw [← hc6def]
    show c4.symbolTable = _
    exact hc4tab
  have hlen1 : c1.instructions.length = c.instructions.length + condcode.length := by
    rw [hccode]
    simp
  have hlen4 : c4.instructions.length = c1.instructions.length + (3 + cc.length) := by
    rw [hc4ins, hc2ins]
    simp only [List.length_append, List.length_cons, List.length_nil]
    omega
  have hlent1 : t1 = c4.instructions.length + 3 := by
    rw [← ht1def, hc5ins]
    simp only [List.length_append, List.length_cons, List.length_nil]
  have hlent2 : t2 = t1 + 1 := by
    rw [← ht2def, ← hc7def]
    show ((emit c6 opNull []).2.instructions).length = t1 + 1
    rw [show (emit c6 opNull []).2.instructions = c6.instructions ++ [opNull] from rfl]
    rw [List.length_append, ← hc6def, changeOperand_len, ht1def]
    simp
  have hclen : c'.instructions.length = t2 := by
    rw [← hcomp, changeOperand_len, ht2def]
  have hbigle : c'.instructions.length ≤ big.length := by
    have h5 := agrees_len_le agree
    rw [List.length_drop] at h5
    have h6 := shapeP_len_le (shapeE _ c c' hcomp0)
    omega
  have ht2lt : t2 < 65536 := by omega
  have ht1lt : t1 < 65536 := by omega
  have hbyte1 : (emit c4 opJump [9999]).2.instructions.getD c1.instructions.length 0
      = opJumpNotTruthy := by
    rw [hc5ins, hc4ins, hc2ins]
    have h7 : ((c1.instructions ++ [opJumpNotTruthy, 39, 15]) ++ cc) ++ [opJump, 39, 15]
        = c1.instructions ++ (opJumpNotTruthy :: ([39, 15] ++ cc ++ [opJump, 39, 15])) := by
      simp
    rw [h7]
    exact getD_at_append _ _ _
  have hc6ins : c6.instructions
      = (c1.instructions ++ [opJumpNotTruthy, t1 / 256, t1 % 256])
        ++ (cc ++ [opJump, 39, 15]) := by
    rw [← hc6def]
    show writeBytes (emit c4 opJump [9999]).2.instructions c1.instructions.length
      ((make ((emit c4 opJump [9999]).2.instructions.getD c1.instructions.length 0)
        [(t1 : Int)]).getD []) = _
    rw [hbyte1, make_opJumpNotTruthy, putUint16_nat, Nat.mod_eq_of_lt ht1lt]
    simp only [Option.getD]
    rw [hc5ins, hc4ins, hc2ins]
    have h7 : ((c1.instructions ++ [opJumpNotTruthy, 39, 15]) ++ cc) ++ [opJump, 39, 15]
        = c1.instructions ++ [opJumpNotTruthy, 39, 15] ++ (cc ++ [opJump, 39, 15]) := by
      simp
    rw [h7]
    exact writeBytes_at_append _ _ _ _ rfl
  have hpre2len : (c1.instructions ++ [opJumpNotTruthy, t1 / 256, t1 % 256] ++ cc).length
      = c4.instructions.length := by
    simp only [List.length_append, List.length_cons, List.length_nil]
    omega
  have hc7ins : c7.instructions = c6.instructions ++ [opNull] := by
    rw [← hc7def]
    rfl
  have hbyte2 : c7.instructions.getD c4.instructions.length 0 = opJump := by
    rw [hc7ins, hc6ins]
    have h7 : ((c1.instructions ++ [opJumpNotTruthy, t1 / 256, t1 % 256])
          ++ (cc ++ [opJump, 39, 15])) ++ [opNull]
        = (c1.instructions ++ [opJumpNotTruthy, t1 / 256, t1 % 256] ++ cc)
          ++ (opJump :: ([39, 15] ++ [opNull])) := by
      simp
    rw [h7, ← hpre2len]
    exact getD_at_append _ _ _
  have hcfins : c'.instructions
      = (c1.instructions ++ [opJumpNotTruthy, t1 / 256, t1 % 256] ++ cc)
        ++ [opJump, t2 / 256, t2 % 256] ++ [opNull] := by
    rw [← hcomp]
    show writeBytes c7.instructions c4.instructions.length
      ((make (c7.instructions.getD c4.instructions.length 0) [(t2 : Int)]).getD []) = _
    rw [hbyte2, make_opJump, putUint16_nat, Nat.mod_eq_of_lt ht2lt]
    simp only [Option.getD]
    rw [hc7ins, hc6ins]
    have h7 : ((c1.instructions ++ [opJumpNotTruthy, t1 / 256, t1 % 256])
          ++ (cc ++ [opJump, 39, 15])) ++ [opNull]
        = (c1.instructions ++ [opJumpNotTruthy, t1 / 256, t1 % 256] ++ cc)
          ++ [opJump, 39, 15] ++ [opNull] := by
      simp
    rw [h7, ← hpre2len]
    exact writeBytes_at_append _ _ _ _ rfl
  have hbig0 : c'.instructions.drop c.instructions.length
      = condcode ++ (opJumpNotTruthy :: t1 / 256 :: t1 % 256 ::
          (cc ++ (opJump :: t2 / 256 :: t2 % 256 :: [opNull]))) := by
    rw [hcfins, hccode]
    have h7 : ((c.instructions ++ condcode) ++ [opJumpNotTruthy, t1 / 256, t1 % 256] ++ cc)
          ++ [opJump, t2 / 256, t2 % 256] ++ [opNull]
        = c.instructions ++ (condcode ++ (opJumpNotTruthy :: t1 / 256 :: t1 % 256 ::
            (cc ++ (opJump :: t2 / 256 :: t2 % 256 :: [opNull])))) := by
      simp
    rw [h7, drop_app]
  rw [hbig0] at agree
  have Acond : Agrees big c.instructions.length
      (c1.instructions.drop c.instructions.length) := by
    rw [hccode, drop_app]
    exact agrees_mono_left agree
  have A1 : Agrees big c1.instructions.length
      (opJumpNotTruthy :: t1 / 256 :: t1 % 256 ::
        (cc ++ (opJump :: t2 / 256 :: t2 % 256 :: [opNull]))) := by
    have h5 := @agrees_shift big condcode
      (opJumpNotTruthy :: t1 / 256 :: t1 % 256 ::
        (cc ++ (opJump :: t2 / 256 :: t2 % 256 :: [opNull])))
      c.instructions.length agree
    rw [← hlen1] at h5
    exact h5
  have A2 : Agrees big (c1.instructions.length + 3)
      (cc ++ (opJump :: t2 / 256 :: t2 % 256 :: [opNull])) :=
    @agrees_shift big [opJumpNotTruthy, t1 / 256, t1 % 256]
      (cc ++ (opJump :: t2 / 256 :: t2 % 256 :: [opNull])) c1.instructions.length A1
  have A3 : Agrees big c4.instructions.length
      (opJump :: t2 / 256 :: t2 % 256 :: [opNull]) := by
    have h5 := @agrees_shift big cc (opJump :: t2 / 256 :: t2 % 256 :: [opNull])
      (c1.instructions.length + 3) A2
    have e : c1.instructions.length + 3 + cc.length = c4.instructions.length := by omega
    rw [e] at h5
    exact h5
  have A4 : Agrees big t1 [opNull] := by
    have h5 : Agrees big (c4.instructions.length + 3) [opNull] :=
      @agrees_shift big [opJump, t2 / 256, t2 % 256] [opNull]
        c4.instructions.length A3
    have e : c4.instructions.length + 3 = t1 := by omega
    rw [e] at h5
    exact h5
  cases hev : evalExpr env cond with
  | none => rw [hev] at heval; exact Option.noConfusion heval
  | some p =>
  rw [hev] at heval
  simp only [Option.bind] at heval
  have conend3 : c3.constants <+: bigC := by rwa [hccon] at conend
  have conend2 : (emit c1 opJumpNotTruthy [9999]).2.constants <+: bigC :=
    conend_of (shapeSL csq _ c3 hcons).1 conend3
  have conend1 : c1.constants <+: bigC := conend2
  rcases IHc c c1 env p.2 p.1 s big bigC hcond (by rw [hev])
      ⟨sins, scon, conend1, conbound, insbound, hip, hsp, Acond, wf, rel⟩
      (by rw [letNamesE_ifE, letNamesAlt_no, List.append_nil] at hfresh
          exact nodup_take_left hfresh)
      (by rw [letNamesE_ifE, letNamesAlt_no, List.append_nil, List.length_append] at hdef
          omega) with
    hhalt | ⟨s1, hsteps1, i1, i2, i3, i4, i5, i6, ⟨oc, hvalc, herc⟩, i8⟩
  · exact Or.inl hhalt
  have hltJ : s1.ip < s1.instructions.length := by
    rw [i1, sins, i3]
    have h4 := @agrees_lt_length big _ c1.instructions.length A1 0 (by simp)
    simpa using h4
  have hopJ : s1.instructions.getD s1.ip 0 = opJumpNotTruthy := by
    rw [i1, sins, i3]
    exact agrees_head A1
  have hrdJ : readUint16 (s1.instructions.drop (s1.ip + 1)) = some t1 := by
    rw [i1, sins, i3]
    have h5 : Agrees big (c1.instructions.length + 1)
        (t1 / 256 :: t1 % 256 :: (cc ++ (opJump :: t2 / 256 :: t2 % 256 :: [opNull]))) :=
      @agrees_shift big [opJumpNotTruthy]
        (t1 / 256 :: t1 % 256 :: (cc ++ (opJump :: t2 / 256 :: t2 % 256 :: [opNull])))
        c1.instructions.length A1
    rw [readUint16_agrees h5]
    congr 1
    omega
  have hstepJ := vmStep_opJumpNotTruthy hltJ hopJ t1 hrdJ (by omega)
  have e1 : s1.sp - 1 = s.sp := by omega
  rw [e1, hvalc, isTruthy_erase herc] at hstepJ
  have hfrBlock : (symNames c1.symbolTable ++ letNamesSL csq).Nodup := by
    rw [symNames_of_shape (shapeE cond c c1 hcond)]
    rw [letNamesE_ifE, letNamesAlt_no, List.append_nil] at hfresh
    exact nodup_shift hfresh
  have hdfBlock : c1.symbolTable.numDefinitions + (letNamesSL csq).length ≤ 65536 := by
    rw [shape_numDefs (shapeE cond c c1 hcond)]
    rw [letNamesE_ifE, letNamesAlt_no, List.append_nil, List.length_append] at hdef
    omega
  have hc2len : (emit c1 opJumpNotTruthy [9999]).2.instructions.length
      = c1.instructions.length + 3 := by
    rw [hc2ins]
    simp
  by_cases htr : isTruthyVal p.1 = true
  · rw [if_pos htr] at heval
    rw [if_pos htr] at hstepJ
    have hc4conB : c4.constants <+: bigC := by rwa [hc4con]
    have hblockagree : Agrees big (emit c1 opJumpNotTruthy [9999]).2.instructions.length
        (c4.instructions.drop (emit c1 opJumpNotTruthy [9999]).2.instructions.length) := by
      rw [hc4ins, drop_app, hc2len]
      exact agrees_mono_left A2
    rcases IHbv (emit c1 opJumpNotTruthy [9999]).2 c3 c4 p.2 env1 v
        { s1 with sp := s.sp, ip := s1.ip + 3 } big bigC hcons hc4def.symm heval
        ⟨by show s1.instructions = big; rw [i1, sins],
          by show s1.constants = bigC; rw [i2, scon],
          hc4conB, conbound, insbound,
          by show s1.ip + 3 = _; rw [i3, hc2len],
          by show s.sp ≤ 2048; omega,
          hblockagree,
          by rw [emit_snd_table]; exact shape_wf (shapeE cond c c1 hcond) wf,
          by rw [emit_snd_table]; exact stateRel_same_global i8 rfl⟩
        hfrBlock hdfBlock with
      hhalt2 | ⟨s2, hsteps2, j1, j2, j3, j4, j5, j6, ⟨o2, hval2, her2⟩, j8⟩
    · exact Or.inl (steps_halts (steps_trans hsteps1 (steps_single hstepJ)) hhalt2)
    · have hltJ2 : s2.ip < s2.instructions.length := by
        rw [j3, j1]
        show c4.instructions.length < s1.instructions.length
        rw [i1, sins]
        have h4 := @agrees_lt_length big _ c4.instructions.length A3 0 (by simp)
        simpa using h4
      have hopJ2 : s2.instructions.getD s2.ip 0 = opJump := by
        rw [j3, j1]
        show s1.instructions.getD c4.instructions.length 0 = _
        rw [i1, sins]
        exact agrees_head A3
      have hrdJ2 : readUint16 (s2.instructions.drop (s2.ip + 1)) = some t2 := by
        rw [j3, j1]
        show readUint16 (s1.instructions.drop (c4.instructions.length + 1)) = _
        rw [i1, sins]
        have h5 : Agrees big (c4.instructions.length + 1)
            (t2 / 256 :: t2 % 256 :: [opNull]) :=
          @agrees_shift big [opJump] (t2 / 256 :: t2 % 256 :: [opNull])
            c4.instructions.length A3
        rw [readUint16_agrees h5]
        congr 1
        omega
      have hstepJ2 := vmStep_opJump hltJ2 hopJ2 t2 hrdJ2
      right
      refine ⟨_, steps_trans hsteps1 (steps_trans (steps_single hstepJ)
        (steps_trans hsteps2 (steps_single hstepJ2))), ?_, ?_, ?_, ?_, ?_, ?_, ?_, ?_⟩
      · exact j1.trans i1
      · exact j2.trans i2
      · show t2 = c'.instructions.length
        omega
      · exact j4
      · exact j5
      · intro k hk
        have h9 := j6 k hk
        exact h9.trans (i6 k hk)
      · exact ⟨o2, hval2, her2⟩
      · show StateRel c'.symbolTable env1 _
        rw [htabeq, ← hc4tab]
        exact stateRel_same_global j8 rfl
  · rw [if_neg htr] at heval hstepJ
    injection heval with h1
    have hv : v = .nullV := by
      have h3 := congrArg Prod.fst h1
      simpa using h3.symm
    have henv : env1 = p.2 := by
      have h3 := congrArg Prod.snd h1
      simpa using h3.symm
    subst hv
    subst henv
    have hstepN := @vmStep_opNull { s1 with sp := s.sp, ip := t1 }
      (by
        show t1 < s1.instructions.length
        rw [i1, sins]
        have h4 := @agrees_lt_length big [opNull] t1 A4 0 (by simp)
        omega)
      (by
        show s1.instructions.getD t1 0 = opNull
        rw [i1, sins]
        exact agrees_head A4)
    by_cases hov : 2048 ≤ s.sp
    · left
      rw [if_pos (by show 2048 ≤ s.sp; exact hov)] at hstepN
      exact steps_halts (steps_trans hsteps1 (steps_single hstepJ)) (halts_step hstepN)
    · right
      rw [if_neg (by show ¬2048 ≤ s.sp; exact hov)] at hstepN
      refine ⟨_, steps_trans hsteps1 (steps_trans (steps_single hstepJ)
        (steps_single hstepN)), ?_, ?_, ?_, ?_, ?_, ?_, ?_, ?_⟩
      · exact i1
      · exact i2
      · show t1 + 1 = c'.instructions.length
        omega
      · rfl
      · show s.sp + 1 ≤ 2048
        omega
      · intro k hk
        show (if k = s.sp then some Obj.nullO else s1.stack k) = s.stack k
        rw [if_neg (by omega)]
        exact i6 k hk
      · refine ⟨.nullO, ?_, rfl⟩
        show (if s.sp = s.sp then some Obj.nullO else s1.stack s.sp) = _
        rw [if_pos rfl]
      · show StateRel c'.symbolTable p.2 _
        rw [htabeq]
        have hshape13 : ShapeP c1 c3 ([] ++ letNamesSL csq) :=
          shapeP_trans (shapeP_emit c1 opJumpNotTruthy [9999]) (shapeSL csq _ c3 hcons).1
        exact stateRel_extend_shape (stateRel_same_global i8 rfl) hshape13 hfrBlock

theorem simE_if_someAlt (cond : Expr) (csq b : StmtList) (IHc : SimEStmt cond)
    (IHbv : SimBVStmt csq) (IHbv2 : SimBVStmt b) :
    SimEStmt (.ifE cond csq (.someAlt b)) := by
  intro c c' env env1 v s big bigC hcomp heval hpre hfresh hdef
  have hcomp0 := hcomp
  rw [compileExpr_ifE_someAlt_eq] at hcomp
  rw [evalExpr_ifE_someAlt_eq] at heval
  cases hcond : compileExpr c cond with
  | error m => rw [hcond, exBind_err] at hcomp; exact Except.noConfusion hcomp
  | ok c1 =>
  rw [hcond, exBind_ok] at hcomp
  try dsimp only [] at hcomp
  cases hcons : compileStmts (emit c1 opJumpNotTruthy [9999]).2 csq with
  | error m => rw [hcons, exBind_err] at hcomp; exact Except.noConfusion hcomp
  | ok c3 =>
  rw [hcons, exBind_ok] at hcomp
  try dsimp only [] at hcomp
  rw [show (emit c1 opJumpNotTruthy [9999]).1 = c1.instructions.length from rfl] at hcomp
  obtain ⟨c4, hc4def⟩ : ∃ x, (if lastInstructionIsPop c3 then removeLastPop c3 else c3)
      = x := ⟨_, rfl⟩
  rw [hc4def] at hcomp
  obtain ⟨cc, hc4ins, hc4con, hc4tab⟩ := branch_block hcons rfl
  rw [hc4def] at hc4ins hc4con hc4tab
  rw [show (emit c4 opJump [9999]).1 = c4.instructions.length from rfl] at hcomp
  obtain ⟨t1, ht1def⟩ : ∃ x, (emit c4 opJump [9999]).2.instructions.length = x := ⟨_, rfl⟩
  rw [ht1def] at hcomp
  obtain ⟨c6, hc6def⟩ : ∃ x, changeOperand (emit c4 opJump [9999]).2
      c1.instructions.length (t1 : Int) = x := ⟨_, rfl⟩
  rw [hc6def] at hcomp
  have hnotpop6 : lastInstructionIsPop c6 = false := by
    rw [← hc6def]
    rfl
  cases halt : compileStmts c6 b with
  | error m => rw [halt, exBind_err] at hcomp; exact Except.noConfusion hcomp
  | ok c7a =>
  rw [halt, exBind_ok] at hcomp
  try dsimp only [] at hcomp
  replace hcomp := Except.ok.inj hcomp
  obtain ⟨c8, hc8def⟩ : ∃ x, (if lastInstructionIsPop c7a then removeLastPop c7a else c7a)
      = x := ⟨_, rfl⟩
  rw [hc8def] at hcomp
  obtain ⟨aa, hc8ins, hc8con, hc8tab⟩ := branch_block halt hnotpop6
  rw [hc8def] at hc8ins hc8con hc8tab
  obtain ⟨t2, ht2def⟩ : ∃ x, c8.instructions.length = x := ⟨_, rfl⟩
  rw [ht2def] at hcomp
  obtain ⟨sins, scon, conend, conbound, insbound, hip, hsp, agree, wf, rel⟩ := hpre
  obtain ⟨condcode, hccode⟩ := shape_ins (shapeE cond c c1 hcond)
  have hc2ins : (emit c1 opJumpNotTruthy [9999]).2.instructions
      = c1.instructions ++ [opJumpNotTruthy, 39, 15] := rfl
  have hc5ins : (emit c4 opJump [9999]).2.instructions
      = c4.instructions ++ [opJump, 39, 15] := rfl
  have hccon : c'.constants = c7a.constants := by
    rw [← hcomp]
    show c8.constants = _
    exact hc8con
  have htabeq : c'.symbolTable = c7a.symbolTable := by
    rw [← hcomp]
    show c8.symbolTable = _
    exact hc8tab
  have htab6 : c6.symbolTable = c3.symbolTable := by
    rw [← hc6def]
    show (emit c4 opJump [9999]).2.symbolTable = _
    rw [emit_snd_table]
    exact hc4tab
  have hc6con : c6.constants = c4.constants := by
    rw [← hc6def]
    rfl
  have hlen1 : c1.instructions.length = c.instructions.length + condcode.length := by
    rw [hccode]
    simp
  have hlen4 : c4.instructions.length = c1.instructions.length + (3 + cc.length) := by
    rw [hc4ins, hc2ins]
    simp only [List.length_append, List.length_cons, List.length_nil]
    omega
  have hlent1 : t1 = c4.instructions.length + 3 := by
    rw [← ht1def, hc5ins]
    simp only [List.length_append, List.length_cons, List.length_nil]
  have hc6len : c6.instructions.length = t1 := by
    rw [← hc6def, changeOperand_len]
    exact ht1def
  have hlent2 : t2 = t1 + aa.length := by
    rw [← ht2def, hc8ins, List.length_append, hc6len]
  have hclen : c'.instructions.length = t2 := by
    rw [← hcomp, changeOperand_len, ht2def]
  have hbigle : c'.instructions.length ≤ big.length := by
    have h5 := agrees_len_le agree
    rw [List.length_drop] at h5
    have h6 := shapeP_len_le (shapeE _ c c' hcomp0)
    omega
  have ht2lt : t2 < 65536 := by omega
  have ht1lt : t1 < 65536 := by omega
  have hbyte1 : (emit c4 opJump [9999]).2.instructions.getD c1.instructions.length 0
      = opJumpNotTruthy := by
    rw [hc5ins, hc4ins, hc2ins]
    have h7 : ((c1.instructions ++ [opJumpNotTruthy, 39, 15]) ++ cc) ++ [opJump, 39, 15]
        = c1.instructions ++ (opJumpNotTruthy :: ([39, 15] ++ cc ++ [opJump, 39, 15])) := by
      simp
    rw [h7]
    exact getD_at_append _ _ _
  have hc6ins : c6.instructions
      = (c1.instructions ++ [opJumpNotTruthy, t1 / 256, t1 % 256])
        ++ (cc ++ [opJump, 39, 15]) := by
    rw [← hc6def]
    show writeBytes (emit c4 opJump [9999]).2.instructions c1.instructions.length
      ((make ((emit c4 opJump [9999]).2.instructions.getD c1.instructions.length 0)
        [(t1 : Int)]).getD []) = _
    rw [hbyte1, make_opJumpNotTruthy, putUint16_nat, Nat.mod_eq_of_lt ht1lt]
    simp only [Option.getD]
    rw [hc5ins, hc4ins, hc2ins]
    have h7 : ((c1.instructions ++ [opJumpNotTruthy, 39, 15]) ++ cc) ++ [opJump, 39, 15]
        = c1.instructions ++ [opJumpNotTruthy, 39, 15] ++ (cc ++ [opJump, 39, 15]) := by
      simp
    rw [h7]
    exact writeBytes_at_append _ _ _ _ rfl
  have hpre2len : (c1.instructions ++ [opJumpNotTruthy, t1 / 256, t1 % 256] ++ cc).length
      = c4.instructions.length := by
    simp only [List.length_append, List.length_cons, List.length_nil]
    omega
  have hbyte2 : c8.instructions.getD c4.instructions.length 0 = opJump := by
    rw [hc8ins, hc6ins]
    have h7 : (((c1.instructions ++ [opJumpNotTruthy, t1 / 256, t1 % 256])
          ++ (cc ++ [opJump, 39, 15])) ++ aa)
        = (c1.instructions ++ [opJumpNotTruthy, t1 / 256, t1 % 256] ++ cc)
          ++ (opJump :: ([39, 15] ++ aa)) := by
      simp
    rw [h7, ← hpre2len]
    exact getD_at_append _ _ _
  have hcfins : c'.instructions
      = (c1.instructions ++ [opJumpNotTruthy, t1 / 256, t1 % 256] ++ cc)
        ++ [opJump, t2 / 256, t2 % 256] ++ aa := by
    rw [← hcomp]
    show writeBytes c8.instructions c4.instructions.length
      ((make (c8.instructions.getD c4.instructions.length 0) [(t2 : Int)]).getD []) = _
    rw [hbyte2, make_opJump, putUint16_nat, Nat.mod_eq_of_lt ht2lt]
    simp only [Option.getD]
    rw [hc8ins, hc6ins]
    have h7 : (((c1.instructions ++ [opJumpNotTruthy, t1 / 256, t1 % 256])
          ++ (cc ++ [opJump, 39, 15])) ++ aa)
        = (c1.instructions ++ [opJumpNotTruthy, t1 / 256, t1 % 256] ++ cc)
          ++ [opJump, 39, 15] ++ aa := by
      simp
    rw [h7, ← hpre2len]
    exact writeBytes_at_append _ _ _ _ rfl
  have hbig0 : c'.instructions.drop c.instructions.length
      = condcode ++ (opJumpNotTruthy :: t1 / 256 :: t1 % 256 ::
          (cc ++ (opJump :: t2 / 256 :: t2 % 256 :: aa))) := by
    rw [hcfins, hccode]
    have h7 : ((c.instructions ++ condcode) ++ [opJumpNotTruthy, t1 / 256, t1 % 256] ++ cc)
          ++ [opJump, t2 / 256, t2 % 256] ++ aa
        = c.instructions ++ (condcode ++ (opJumpNotTruthy :: t1 / 256 :: t1 % 256 ::
            (cc ++ (opJump :: t2 / 256 :: t2 % 256 :: aa)))) := by
      simp
    rw [h7, drop_app]
  rw [hbig0] at agree
  have Acond : Agrees big c.instructions.length
      (c1.instructions.drop c.instructions.length) := by
    rw [hccode, drop_app]
    exact agrees_mono_left agree
  have A1 : Agrees big c1.instructions.length
      (opJumpNotTruthy :: t1 / 256 :: t1 % 256 ::
        (cc ++ (opJump :: t2 / 256 :: t2 % 256 :: aa))) := by
    have h5 := @agrees_shift big condcode
      (opJumpNotTruthy :: t1 / 256 :: t1 % 256 ::
        (cc ++ (opJump :: t2 / 256 :: t2 % 256 :: aa)))
      c.instructions.length agree
    rw [← hlen1] at h5
    exact h5
  have A2 : Agrees big (c1.instructions.length + 3)
      (cc ++ (opJump :: t2 / 256 :: t2 % 256 :: aa)) :=
    @agrees_shift big [opJumpNotTruthy, t1 / 256, t1 % 256]
      (cc ++ (opJump :: t2 / 256 :: t2 % 256 :: aa)) c1.instructions.length A1
  have A3 : Agrees big c4.instructions.length
      (opJump :: t2 / 256 :: t2 % 256 :: aa) := by
    have h5 := @agrees_shift big cc (opJump :: t2 / 256 :: t2 % 256 :: aa)
      (c1.instructions.length + 3) A2
    have e : c1.instructions.length + 3 + cc.length = c4.instructions.length := by omega
    rw [e] at h5
    exact h5
  have A4 : Agrees big t1 aa := by
    have h5 : Agrees big (c4.instructions.length + 3) aa :=
      @agrees_shift big [opJump, t2 / 256, t2 % 256] aa
        c4.instructions.length A3
    have e : c4.instructions.length + 3 = t1 := by omega
    rw [e] at h5
    exact h5
  rw [letNamesE_ifE, letNamesAlt_some] at hfresh
  rw [letNamesE_ifE, letNamesAlt_some, List.length_append, List.length_append] at hdef
  have hfresh2 : (symNames c.symbolTable ++ (letNamesE cond
      ++ (letNamesSL csq ++ letNamesSL b))).Nodup := by
    simpa [List.append_assoc] using hfresh
  cases hev : evalExpr env cond with
  | none => rw [hev] at heval; exact Option.noConfusion heval
  | some p =>
  rw [hev] at heval
  simp only [Option.bind] at heval
  have conend7 : c7a.constants <+: bigC := by rwa [hccon] at conend
  have conend6 : c6.constants <+: bigC := conend_of (shapeSL b c6 c7a halt).1 conend7
  have conend4 : c4.constants <+: bigC := by rwa [hc6con] at conend6
  have conend3 : c3.constants <+: bigC := by rwa [hc4con] at conend4
  have conend2 : (emit c1 opJumpNotTruthy [9999]).2.constants <+: bigC :=
    conend_of (shapeSL csq _ c3 hcons).1 conend3
  have conend1 : c1.constants <+: bigC := conend2
  rcases IHc c c1 env p.2 p.1 s big bigC hcond (by rw [hev])
      ⟨sins, scon, conend1, conbound, insbound, hip, hsp, Acond, wf, rel⟩
      (nodup_take_left hfresh2)
      (by omega) with
    hhalt | ⟨s1, hsteps1, i1, i2, i3, i4, i5, i6, ⟨oc, hvalc, herc⟩, i8⟩
  · exact Or.inl hhalt
  have hltJ : s1.ip < s1.instructions.length := by
    rw [i1, sins, i3]
    have h4 := @agrees_lt_length big _ c1.instructions.length A1 0 (by simp)
    simpa using h4
  have hopJ : s1.instructions.getD s1.ip 0 = opJumpNotTruthy := by
    rw [i1, sins, i3]
    exact agrees_head A1
  have hrdJ : readUint16 (s1.instructions.drop (s1.ip + 1)) = some t1 := by
    rw [i1, sins, i3]
    have h5 : Agrees big (c1.instructions.length + 1)
        (t1 / 256 :: t1 % 256 :: (cc ++ (opJump :: t2 / 256 :: t2 % 256 :: aa))) :=
      @agrees_shift big [opJumpNotTruthy]
        (t1 / 256 :: t1 % 256 :: (cc ++ (opJump :: t2 / 256 :: t2 % 256 :: aa)))
        c1.instructions.length A1
    rw [readUint16_agrees h5]
    congr 1
    omega
  have hstepJ := vmStep_opJumpNotTruthy hltJ hopJ t1 hrdJ (by omega)
  have e1 : s1.sp - 1 = s.sp := by omega
  rw [e1, hvalc, isTruthy_erase herc] at hstepJ
  have hfrBlock : (symNames c1.symbolTable ++ letNamesSL csq).Nodup := by
    rw [symNames_of_shape (shapeE cond c c1 hcond)]
    exact nodup_take_left (nodup_shift hfresh2)
  have hdfBlock : c1.symbolTable.numDefinitions + (letNamesSL csq).length ≤ 65536 := by
    rw [shape_numDefs (shapeE cond c c1 hcond)]
    omega
  have hfrAlt : (symNames c6.symbolTable ++ letNamesSL b).Nodup := by
    rw [htab6, symNames_of_shape (shapeSL csq (emit c1 opJumpNotTruthy [9999]).2 c3 hcons).1,
      emit_snd_table, symNames_of_shape (shapeE cond c c1 hcond)]
    exact nodup_shift (nodup_shift hfresh2)
  have hdfAlt : c6.symbolTable.numDefinitions + (letNamesSL b).length ≤ 65536 := by
    rw [htab6, shape_numDefs (shapeSL csq (emit c1 opJumpNotTruthy [9999]).2 c3 hcons).1,
      emit_snd_table, shape_numDefs (shapeE cond c c1 hcond)]
    omega
  have hc2len : (emit c1 opJumpNotTruthy [9999]).2.instructions.length
      = c1.instructions.length + 3 := by
    rw [hc2ins]
    simp
  by_cases htr : isTruthyVal p.1 = true
  · rw [if_pos htr] at heval
    rw [if_pos htr] at hstepJ
    have hblockagree : Agrees big (emit c1 opJumpNotTruthy [9999]).2.instructions.length
        (c4.instructions.drop (emit c1 opJumpNotTruthy [9999]).2.instructions.length) := by
      rw [hc4ins, drop_app, hc2len]
      exact agrees_mono_left A2
    rcases IHbv (emit c1 opJumpNotTruthy [9999]).2 c3 c4 p.2 env1 v
        { s1 with sp := s.sp, ip := s1.ip + 3 } big bigC hcons hc4def.symm heval
        ⟨by show s1.instructions = big; rw [i1, sins],
          by show s1.constants = bigC; rw [i2, scon],
          conend4, conbound, insbound,
          by show s1.ip + 3 = _; rw [i3, hc2len],
          by show s.sp ≤ 2048; omega,
          hblockagree,
          by rw [emit_snd_table]; exact shape_wf (shapeE cond c c1 hcond) wf,
          by rw [emit_snd_table]; exact stateRel_same_global i8 rfl⟩
        hfrBlock hdfBlock with
      hhalt2 | ⟨s2, hsteps2, j1, j2, j3, j4, j5, j6, ⟨o2, hval2, her2⟩, j8⟩
    · exact Or.inl (steps_halts (steps_trans hsteps1 (steps_single hstepJ)) hhalt2)
    · have hltJ2 : s2.ip < s2.instructions.length := by
        rw [j3, j1]
        show c4.instructions.length < s1.instructions.length
        rw [i1, sins]
        have h4 := @agrees_lt_length big _ c4.instructions.length A3 0 (by simp)
        simpa using h4
      have hopJ2 : s2.instructions.getD s2.ip 0 = opJump := by
        rw [j3, j1]
        show s1.instructions.getD c4.instructions.length 0 = _
        rw [i1, sins]
        exact agrees_head A3
      have hrdJ2 : readUint16 (s2.instructions.drop (s2.ip + 1)) = some t2 := by
        rw [j3, j1]
        show readUint16 (s1.instructions.drop (c4.instructions.length + 1)) = _
        rw [i1, sins]
        have h5 : Agrees big (c4.instructions.length + 1)
            (t2 / 256 :: t2 % 256 :: aa) :=
          @agrees_shift big [opJump] (t2 / 256 :: t2 % 256 :: aa)
            c4.instructions.length A3
        rw [readUint16_agrees h5]
        congr 1
        omega
      have hstepJ2 := vmStep_opJump hltJ2 hopJ2 t2 hrdJ2
      right
      refine ⟨_, steps_trans hsteps1 (steps_trans (steps_single hstepJ)
        (steps_trans hsteps2 (steps_single hstepJ2))), ?_, ?_, ?_, ?_, ?_, ?_, ?_, ?_⟩
      · exact j1.trans i1
      · exact j2.trans i2
      · show t2 = c'.instructions.length
        omega
      · exact j4
      · exact j5
      · intro k hk
        have h9 := j6 k hk
        exact h9.trans (i6 k hk)
      · exact ⟨o2, hval2, her2⟩
      · show StateRel c'.symbolTable env1 _
        rw [htabeq]
        exact stateRel_extend_shape
          (by rw [htab6, ← hc4tab]; exact stateRel_same_global j8 rfl)
          (shapeSL b c6 c7a halt).1 hfrAlt
  · rw [if_neg htr] at heval hstepJ
    have hshape13 : ShapeP c1 c3 ([] ++ letNamesSL csq) :=
      shapeP_trans (shapeP_emit c1 opJumpNotTruthy [9999]) (shapeSL csq _ c3 hcons).1
    rcases IHbv2 c6 c7a c8 p.2 env1 v { s1 with sp := s.sp, ip := t1 } big bigC
        halt hc8def.symm heval
        ⟨by show s1.instructions = big; rw [i1, sins],
          by show s1.constants = bigC; rw [i2, scon],
          by rw [hc8con]; exact conend7,
          conbound, insbound,
          by show t1 = c6.instructions.length; exact hc6len.symm,
          by show s.sp ≤ 2048; omega,
          by show Agrees big c6.instructions.length
               (c8.instructions.drop c6.instructions.length)
             rw [hc8ins, drop_app, hc6len]
             exact A4,
          by rw [htab6]
             exact shape_wf (shapeSL csq _ c3 hcons).1
               (by rw [emit_snd_table]; exact shape_wf (shapeE cond c c1 hcond) wf),
          by rw [htab6]
             exact stateRel_extend_shape (stateRel_same_global i8 rfl) hshape13 hfrBlock⟩
        hfrAlt hdfAlt with
      hhalt2 | ⟨s2, hsteps2, j1, j2, j3, j4, j5, j6, ⟨o2, hval2, her2⟩, j8⟩
    · exact Or.inl (steps_halts (steps_trans hsteps1 (steps_single hstepJ)) hhalt2)
    · right
      refine ⟨_, steps_trans hsteps1 (steps_trans (steps_single hstepJ) hsteps2),
        ?_, ?_, ?_, ?_, ?_, ?_, ?_, ?_⟩
      · exact j1.trans i1
      · exact j2.trans i2
      · show s2.ip = c'.instructions.length
        rw [j3, ht2def, hclen]
      · exact j4
      · exact j5
      · intro k hk
        have h9 := j6 k hk
        exact h9.trans (i6 k hk)
      · exact ⟨o2, hval2, her2⟩
      · show StateRel c'.symbolTable env1 _
        rw [htabeq, ← hc8tab]
        exact j8

mutual

theorem simE : ∀ e : Expr, SimEStmt e
  | .intLit vl => simE_int vl
  | .strLit sl => simE_str sl
  | .boolLit bb => simE_bool bb
  | .ident n => simE_ident n
  | .pre op r => simE_pre op r (simE r)
  | .bin op l r => simE_bin op l r (simE l) (simE r)
  | .ifE cond csq .noAlt => simE_if_noAlt cond csq (simE cond) (simBV csq)
  | .ifE cond csq (.someAlt bb) =>
      simE_if_someAlt cond csq bb (simE cond) (simBV csq) (simBV bb)
  | .arrayLit elems => simE_array elems (simEL elems)
  | .hashLit ps => simE_hash ps

theorem simEL : ∀ es : ExprList, SimELStmt es
  | .nil => simEL_nil
  | .cons e rest => simEL_cons e rest (simE e) (simEL rest)

theorem simS : ∀ st : Stmt, SimSStmt st
  | .exprStmt e => simS_expr e (simE e)
  | .letStmt n vv => simS_let n vv (simE vv)

theorem simSL : ∀ sl : StmtList, SimSLStmt sl
  | .nil => simSL_nil
  | .cons st rest => simSL_cons st rest (simS st) (simSL rest)

theorem simBV : ∀ sl : StmtList, SimBVStmt sl
  | .nil => simBV_nil
  | .cons (.exprStmt e) .nil => simBV_single_expr e (simE e)
  | .cons (.letStmt n vv) .nil => simBV_single_let n vv
  | .cons st (.cons st2 rest2) =>
      simBV_cons st st2 rest2 (simS st) (simBV (.cons st2 rest2))

end

/-- C2 (amended): for every source program that evaluates to a final value
(its last top-level statement an expression statement — `let` statements
yield no value), compiles, has pairwise-distinct `let`-bound names, fits
the 16-bit operand encodings (instruction stream within 65535 bytes, at
most 65536 constants and 65536 globals), and whose run returns without
error, the VM ends with `sp = 0` and `LastPoppedStackElement()` holds an
object erasing to that final value. -/
theorem c2_amended (p : StmtList) (ins : List Nat) (consts : List Obj)
    (env1 : Env) (v : Val) (st : VMState)
    (hcomp : compileProgram p = .ok (ins, consts))
    (heval : evalProgram p = some (env1, some v))
    (hnodup : (letNamesSL p).Nodup)
    (hinsb : ins.length ≤ 65535)
    (hconb : consts.length ≤ 65536)
    (hdefb : (letNamesSL p).length ≤ 65536)
    (hhalt : RunHalts (vmNew ins consts) (.fin st)) :
    st.sp = 0 ∧ ∃ o, lastPoppedStackElement st = some o ∧ eraseObj o = some v := by
  cases hc : compileStmts compilerNew p with
  | error m =>
    rw [compileProgram, hc] at hcomp
    exact absurd hcomp (by simp [Except.map])
  | ok cF =>
  rw [compileProgram, hc] at hcomp
  simp only [Except.map] at hcomp
  replace hcomp := Except.ok.inj hcomp
  have hins : cF.instructions = ins := congrArg Prod.fst hcomp
  have hcons : cF.constants = consts := congrArg Prod.snd hcomp
  subst hins
  subst hcons
  rcases simSL p compilerNew cF emptyEnv env1 none (some v)
      (vmNew cF.instructions cF.constants) cF.instructions cF.constants hc heval
      ⟨rfl, rfl, List.prefix_refl _, hconb, hinsb, rfl,
        by show (0 : Nat) ≤ 2048; omega,
        List.prefix_refl _,
        by intro q hq; exact absurd hq (List.not_mem_nil q),
        by intro n vv hv; exact Option.noConfusion hv⟩
      hnodup
      (by show 0 + (letNamesSL p).length ≤ 65536; omega)
      (fun vv hvv => Option.noConfusion hvv) with
    hovf | ⟨s', hsteps, k1, k2, k3, k4, k5, k6, k7⟩
  · exact Halt.noConfusion (halts_unique hhalt hovf)
  · have hlen : s'.instructions.length = cF.instructions.length := by
      rw [k1]
      rfl
    have hnolt : ¬ s'.ip < s'.instructions.length := by
      rw [k3, hlen]
      omega
    have hfin : vmStep s' = .error (.fin s') := by
      unfold vmStep
      rw [if_neg hnolt]
    have hhalt2 : RunHalts (vmNew cF.instructions cF.constants) (.fin s') :=
      steps_halts hsteps (halts_step hfin)
    have hst : Halt.fin st = Halt.fin s' := halts_unique hhalt hhalt2
    have hst2 : st = s' := by injection hst
    subst hst2
    refine ⟨k4, ?_⟩
    obtain ⟨o, ho, he⟩ := k6 v rfl
    refine ⟨o, ?_, he⟩
    show st.stack st.sp = some o
    rw [k4]
    exact ho

/-- Witness for the amended C2 at the one-statement program `1;`: the run
halts with `sp = 0` and the last popped element erases to 1. -/
theorem c2_amended_witness :
    ∃ st, RunHalts (vmNew [opConstant, 0, 0, opPop] [Obj.intO 0 1]) (Halt.fin st) ∧
      st.sp = 0 ∧ ∃ o, lastPoppedStackElement st = some o ∧
        eraseObj o = some (Val.intV 1) := by
  refine ⟨_, ⟨3, rfl⟩, c2_amended (.cons (.exprStmt (.intLit 1)) .nil)
    [opConstant, 0, 0, opPop] [Obj.intO 0 1] emptyEnv (.intV 1) _
    rfl rfl (by decide) (by decide) (by decide) (by decide) ⟨3, rfl⟩⟩
